import Mathlib

/-!
# TuSlide: value model and track rendering

A shallow embedding of `state.go` (the `SliderState` value model), of the track
builders, the size options and the label and value placement of `slider.go`, of the
pointer handling and the slider group of `mouse.go`, of the tweens, springs, easing
functions, smooth steps and the animation manager of `animation.go` and of the
progress announcer and the accessible slider of `accessibility.go`, followed by the
properties proved of them.

Clock readings (`time.Since`, `time.Now`) are parameters of the functions that take
them, and `math.Pow`, `math.Sin` and `math.Pi` are parameters of the easing
functions that use them.

Go's `float64` appears in three forms.  The first embedding computes in `ℚ` (exact
arithmetic, no NaN, no rounding); what is proved of it is stated for exact
arithmetic, or does not depend on the arithmetic.  The namespace `Float64` repeats
the arithmetic of the source with the rounding of `float64` (`round64`: to nearest,
ties to even, on finite values; overflow to an infinity is not modelled).  The
namespace `IEEE` repeats `state.go` over values that include NaN and the infinities,
with the comparisons of Go and with the results of `+`, `-` and `*` as parameters.
Go's `int` is modelled by `ℤ`; `Contains64` adds with the wrap-around of 64 bits.
Methods with a pointer receiver become functions that return the updated state.
-/

set_option autoImplicit false

namespace Tuslide

/-! ## `state.go` -/

/-- The fields of `SliderState`. -/
structure SliderState where
  min : ℚ
  max : ℚ
  value : ℚ
  step : ℚ
  deriving DecidableEq, Repr

/-- Go `StateOption` is `func(*SliderState)`. -/
abbrev StateOption := SliderState → SliderState

namespace SliderState

/-- Go `clamp` restricts the value to `[min, max]`; the lower bound is tested first. -/
def clamp (s : SliderState) (value : ℚ) : ℚ :=
  if value < s.min then s.min
  else if value > s.max then s.max
  else value

/-- Go `Min` getter. -/
def Min (s : SliderState) : ℚ := s.min

/-- Go `Max` getter. -/
def Max (s : SliderState) : ℚ := s.max

/-- Go `Value` getter. -/
def Value (s : SliderState) : ℚ := s.value

/-- Go `Step` getter. -/
def Step (s : SliderState) : ℚ := s.step

/-- Go `SetValue`: `s.value = s.clamp(value)`. -/
def SetValue (s : SliderState) (value : ℚ) : SliderState :=
  { s with value := s.clamp value }

/-- Go `SetMin`: store the bound, then re-clamp the current value against the new bounds. -/
def SetMin (s : SliderState) (min : ℚ) : SliderState :=
  let s1 : SliderState := { s with min := min }
  { s1 with value := s1.clamp s1.value }

/-- Go `SetMax`: store the bound, then re-clamp the current value against the new bounds. -/
def SetMax (s : SliderState) (max : ℚ) : SliderState :=
  let s1 : SliderState := { s with max := max }
  { s1 with value := s1.clamp s1.value }

/-- Go `SetStep`: only a positive step is stored. -/
def SetStep (s : SliderState) (step : ℚ) : SliderState :=
  if step > 0 then { s with step := step } else s

/-- Go `Increment`: `s.SetValue(s.value + s.step)`. -/
def Increment (s : SliderState) : SliderState :=
  s.SetValue (s.value + s.step)

/-- Go `Decrement`: `s.SetValue(s.value - s.step)`. -/
def Decrement (s : SliderState) : SliderState :=
  s.SetValue (s.value - s.step)

/-- Go `Percentage`: `0` when `max == min`, else `(value - min) / (max - min)`. -/
def Percentage (s : SliderState) : ℚ :=
  if s.max = s.min then 0
  else (s.value - s.min) / (s.max - s.min)

/-- Division that reports a zero divisor: `none` stands for dividing by zero. -/
def divChecked (a b : ℚ) : Option ℚ :=
  if b = 0 then none else some (a / b)

/-- Go `Percentage` with its division instrumented by `divChecked`: the same control
flow as `Percentage`, returning `none` if the division were reached with a zero
divisor. -/
def PercentageChecked (s : SliderState) : Option ℚ :=
  if s.max = s.min then some 0
  else divChecked (s.value - s.min) (s.max - s.min)

/-- Go `SetFromPercentage`: clamp `pct` to `[0, 1]` with the two `if`s of the source,
then `value = min + pct*(max-min)`; the result is not passed through `clamp`. -/
def SetFromPercentage (s : SliderState) (pct : ℚ) : SliderState :=
  let pct1 := if pct < 0 then 0 else pct
  let pct2 := if pct1 > 1 then 1 else pct1
  { s with value := s.min + pct2 * (s.max - s.min) }

/-- Go `Range`: `max - min`. -/
def Range (s : SliderState) : ℚ := s.max - s.min

end SliderState

/-- Go `WithMin` option. -/
def WithMin (min : ℚ) : StateOption := fun s => { s with min := min }

/-- Go `WithMax` option. -/
def WithMax (max : ℚ) : StateOption := fun s => { s with max := max }

/-- Go `WithValue` option: stores the value unclamped. -/
def WithValue (value : ℚ) : StateOption := fun s => { s with value := value }

/-- Go `WithStep` option: a zero or negative step is replaced by `1`. -/
def WithStep (step : ℚ) : StateOption := fun s =>
  let step1 := if step ≤ 0 then 1 else step
  { s with step := step1 }

/-- Go `NewState`: defaults `min=0, max=100, value=0, step=1`, the options applied in
order, then one final clamp of the value. -/
def NewState (opts : List StateOption) : SliderState :=
  let s0 : SliderState := { min := 0, max := 100, value := 0, step := 1 }
  let s1 := opts.foldl (fun s opt => opt s) s0
  { s1 with value := s1.clamp s1.value }

/-- The four option constructors exported by `state.go`, as data. -/
inductive OptionCall where
  | withMin (min : ℚ)
  | withMax (max : ℚ)
  | withValue (value : ℚ)
  | withStep (step : ℚ)
  deriving DecidableEq, Repr

/-- The `StateOption` an `OptionCall` denotes. -/
def OptionCall.toOption : OptionCall → StateOption
  | .withMin m => WithMin m
  | .withMax m => WithMax m
  | .withValue v => WithValue v
  | .withStep st => WithStep st

/-- One call of a public mutator of `SliderState`. -/
inductive Mutation where
  | setValue (v : ℚ)
  | setMin (m : ℚ)
  | setMax (m : ℚ)
  | setStep (st : ℚ)
  | increment
  | decrement
  | setFromPercentage (p : ℚ)
  deriving DecidableEq, Repr

/-- The effect of one mutator call. -/
def Mutation.apply (s : SliderState) : Mutation → SliderState
  | .setValue v => s.SetValue v
  | .setMin m => s.SetMin m
  | .setMax m => s.SetMax m
  | .setStep st => s.SetStep st
  | .increment => s.Increment
  | .decrement => s.Decrement
  | .setFromPercentage p => s.SetFromPercentage p

/-- The state reached from `NewState(opts...)` by the mutator calls `ms`, in order. -/
def reach (opts : List OptionCall) (ms : List Mutation) : SliderState :=
  ms.foldl Mutation.apply (NewState (opts.map OptionCall.toOption))

/-! ## `float64` arithmetic: rounding

The definitions above compute in exact arithmetic.  Those of the namespace `Float64`
below repeat the arithmetic of the source with the rounding of `float64`: every
`+`, `-`, `*`, `/` and every conversion from `int` returns the binary64 value nearest
to the exact result. -/

/-- The integer nearest to a rational, a tie going to the even one. -/
def roundHalfEven (q : ℚ) : ℤ :=
  let f := ⌊q⌋
  if q - f < 1 / 2 then f
  else if 1 / 2 < q - f then f + 1
  else if f % 2 = 0 then f else f + 1

/-- The `float64` nearest to a rational (IEEE 754 binary64, round to nearest, ties to
even): a multiple of `2^(e-52)` for the binade `2^e ≤ |q| < 2^(e+1)`, and of
`2^-1074` below `2^-1022`.  Overflow to an infinity is not modelled: the result is
finite. -/
def round64 (q : ℚ) : ℚ :=
  if q = 0 then 0
  else
    let e := max (Int.log 2 |q|) (-1022)
    (roundHalfEven (q / 2 ^ (e - 52)) : ℚ) * 2 ^ (e - 52)

namespace Float64

/-- Go `Percentage` in `float64`: the two differences and the quotient are rounded. -/
def Percentage (s : SliderState) : ℚ :=
  if s.max = s.min then 0
  else round64 (round64 (s.value - s.min) / round64 (s.max - s.min))

/-- Go `SetFromPercentage` in `float64`: the difference, the product and the sum are
rounded; the result is not passed through `clamp`. -/
def SetFromPercentage (s : SliderState) (pct : ℚ) : SliderState :=
  let pct1 := if pct < 0 then 0 else pct
  let pct2 := if pct1 > 1 then 1 else pct1
  { s with value := round64 (s.min + round64 (pct2 * round64 (s.max - s.min))) }

end Float64

/-! ## `float64` comparisons: NaN and the infinities

A second embedding of `state.go`, over values that include NaN and the infinities.
Its comparisons are those of Go (every comparison with NaN is false); the results of
`+`, `-` and `*` are parameters. -/

/-- A `float64` as the comparisons of Go see it: NaN, or a number of the extended
line, that is a finite value, `+Inf` (the top) or `-Inf` (the bottom).  The two zeros
compare equal and are one number. -/
inductive F64 where
  | nan
  | num (x : WithBot (WithTop ℚ))
  deriving DecidableEq

namespace F64

/-- The finite `float64` of a rational. -/
def ofRat (q : ℚ) : F64 := num ((q : WithTop ℚ) : WithBot (WithTop ℚ))

/-- Go `a < b`: false when either side is NaN. -/
def lt : F64 → F64 → Bool
  | num a, num b => decide (a < b)
  | _, _ => false

/-- Go `a <= b`: false when either side is NaN. -/
def le : F64 → F64 → Bool
  | num a, num b => decide (a ≤ b)
  | _, _ => false

/-- Go `a > b`. -/
def gt (a b : F64) : Bool := lt b a

/-- Whether the value is finite: neither NaN nor an infinity. -/
def finite : F64 → Bool
  | num (some (some _)) => true
  | _ => false

end F64

namespace IEEE

/-- The `float64` operations `+`, `-` and `*`, as parameters. -/
structure Arith where
  add : F64 → F64 → F64
  sub : F64 → F64 → F64
  mul : F64 → F64 → F64

/-- The fields of `SliderState`, as `float64` values. -/
structure SliderState where
  min : F64
  max : F64
  value : F64
  step : F64
  deriving DecidableEq

/-- Go `StateOption` is `func(*SliderState)`. -/
abbrev StateOption := SliderState → SliderState

namespace SliderState

/-- Go `clamp`: the lower bound is tested first; both tests are false for NaN. -/
def clamp (s : SliderState) (value : F64) : F64 :=
  if F64.lt value s.min = true then s.min
  else if F64.gt value s.max = true then s.max
  else value

/-- Go `Step` getter. -/
def Step (s : SliderState) : F64 := s.step

/-- Go `SetValue`: `s.value = s.clamp(value)`. -/
def SetValue (s : SliderState) (value : F64) : SliderState :=
  { s with value := s.clamp value }

/-- Go `SetMin`: store the bound, then re-clamp the current value. -/
def SetMin (s : SliderState) (min : F64) : SliderState :=
  let s1 : SliderState := { s with min := min }
  { s1 with value := s1.clamp s1.value }

/-- Go `SetMax`: store the bound, then re-clamp the current value. -/
def SetMax (s : SliderState) (max : F64) : SliderState :=
  let s1 : SliderState := { s with max := max }
  { s1 with value := s1.clamp s1.value }

/-- Go `SetStep`: only a step with `step > 0` is stored. -/
def SetStep (s : SliderState) (step : F64) : SliderState :=
  if F64.gt step (F64.ofRat 0) = true then { s with step := step } else s

/-- Go `Increment`: `s.SetValue(s.value + s.step)`. -/
def Increment (ar : Arith) (s : SliderState) : SliderState :=
  s.SetValue (ar.add s.value s.step)

/-- Go `Decrement`: `s.SetValue(s.value - s.step)`. -/
def Decrement (ar : Arith) (s : SliderState) : SliderState :=
  s.SetValue (ar.sub s.value s.step)

/-- Go `SetFromPercentage`: the two `if`s of the source, then
`value = min + pct*(max-min)`. -/
def SetFromPercentage (ar : Arith) (s : SliderState) (pct : F64) : SliderState :=
  let pct1 := if F64.lt pct (F64.ofRat 0) = true then F64.ofRat 0 else pct
  let pct2 := if F64.gt pct1 (F64.ofRat 1) = true then F64.ofRat 1 else pct1
  { s with value := ar.add s.min (ar.mul pct2 (ar.sub s.max s.min)) }

end SliderState

/-- Go `WithMin` option. -/
def WithMin (min : F64) : StateOption := fun s => { s with min := min }

/-- Go `WithMax` option. -/
def WithMax (max : F64) : StateOption := fun s => { s with max := max }

/-- Go `WithValue` option: stores the value unclamped. -/
def WithValue (value : F64) : StateOption := fun s => { s with value := value }

/-- Go `WithStep` option: a step with `step <= 0` is replaced by `1`. -/
def WithStep (step : F64) : StateOption := fun s =>
  let step1 := if F64.le step (F64.ofRat 0) = true then F64.ofRat 1 else step
  { s with step := step1 }

/-- Go `NewState`: defaults `min=0, max=100, value=0, step=1`, the options applied in
order, then one final clamp of the value. -/
def NewState (opts : List StateOption) : SliderState :=
  let s0 : SliderState :=
    { min := F64.ofRat 0, max := F64.ofRat 100, value := F64.ofRat 0, step := F64.ofRat 1 }
  let s1 := opts.foldl (fun s opt => opt s) s0
  { s1 with value := s1.clamp s1.value }

/-- The four option constructors exported by `state.go`, as data. -/
inductive OptionCall where
  | withMin (min : F64)
  | withMax (max : F64)
  | withValue (value : F64)
  | withStep (step : F64)

/-- The `StateOption` an `OptionCall` denotes. -/
def OptionCall.toOption : OptionCall → StateOption
  | .withMin m => WithMin m
  | .withMax m => WithMax m
  | .withValue v => WithValue v
  | .withStep st => WithStep st

/-- Whether the call is `WithStep(NaN)`. -/
def OptionCall.stepNaN : OptionCall → Bool
  | .withStep F64.nan => true
  | _ => false

/-- Whether the argument of the option is finite. -/
def OptionCall.finite : OptionCall → Bool
  | .withMin m => m.finite
  | .withMax m => m.finite
  | .withValue v => v.finite
  | .withStep st => st.finite

/-- One call of a public mutator of `SliderState`. -/
inductive Mutation where
  | setValue (v : F64)
  | setMin (m : F64)
  | setMax (m : F64)
  | setStep (st : F64)
  | increment
  | decrement
  | setFromPercentage (p : F64)

/-- Whether the call is one of `SetValue`, `SetMin`, `SetMax`, `SetStep`, `Increment`
and `Decrement`, the mutators that write the value through `clamp`, with a finite
argument. -/
def Mutation.finiteClamping : Mutation → Bool
  | .setValue v => v.finite
  | .setMin m => m.finite
  | .setMax m => m.finite
  | .setStep st => st.finite
  | .increment => true
  | .decrement => true
  | .setFromPercentage _ => false

/-- The effect of one mutator call. -/
def Mutation.apply (ar : Arith) (s : SliderState) : Mutation → SliderState
  | .setValue v => s.SetValue v
  | .setMin m => s.SetMin m
  | .setMax m => s.SetMax m
  | .setStep st => s.SetStep st
  | .increment => s.Increment ar
  | .decrement => s.Decrement ar
  | .setFromPercentage p => s.SetFromPercentage ar p

/-- The state reached from `NewState(opts...)` by the mutator calls `ms`, in order. -/
def reach (ar : Arith) (opts : List OptionCall) (ms : List Mutation) : SliderState :=
  ms.foldl (Mutation.apply ar) (NewState (opts.map OptionCall.toOption))

/-- An arithmetic for examples: exact on finite operands, NaN otherwise. -/
def exactArith : Arith where
  add := fun a b => match a, b with
    | F64.num (some (some x)), F64.num (some (some y)) => F64.ofRat (x + y)
    | _, _ => F64.nan
  sub := fun a b => match a, b with
    | F64.num (some (some x)), F64.num (some (some y)) => F64.ofRat (x - y)
    | _, _ => F64.nan
  mul := fun a b => match a, b with
    | F64.num (some (some x)), F64.num (some (some y)) => F64.ofRat (x * y)
    | _, _ => F64.nan

end IEEE

/-! ## `slider.go`: the track builders -/

/-- Go `Orientation`. -/
inductive Orientation where
  | Horizontal
  | Vertical
  deriving DecidableEq, Repr

/-- Go `LabelPosition`. -/
inductive LabelPosition where
  | LabelNone
  | LabelLeft
  | LabelRight
  | LabelTop
  | LabelBottom
  deriving DecidableEq, Repr

/-- Go `ValuePosition`. -/
inductive ValuePosition where
  | ValueRight
  | ValueLeft
  | ValueTop
  | ValueBottom
  | ValueInline
  deriving DecidableEq, Repr

/-- Go `Symbols`: the three glyph strings. -/
structure Symbols where
  Filled : String
  Empty : String
  Handle : String
  deriving DecidableEq, Repr

/-- Go `DefaultSymbols()`. -/
def DefaultSymbols : Symbols :=
  { Filled := "█", Empty := "░", Handle := "●" }

/-- Go `ASCIISymbols()`. -/
def ASCIISymbols : Symbols :=
  { Filled := "=", Empty := "-", Handle := "O" }

/-- The fields of `Slider` that decide what the track builders write, with the
defaults `New` gives them.  The alignment, border and lipgloss style fields are
left out: the track builders read none of the first two, and a style only wraps a
glyph in escape codes. -/
structure Slider where
  state : SliderState
  width : ℤ := 20
  height : ℤ := 10
  orientation : Orientation := Orientation.Horizontal
  symbols : Symbols := DefaultSymbols
  showHandle : Bool := true
  label : String := ""
  labelPosition : LabelPosition := LabelPosition.LabelNone
  showValue : Bool := false
  valuePosition : ValuePosition := ValuePosition.ValueRight
  valueFormat : String := ""
  collisionCheck : Bool := true
  segmented : Bool := false
  segmentCount : ℤ := 0
  segmentGap : ℤ := 1

/-- One `track.WriteString` call: which styled symbol was written, or a gap of
`n` spaces (`strings.Repeat(" ", n)`). -/
inductive Piece where
  | filled
  | handle
  | empty
  | gap (n : ℤ)
  deriving DecidableEq, Repr

/-- Go's `int(x)` on a float: truncation toward zero. -/
def truncToInt (q : ℚ) : ℤ :=
  if 0 ≤ q then ⌊q⌋ else ⌈q⌉

/-- The display width of what was written, in terminal columns, for a width oracle
`sw` (`runewidth.StringWidth`) and the slider's symbols. -/
def Piece.columns (sw : String → ℕ) (sym : Symbols) : Piece → ℤ
  | .filled => sw sym.Filled
  | .handle => sw sym.Handle
  | .empty => sw sym.Empty
  | .gap n => if n < 0 then 0 else n

/-- The display width of a whole track. -/
def trackColumns (sw : String → ℕ) (sym : Symbols) (track : List Piece) : ℤ :=
  (track.map (Piece.columns sw sym)).sum

/-- The loop shared by the filled and the empty portion of `buildHorizontalTrack`:
`for i := 0; i < cells; { write(sym); i += symWidth; if i > cells { break } }`.
One unit of fuel pays for one test of the loop condition; `none` is fuel
exhaustion. -/
def emitLoop (sym : Piece) (symWidth cells : ℤ) : ℕ → ℤ → List Piece → Option (List Piece)
  | 0, _, _ => none
  | fuel + 1, i, track =>
    if i < cells then
      let track1 := track ++ [sym]
      let i1 := i + symWidth
      if i1 > cells then some track1
      else emitLoop sym symWidth cells fuel i1 track1
    else some track

/-- Go `buildSegmentedHorizontalTrack`: `segmentCount` glyphs separated by gaps.
The counted loop `for i := 0; i < segmentCount; i++` is a fold over
`0, ..., segmentCount-1`; Go's integer division truncates toward zero. -/
def buildSegmentedHorizontalTrack (s : Slider) : List Piece :=
  let pct := s.state.Percentage
  let segmentCount0 := s.segmentCount
  let segmentCount :=
    if segmentCount0 ≤ 0 then
      let c := Int.tdiv s.width 3
      let c1 := if c < 5 then 5 else c
      if c1 > 20 then 20 else c1
    else segmentCount0
  let filledSegments0 := truncToInt ((segmentCount : ℚ) * pct)
  let filledSegments := if filledSegments0 > segmentCount then segmentCount else filledSegments0
  let handlePos0 := filledSegments
  let handlePos := if handlePos0 ≥ segmentCount then segmentCount - 1 else handlePos0
  (List.range segmentCount.toNat).foldl
    (fun track (n : ℕ) =>
      let i : ℤ := n
      let track1 := if i > 0 then track ++ [Piece.gap s.segmentGap] else track
      if s.showHandle ∧ i = handlePos then track1 ++ [Piece.handle]
      else if i < filledSegments then track1 ++ [Piece.filled]
      else track1 ++ [Piece.empty])
    []

/-- Go `buildHorizontalTrack`, with the width oracle `sw` for `runewidth.StringWidth`
and fuel for its two loops. -/
def buildHorizontalTrack (sw : String → ℕ) (fuel : ℕ) (s : Slider) : Option (List Piece) :=
  if s.segmented then some (buildSegmentedHorizontalTrack s)
  else
    let pct := s.state.Percentage
    let trackWidth := s.width
    let handleWidth : ℤ := if s.showHandle then sw s.symbols.Handle else 0
    let availableWidth0 := trackWidth - handleWidth
    let availableWidth := if availableWidth0 < 0 then 0 else availableWidth0
    let filledCells0 := truncToInt ((availableWidth : ℚ) * pct)
    let filledCells := if filledCells0 > availableWidth then availableWidth else filledCells0
    let emptyCells := availableWidth - filledCells
    match emitLoop Piece.filled (sw s.symbols.Filled) filledCells fuel 0 [] with
    | none => none
    | some track1 =>
      let track2 := if s.showHandle then track1 ++ [Piece.handle] else track1
      emitLoop Piece.empty (sw s.symbols.Empty) emptyCells fuel 0 track2

/-- What every reachable state satisfies: the value lies between the two bounds,
whichever is the larger, and the step is positive. -/
def Inv (s : SliderState) : Prop :=
  s.min ⊓ s.max ≤ s.value ∧ s.value ≤ s.min ⊔ s.max ∧ 0 < s.step

/-- The handle width `hw` of the track layout: the columns of the handle glyph, `0`
when the handle is hidden. -/
def handleColumns (sw : String → ℕ) (s : Slider) : ℤ :=
  if s.showHandle then sw s.symbols.Handle else 0

/-- The number of filled glyphs the layout rule asks for:
`min(floor((w - hw) * p), w - hw)`. -/
def specFilled (sw : String → ℕ) (s : Slider) : ℤ :=
  min ⌊((s.width - handleColumns sw s : ℤ) : ℚ) * s.state.Percentage⌋
    (s.width - handleColumns sw s)

/-- The continuous track the layout rule asks for: the filled glyphs, the handle if
shown, then empty glyphs for the remaining `(w - hw) - filled` cells. -/
def specHorizontalTrack (sw : String → ℕ) (s : Slider) : List Piece :=
  List.replicate (specFilled sw s).toNat Piece.filled
    ++ (if s.showHandle then [Piece.handle] else [])
    ++ List.replicate (s.width - handleColumns sw s - specFilled sw s).toNat Piece.empty

/-- Go `buildVerticalTrack`: one glyph per row, top row first.  The counted loop
`for i := 0; i < trackHeight; i++` is a fold over `0, ..., trackHeight-1`. -/
def buildVerticalTrack (s : Slider) : List Piece :=
  let pct := s.state.Percentage
  let trackHeight := s.height
  let filledRows0 := truncToInt ((trackHeight : ℚ) * pct)
  let filledRows := if filledRows0 > trackHeight then trackHeight else filledRows0
  let emptyRows := trackHeight - filledRows
  let handleRow : ℤ :=
    if s.showHandle then
      let h0 := emptyRows
      let h1 := if h0 ≥ trackHeight then trackHeight - 1 else h0
      if h1 < 0 then 0 else h1
    else -1
  (List.range trackHeight.toNat).foldl
    (fun lines (n : ℕ) =>
      let i : ℤ := n
      if s.showHandle ∧ i = handleRow then lines ++ [Piece.handle]
      else if i < emptyRows then lines ++ [Piece.empty]
      else lines ++ [Piece.filled])
    []

/-! ### The track builders in `float64`

Each builder comes in two steps: the statements that follow
`pct := s.state.Percentage()`, for any value `pct` of that call, and the builder
itself, which feeds them `Float64.Percentage`. -/

namespace Float64

/-- Go `int(float64(n) * pct)`: the conversion and the product are rounded, then the
product is truncated toward zero. -/
def scale (n : ℤ) (pct : ℚ) : ℤ := truncToInt (round64 (round64 (n : ℚ) * pct))

/-- Go `buildSegmentedHorizontalTrack` after `pct := s.state.Percentage()`, with the
arithmetic of `float64`. -/
def buildSegmentedHorizontalTrackAt (pct : ℚ) (s : Slider) : List Piece :=
  let segmentCount0 := s.segmentCount
  let segmentCount :=
    if segmentCount0 ≤ 0 then
      let c := Int.tdiv s.width 3
      let c1 := if c < 5 then 5 else c
      if c1 > 20 then 20 else c1
    else segmentCount0
  let filledSegments0 := scale segmentCount pct
  let filledSegments := if filledSegments0 > segmentCount then segmentCount else filledSegments0
  let handlePos0 := filledSegments
  let handlePos := if handlePos0 ≥ segmentCount then segmentCount - 1 else handlePos0
  (List.range segmentCount.toNat).foldl
    (fun track (n : ℕ) =>
      let i : ℤ := n
      let track1 := if i > 0 then track ++ [Piece.gap s.segmentGap] else track
      if s.showHandle ∧ i = handlePos then track1 ++ [Piece.handle]
      else if i < filledSegments then track1 ++ [Piece.filled]
      else track1 ++ [Piece.empty])
    []

/-- Go `buildSegmentedHorizontalTrack` with the arithmetic of `float64`. -/
def buildSegmentedHorizontalTrack (s : Slider) : List Piece :=
  buildSegmentedHorizontalTrackAt (Float64.Percentage s.state) s

/-- Go `buildHorizontalTrack` after `pct := s.state.Percentage()`, with the arithmetic
of `float64`, the width oracle `sw` for `runewidth.StringWidth` and fuel for its two
loops.  In the source the segmented case returns before `pct` is read, and
`buildSegmentedHorizontalTrack` reads the same percentage itself. -/
def buildHorizontalTrackAt (sw : String → ℕ) (fuel : ℕ) (pct : ℚ) (s : Slider) :
    Option (List Piece) :=
  if s.segmented then some (buildSegmentedHorizontalTrackAt pct s)
  else
    let trackWidth := s.width
    let handleWidth : ℤ := if s.showHandle then sw s.symbols.Handle else 0
    let availableWidth0 := trackWidth - handleWidth
    let availableWidth := if availableWidth0 < 0 then 0 else availableWidth0
    let filledCells0 := scale availableWidth pct
    let filledCells := if filledCells0 > availableWidth then availableWidth else filledCells0
    let emptyCells := availableWidth - filledCells
    match emitLoop Piece.filled (sw s.symbols.Filled) filledCells fuel 0 [] with
    | none => none
    | some track1 =>
      let track2 := if s.showHandle then track1 ++ [Piece.handle] else track1
      emitLoop Piece.empty (sw s.symbols.Empty) emptyCells fuel 0 track2

/-- Go `buildHorizontalTrack` with the arithmetic of `float64`. -/
def buildHorizontalTrack (sw : String → ℕ) (fuel : ℕ) (s : Slider) : Option (List Piece) :=
  buildHorizontalTrackAt sw fuel (Float64.Percentage s.state) s

/-- Go `buildVerticalTrack` after `pct := s.state.Percentage()`, with the arithmetic
of `float64`. -/
def buildVerticalTrackAt (pct : ℚ) (s : Slider) : List Piece :=
  let trackHeight := s.height
  let filledRows0 := scale trackHeight pct
  let filledRows := if filledRows0 > trackHeight then trackHeight else filledRows0
  let emptyRows := trackHeight - filledRows
  let handleRow : ℤ :=
    if s.showHandle then
      let h0 := emptyRows
      let h1 := if h0 ≥ trackHeight then trackHeight - 1 else h0
      if h1 < 0 then 0 else h1
    else -1
  (List.range trackHeight.toNat).foldl
    (fun lines (n : ℕ) =>
      let i : ℤ := n
      if s.showHandle ∧ i = handleRow then lines ++ [Piece.handle]
      else if i < emptyRows then lines ++ [Piece.empty]
      else lines ++ [Piece.filled])
    []

/-- Go `buildVerticalTrack` with the arithmetic of `float64`. -/
def buildVerticalTrack (s : Slider) : List Piece :=
  buildVerticalTrackAt (Float64.Percentage s.state) s

end Float64

/-- The track `View` starts from, as rows of pieces: `View` dispatches on the
orientation, `renderVertical` first calls `buildVerticalTrack` and
`renderHorizontal` first calls `buildHorizontalTrack`.  The result is `none` when
the builder does not return. -/
def viewTrack (sw : String → ℕ) (fuel : ℕ) (s : Slider) : Option (List (List Piece)) :=
  match s.orientation with
  | Orientation.Vertical => some ((buildVerticalTrack s).map fun p => [p])
  | Orientation.Horizontal => (buildHorizontalTrack sw fuel s).map fun t => [t]

/-- Go `resolveCollision`; the receiver is not read and is left out.  The two
`keep them` branches return what the final `return` returns. -/
def resolveCollision (labelPos : LabelPosition) (valuePos : ValuePosition) :
    LabelPosition × ValuePosition :=
  let labelHorizontal := labelPos = LabelPosition.LabelLeft ∨ labelPos = LabelPosition.LabelRight
  let labelVertical := labelPos = LabelPosition.LabelTop ∨ labelPos = LabelPosition.LabelBottom
  let valueHorizontal := valuePos = ValuePosition.ValueLeft ∨ valuePos = ValuePosition.ValueRight
  let valueVertical := valuePos = ValuePosition.ValueTop ∨ valuePos = ValuePosition.ValueBottom
  if labelPos = LabelPosition.LabelLeft ∧ valuePos = ValuePosition.ValueLeft then
    (labelPos, ValuePosition.ValueRight)
  else if labelPos = LabelPosition.LabelRight ∧ valuePos = ValuePosition.ValueRight then
    (labelPos, ValuePosition.ValueLeft)
  else if labelPos = LabelPosition.LabelTop ∧ valuePos = ValuePosition.ValueTop then
    (labelPos, ValuePosition.ValueBottom)
  else if labelPos = LabelPosition.LabelBottom ∧ valuePos = ValuePosition.ValueBottom then
    (labelPos, ValuePosition.ValueTop)
  else if labelHorizontal ∧ valueHorizontal then (labelPos, valuePos)
  else if labelVertical ∧ valueVertical then (labelPos, valuePos)
  else (labelPos, valuePos)

/-- The label and value positions `renderHorizontal` lays out with.  `valueText` is
the rendered value (`formatValue` goes through `fmt.Sprintf`); a style keeps a
non-empty label non-empty. -/
def horizontalPositions (s : Slider) (valueText : String) : LabelPosition × ValuePosition :=
  let label := if s.label ≠ "" then s.label else ""
  let value := if s.showValue then valueText else ""
  if s.collisionCheck ∧ label ≠ "" ∧ value ≠ "" then
    resolveCollision s.labelPosition s.valuePosition
  else (s.labelPosition, s.valuePosition)

/-- The label and value positions `renderVertical` lays out with: the collision
resolution runs first, and only then is `ValueRight` replaced by `ValueBottom`. -/
def verticalPositions (s : Slider) (valueText : String) : LabelPosition × ValuePosition :=
  let label := if s.label ≠ "" then s.label else ""
  let value := if s.showValue then valueText else ""
  let resolved :=
    if s.collisionCheck ∧ label ≠ "" ∧ value ≠ "" then
      resolveCollision s.labelPosition s.valuePosition
    else (s.labelPosition, s.valuePosition)
  let labelPos := resolved.1
  let valuePos := resolved.2
  let valuePos1 :=
    if s.showValue ∧ valuePos = ValuePosition.ValueRight then ValuePosition.ValueBottom
    else valuePos
  (labelPos, valuePos1)

/-! ## `mouse.go` -/

/-- Go `MouseState`. -/
structure MouseState where
  X : ℤ := 0
  Y : ℤ := 0
  Width : ℤ := 0
  Height : ℤ := 0
  Dragging : Bool := false
  Focused : Bool := false
  deriving DecidableEq, Repr

/-- The actions of bubbletea's `tea.MouseAction`. -/
inductive MouseAction where
  | MouseActionPress
  | MouseActionRelease
  | MouseActionMotion
  deriving DecidableEq, Repr

/-- The buttons of bubbletea's `tea.MouseButton`. -/
inductive MouseButton where
  | MouseButtonNone
  | MouseButtonLeft
  | MouseButtonMiddle
  | MouseButtonRight
  | MouseButtonWheelUp
  | MouseButtonWheelDown
  | MouseButtonWheelLeft
  | MouseButtonWheelRight
  | MouseButtonBackward
  | MouseButtonForward
  | MouseButton10
  | MouseButton11
  deriving DecidableEq, Repr

/-- The fields of `tea.MouseMsg` that `HandleMouse` reads. -/
structure MouseMsg where
  X : ℤ
  Y : ℤ
  Action : MouseAction
  Button : MouseButton := MouseButton.MouseButtonNone
  deriving DecidableEq, Repr

/-- What the mouse handlers read of a non-nil `*Slider`: its orientation and its
`state` pointer, `none` for a `nil` state as in `&Slider{state: nil}`. -/
structure SliderRef where
  orientation : Orientation
  state : Option SliderState
  deriving DecidableEq, Repr

namespace MouseState

/-- Go `NewMouseState`. -/
def NewMouseState : MouseState := {}

/-- Go `SetBounds`. -/
def SetBounds (m : MouseState) (x y width height : ℤ) : MouseState :=
  { m with X := x, Y := y, Width := width, Height := height }

/-- Go `Contains`. -/
def Contains (m : MouseState) (x y : ℤ) : Bool :=
  decide (x ≥ m.X) && decide (x < m.X + m.Width) &&
    decide (y ≥ m.Y) && decide (y < m.Y + m.Height)

/-- The `switch slider.orientation` of `updateValue`: the percentage of the pointer
position, `0` (the zero value of the variable) when the guard of a case fails. -/
def positionPercentage (m : MouseState) (mouseX mouseY : ℤ) : Orientation → ℚ
  | Orientation.Horizontal =>
    if m.Width > 0 then
      let relX0 := mouseX - m.X
      let relX1 := if relX0 < 0 then 0 else relX0
      let relX := if relX1 > m.Width then m.Width else relX1
      (relX : ℚ) / (m.Width : ℚ)
    else 0
  | Orientation.Vertical =>
    if m.Height > 0 then
      let relY0 := mouseY - m.Y
      let relY1 := if relY0 < 0 then 0 else relY0
      let relY := if relY1 > m.Height then m.Height else relY1
      1 - (relY : ℚ) / (m.Height : ℚ)
    else 0

/-- The same `switch` with its divisions instrumented by `divChecked`: `none` if a
division were reached with a zero divisor. -/
def positionPercentageChecked (m : MouseState) (mouseX mouseY : ℤ) : Orientation → Option ℚ
  | Orientation.Horizontal =>
    if m.Width > 0 then
      let relX0 := mouseX - m.X
      let relX1 := if relX0 < 0 then 0 else relX0
      let relX := if relX1 > m.Width then m.Width else relX1
      SliderState.divChecked (relX : ℚ) (m.Width : ℚ)
    else some 0
  | Orientation.Vertical =>
    if m.Height > 0 then
      let relY0 := mouseY - m.Y
      let relY1 := if relY0 < 0 then 0 else relY0
      let relY := if relY1 > m.Height then m.Height else relY1
      (SliderState.divChecked (relY : ℚ) (m.Height : ℚ)).map fun q => 1 - q
    else some 0

/-- Go `updateValue`: the percentage of the position, clamped to `[0, 1]`, is handed
to `SetFromPercentage` of the slider's state. -/
def updateValue (m : MouseState) (mouseX mouseY : ℤ) (orientation : Orientation)
    (state : SliderState) : SliderState :=
  let percentage := m.positionPercentage mouseX mouseY orientation
  let percentage1 := if percentage < 0 then 0 else percentage
  let percentage2 := if percentage1 > 1 then 1 else percentage1
  state.SetFromPercentage percentage2

/-- Go `HandleMouse`: the new mouse state, the slider with its new state, and the
returned flag.  A `nil` slider is `none`. -/
def HandleMouse (m : MouseState) (msg : MouseMsg) (slider : Option SliderRef) :
    MouseState × Option SliderRef × Bool :=
  match slider with
  | none => (m, slider, false)
  | some sl =>
    match sl.state with
    | none => (m, slider, false)
    | some st =>
      match msg.Action with
      | MouseAction.MouseActionPress =>
        if msg.Button = MouseButton.MouseButtonLeft ∧ m.Contains msg.X msg.Y = true then
          let m1 := { m with Dragging := true }
          let m2 := { m1 with Focused := true }
          (m2, some { sl with state := some (m2.updateValue msg.X msg.Y sl.orientation st) },
            true)
        else (m, slider, false)
      | MouseAction.MouseActionMotion =>
        if m.Dragging = true then
          (m, some { sl with state := some (m.updateValue msg.X msg.Y sl.orientation st) }, true)
        else (m, slider, false)
      | MouseAction.MouseActionRelease =>
        if m.Dragging = true then
          let m1 := { m with Dragging := false }
          (m1, some { sl with state := some (m1.updateValue msg.X msg.Y sl.orientation st) },
            true)
        else (m, slider, false)

end MouseState

/-- Go's `int` is 64 bits wide: the value a sum takes after wrap-around. -/
def wrapInt64 (n : ℤ) : ℤ := (n + 2 ^ 63) % 2 ^ 64 - 2 ^ 63

/-- Go `Contains` with the wrap-around of the sums `m.X+m.Width` and `m.Y+m.Height`. -/
def MouseState.Contains64 (m : MouseState) (x y : ℤ) : Bool :=
  decide (x ≥ m.X) && decide (x < wrapInt64 (m.X + m.Width)) &&
    decide (y ≥ m.Y) && decide (y < wrapInt64 (m.Y + m.Height))

namespace Float64

/-- The `switch slider.orientation` of `updateValue` with the arithmetic of the
machine: the subtraction of `int`s wraps, and the two conversions, the quotient and
the difference are rounded to `float64`. -/
def positionPercentage (m : MouseState) (mouseX mouseY : ℤ) : Orientation → ℚ
  | Orientation.Horizontal =>
    if m.Width > 0 then
      let relX0 := wrapInt64 (mouseX - m.X)
      let relX1 := if relX0 < 0 then 0 else relX0
      let relX := if relX1 > m.Width then m.Width else relX1
      round64 (round64 (relX : ℚ) / round64 (m.Width : ℚ))
    else 0
  | Orientation.Vertical =>
    if m.Height > 0 then
      let relY0 := wrapInt64 (mouseY - m.Y)
      let relY1 := if relY0 < 0 then 0 else relY0
      let relY := if relY1 > m.Height then m.Height else relY1
      round64 (1 - round64 (round64 (relY : ℚ) / round64 (m.Height : ℚ)))
    else 0

/-- Go `updateValue` with the arithmetic of the machine. -/
def updateValue (m : MouseState) (mouseX mouseY : ℤ) (orientation : Orientation)
    (state : SliderState) : SliderState :=
  let percentage := positionPercentage m mouseX mouseY orientation
  let percentage1 := if percentage < 0 then 0 else percentage
  let percentage2 := if percentage1 > 1 then 1 else percentage1
  Float64.SetFromPercentage state percentage2

/-- Go `HandleMouse` with the arithmetic of the machine: `Contains64` and
`Float64.updateValue` in the place of `Contains` and `updateValue`. -/
def HandleMouse (m : MouseState) (msg : MouseMsg) (slider : Option SliderRef) :
    MouseState × Option SliderRef × Bool :=
  match slider with
  | none => (m, slider, false)
  | some sl =>
    match sl.state with
    | none => (m, slider, false)
    | some st =>
      match msg.Action with
      | MouseAction.MouseActionPress =>
        if msg.Button = MouseButton.MouseButtonLeft ∧ m.Contains64 msg.X msg.Y = true then
          let m1 := { m with Dragging := true }
          let m2 := { m1 with Focused := true }
          (m2, some { sl with state := some (updateValue m2 msg.X msg.Y sl.orientation st) },
            true)
        else (m, slider, false)
      | MouseAction.MouseActionMotion =>
        if m.Dragging = true then
          (m, some { sl with state := some (updateValue m msg.X msg.Y sl.orientation st) }, true)
        else (m, slider, false)
      | MouseAction.MouseActionRelease =>
        if m.Dragging = true then
          let m1 := { m with Dragging := false }
          (m1, some { sl with state := some (updateValue m1 msg.X msg.Y sl.orientation st) },
            true)
        else (m, slider, false)

end Float64

/-! ## The layout rules the builders are compared with -/

/-- The row `i` (`0` is the top) of the vertical layout rule: with
`filledRows = min(floor(height*p), height)` and `emptyRows = height - filledRows`,
the handle if it is shown and `i` is `emptyRows` clamped into `[0, height-1]`,
else the empty glyph above `emptyRows` and the filled glyph from there on. -/
def specVerticalRow (s : Slider) (i : ℤ) : Piece :=
  let filledRows := min ⌊(s.height : ℚ) * s.state.Percentage⌋ s.height
  let emptyRows := s.height - filledRows
  if s.showHandle = true ∧ i = max 0 (min emptyRows (s.height - 1)) then Piece.handle
  else if i < emptyRows then Piece.empty
  else Piece.filled

/-- The number `n` of segments of the segmented layout rule: `segmentCount` when
positive, otherwise `clamp(width div 3, 5, 20)`. -/
def specSegmentCount (s : Slider) : ℤ :=
  if 0 < s.segmentCount then s.segmentCount else max 5 (min (s.width / 3) 20)

/-- The segment `i` of the segmented layout rule: with
`filledSegments = min(floor(n*p), n)`, the handle if it is shown and
`i = min(filledSegments, n-1)`, else filled below `filledSegments`, else empty. -/
def specSegment (s : Slider) (i : ℤ) : Piece :=
  let n := specSegmentCount s
  let filledSegments := min ⌊(n : ℚ) * s.state.Percentage⌋ n
  if s.showHandle = true ∧ i = min filledSegments (n - 1) then Piece.handle
  else if i < filledSegments then Piece.filled
  else Piece.empty

/-! ### The layout rules with the counts of `float64`

The rules above with `int(float64(n) * p)`, the product as `float64` rounds it, in
the place of `floor(n * p)`. -/

namespace Float64

/-- The number of filled glyphs: `min(int(float64(w - hw) * p), w - hw)`. -/
def specFilled (sw : String → ℕ) (pct : ℚ) (s : Slider) : ℤ :=
  min (scale (s.width - handleColumns sw s) pct) (s.width - handleColumns sw s)

/-- The continuous track: the filled glyphs, the handle if shown, then empty glyphs
for the remaining `(w - hw) - filled` cells. -/
def specHorizontalTrack (sw : String → ℕ) (pct : ℚ) (s : Slider) : List Piece :=
  List.replicate (specFilled sw pct s).toNat Piece.filled
    ++ (if s.showHandle then [Piece.handle] else [])
    ++ List.replicate (s.width - handleColumns sw s - specFilled sw pct s).toNat Piece.empty

/-- The row `i` (`0` is the top) of the vertical track: with
`filledRows = min(int(float64(height) * p), height)` and
`emptyRows = height - filledRows`, the handle if it is shown and `i` is `emptyRows`
clamped into `[0, height-1]`, else the empty glyph above `emptyRows` and the filled
glyph from there on. -/
def specVerticalRow (pct : ℚ) (s : Slider) (i : ℤ) : Piece :=
  let filledRows := min (scale s.height pct) s.height
  let emptyRows := s.height - filledRows
  if s.showHandle = true ∧ i = max 0 (min emptyRows (s.height - 1)) then Piece.handle
  else if i < emptyRows then Piece.empty
  else Piece.filled

/-- The segment `i` of the segmented track: with
`filledSegments = min(int(float64(n) * p), n)`, the handle if it is shown and
`i = min(filledSegments, n-1)`, else filled below `filledSegments`, else empty. -/
def specSegment (pct : ℚ) (s : Slider) (i : ℤ) : Piece :=
  let n := specSegmentCount s
  let filledSegments := min (scale n pct) n
  if s.showHandle = true ∧ i = min filledSegments (n - 1) then Piece.handle
  else if i < filledSegments then Piece.filled
  else Piece.empty

end Float64

/-- Whether a label position and a value position are the same side of the track. -/
def sameSide : LabelPosition → ValuePosition → Bool
  | LabelPosition.LabelLeft, ValuePosition.ValueLeft => true
  | LabelPosition.LabelRight, ValuePosition.ValueRight => true
  | LabelPosition.LabelTop, ValuePosition.ValueTop => true
  | LabelPosition.LabelBottom, ValuePosition.ValueBottom => true
  | _, _ => false

/-- The opposite side on the same axis (left and right, top and bottom). -/
def oppositeSide : ValuePosition → ValuePosition
  | ValuePosition.ValueLeft => ValuePosition.ValueRight
  | ValuePosition.ValueRight => ValuePosition.ValueLeft
  | ValuePosition.ValueTop => ValuePosition.ValueBottom
  | ValuePosition.ValueBottom => ValuePosition.ValueTop
  | ValuePosition.ValueInline => ValuePosition.ValueInline

/-- The position-to-percentage rule: horizontal `clamp(x - X, 0, Width)/Width`,
vertical `1 - clamp(y - Y, 0, Height)/Height`, and `0` when the relevant `Width` or
`Height` is not positive. -/
def specPointerPct (m : MouseState) (x y : ℤ) : Orientation → ℚ
  | Orientation.Horizontal =>
    if m.Width ≤ 0 then 0
    else ((max 0 (min (x - m.X) m.Width) : ℤ) : ℚ) / (m.Width : ℚ)
  | Orientation.Vertical =>
    if m.Height ≤ 0 then 0
    else 1 - ((max 0 (min (y - m.Y) m.Height) : ℤ) : ℚ) / (m.Height : ℚ)

/-! ## `mouse.go`: the slider group -/

/-- The `SliderState`s the sliders of a group point to, by address: two sliders may
share one state. -/
abbrev Heap := ℕ → SliderState

/-- A non-nil `*Slider` of a group, as the mouse handlers read it: its orientation
and its `state` pointer (an address, `none` for `nil`). -/
structure SliderPtr where
  orientation : Orientation
  state : Option ℕ
  deriving DecidableEq, Repr

/-- One index of a `SliderGroup`: `g.sliders[i]` (`none` for a `nil` slider) and the
mouse state `g.mouseState[i]` points to.  `Add` appends to both slices at once, so
they are kept as one list. -/
structure GroupEntry where
  slider : Option SliderPtr
  mouse : MouseState
  deriving DecidableEq, Repr

/-- Go `SliderGroup`. -/
structure SliderGroup where
  entries : List GroupEntry
  focused : ℤ
  deriving DecidableEq, Repr

/-- Go `NewSliderGroup`. -/
def NewSliderGroup : SliderGroup := { entries := [], focused := -1 }

/-- The slider a pointer denotes in a heap. -/
def derefSlider (heap : Heap) : Option SliderPtr → Option SliderRef
  | none => none
  | some sp => some { orientation := sp.orientation, state := sp.state.map heap }

/-- The heap after a handler returned the slider `r` for the pointer `sp`: the
state it returned is stored at the address the pointer holds. -/
def writeBack (heap : Heap) : Option SliderPtr → Option SliderRef → Heap
  | some sp, some r =>
    match sp.state, r.state with
    | some a, some st => Function.update heap a st
    | _, _ => heap
  | _, _ => heap

namespace GroupEntry

/-- The call `ms.HandleMouse(msg, g.sliders[i])` on one index: the entry with its new
mouse state, the heap with the slider's state written, and the returned flag. -/
def handle (e : GroupEntry) (msg : MouseMsg) (heap : Heap) : GroupEntry × Heap × Bool :=
  let r := e.mouse.HandleMouse msg (derefSlider heap e.slider)
  ({ e with mouse := r.1 }, writeBack heap e.slider r.2.1, r.2.2)

/-- The entry with `Focused = false`. -/
def unfocus (e : GroupEntry) : GroupEntry :=
  { e with mouse := { e.mouse with Focused := false } }

end GroupEntry

namespace SliderGroup

/-- Go `Add`: the group with the slider and a fresh mouse state appended, and the new
index. -/
def Add (g : SliderGroup) (slider : Option SliderPtr) : SliderGroup × ℤ :=
  ({ g with entries := g.entries ++ [{ slider := slider, mouse := MouseState.NewMouseState }] },
    g.entries.length)

/-- Go `Focused`. -/
def Focused (g : SliderGroup) : ℤ := g.focused

/-- Go `SliderGroup.SetBounds`. -/
def SetBounds (g : SliderGroup) (idx x y width height : ℤ) : SliderGroup :=
  if idx ≥ 0 ∧ idx < g.entries.length then
    { g with entries := g.entries.mapIdx fun (j : ℕ) e =>
        if (j : ℤ) = idx then { e with mouse := e.mouse.SetBounds x y width height } else e }
  else g

/-- One `for i, ms := range g.mouseState` loop of `HandleMouse`, from index `i` on:
with `draggingOnly` only the mouse states with `Dragging` are asked (first loop),
otherwise all (second loop).  The loop stops at the first index whose `HandleMouse`
returns true and reports that index. -/
def scan (draggingOnly : Bool) (msg : MouseMsg) :
    List GroupEntry → ℕ → Heap → List GroupEntry × Heap × Option ℕ
  | [], _, heap => ([], heap, none)
  | e :: rest, i, heap =>
    if draggingOnly = true ∧ e.mouse.Dragging = false then
      let r := scan draggingOnly msg rest (i + 1) heap
      (e :: r.1, r.2.1, r.2.2)
    else
      let h := e.handle msg heap
      if h.2.2 = true then (h.1 :: rest, h.2.1, some i)
      else
        let r := scan draggingOnly msg rest (i + 1) h.2.1
        (h.1 :: r.1, r.2.1, r.2.2)

/-- The loop `for j := range g.mouseState { if j != i { ...Focused = false } }`. -/
def clearOtherFocus (i : ℕ) (entries : List GroupEntry) : List GroupEntry :=
  entries.mapIdx fun (j : ℕ) e => if j ≠ i then e.unfocus else e

/-- Go `SliderGroup.HandleMouse`: the new group, the new heap and the returned flag. -/
def HandleMouse (g : SliderGroup) (msg : MouseMsg) (heap : Heap) : SliderGroup × Heap × Bool :=
  let r1 := scan true msg g.entries 0 heap
  match r1.2.2 with
  | some i => ({ entries := r1.1, focused := i }, r1.2.1, true)
  | none =>
    let r2 := scan false msg r1.1 0 r1.2.1
    match r2.2.2 with
    | some i => ({ entries := clearOtherFocus i r2.1, focused := i }, r2.2.1, true)
    | none => ({ g with entries := r2.1 }, r2.2.1, false)

/-- A sequence of `HandleMouse` calls, one per event. -/
def handleAll (g : SliderGroup) (heap : Heap) : List MouseMsg → SliderGroup × Heap
  | [] => (g, heap)
  | msg :: rest =>
    let r := g.HandleMouse msg heap
    handleAll r.1 r.2.1 rest

end SliderGroup

/-- The group of `TestSliderGroup_HandleMouse`: two horizontal sliders, each with its
own state (addresses 0 and 1), with the bounds `(0, 0, 100, 10)` and
`(0, 20, 100, 10)`. -/
def testGroup : SliderGroup :=
  (((NewSliderGroup.Add (some { orientation := Orientation.Horizontal, state := some 0 })).1.SetBounds
      0 0 0 100 10).Add
    (some { orientation := Orientation.Horizontal, state := some 1 })).1.SetBounds 1 0 20 100 10

/-- The states of that test: each is `NewState(WithMin(0), WithMax(100))`. -/
def testHeap : Heap := fun _ => NewState [WithMin 0, WithMax 100]

/-- A left-button press at `(x, y)`. -/
def leftPress (x y : ℤ) : MouseMsg :=
  { X := x, Y := y, Action := MouseAction.MouseActionPress,
    Button := MouseButton.MouseButtonLeft }

/-- A motion event at `(x, y)`. -/
def motionTo (x y : ℤ) : MouseMsg :=
  { X := x, Y := y, Action := MouseAction.MouseActionMotion }

/-! ## `animation.go` -/

/-- Go `EasingFunc`. -/
abbrev EasingFunc := ℚ → ℚ

/-- Go `Linear`. -/
def Linear (t : ℚ) : ℚ := t

/-- Go `EaseInQuad`. -/
def EaseInQuad (t : ℚ) : ℚ := t * t

/-- Go `EaseOutQuad`. -/
def EaseOutQuad (t : ℚ) : ℚ := t * (2 - t)

/-- Go `EaseInOutQuad`. -/
def EaseInOutQuad (t : ℚ) : ℚ :=
  if t < 0.5 then 2 * t * t
  else -1 + (4 - 2 * t) * t

/-- Go `EaseInCubic`. -/
def EaseInCubic (t : ℚ) : ℚ := t * t * t

/-- Go `EaseOutCubic`: `t--` first. -/
def EaseOutCubic (t : ℚ) : ℚ :=
  let t1 := t - 1
  t1 * t1 * t1 + 1

/-- Go `EaseInOutCubic`. -/
def EaseInOutCubic (t : ℚ) : ℚ :=
  if t < 0.5 then 4 * t * t * t
  else
    let t1 := 2 * t - 2
    (t1 * t1 * t1) / 2 + 1

/-- Go `EaseInExpo`; `pow` stands for `math.Pow`. -/
def EaseInExpo (pow : ℚ → ℚ → ℚ) (t : ℚ) : ℚ :=
  if t = 0 then 0
  else pow 2 (10 * (t - 1))

/-- Go `EaseOutExpo`; `pow` stands for `math.Pow`. -/
def EaseOutExpo (pow : ℚ → ℚ → ℚ) (t : ℚ) : ℚ :=
  if t = 1 then 1
  else 1 - pow 2 (-10 * t)

/-- Go `EaseInOutExpo`; `pow` stands for `math.Pow`. -/
def EaseInOutExpo (pow : ℚ → ℚ → ℚ) (t : ℚ) : ℚ :=
  if t = 0 then 0
  else if t = 1 then 1
  else if t < 0.5 then pow 2 (20 * t - 10) / 2
  else (2 - pow 2 (-20 * t + 10)) / 2

/-- Go `EaseOutElastic`; `pow`, `sin` and `pi` stand for `math.Pow`, `math.Sin` and
`math.Pi`. -/
def EaseOutElastic (pow : ℚ → ℚ → ℚ) (sin : ℚ → ℚ) (pi : ℚ) (t : ℚ) : ℚ :=
  if t = 0 then 0
  else if t = 1 then 1
  else
    let p : ℚ := 0.3
    let s := p / 4
    pow 2 (-10 * t) * sin ((t - s) * (2 * pi) / p) + 1

/-- Go `EaseOutBounce`. -/
def EaseOutBounce (t : ℚ) : ℚ :=
  if t < 1 / 2.75 then 7.5625 * t * t
  else if t < 2 / 2.75 then
    let t1 := t - 1.5 / 2.75
    7.5625 * t1 * t1 + 0.75
  else if t < 2.5 / 2.75 then
    let t1 := t - 2.25 / 2.75
    7.5625 * t1 * t1 + 0.9375
  else
    let t1 := t - 2.625 / 2.75
    7.5625 * t1 * t1 + 0.984375

/-- Go `EaseInBounce`. -/
def EaseInBounce (t : ℚ) : ℚ := 1 - EaseOutBounce (1 - t)

/-- Go `Lerp`. -/
def Lerp (start end_ t : ℚ) : ℚ := start + (end_ - start) * t

/-- The fields of `Animation`, without the `state` pointer (the state is passed to
`Update`) and without `startTime` (`Update` is given the elapsed time).  The
duration is a `time.Duration`, in nanoseconds; `onComplete` records whether a
callback is set. -/
structure Animation where
  startValue : ℚ
  endValue : ℚ
  duration : ℤ
  easing : EasingFunc
  onComplete : Bool

/-- Go `AnimationOption`. -/
abbrev AnimationOption := Animation → Animation

/-- Go `WithAnimDuration`. -/
def WithAnimDuration (d : ℤ) : AnimationOption := fun a => { a with duration := d }

/-- Go `WithEasing`. -/
def WithEasing (f : EasingFunc) : AnimationOption := fun a => { a with easing := f }

/-- Go `WithOnComplete` with a non-nil callback. -/
def WithOnComplete : AnimationOption := fun a => { a with onComplete := true }

/-- Go `NewAnimation`: starts at the state's current value, 300 ms, `EaseOutQuad`,
no callback, then the options in order. -/
def NewAnimation (state : SliderState) (targetValue : ℚ) (opts : List AnimationOption) :
    Animation :=
  let a : Animation :=
    { startValue := state.Value, endValue := targetValue, duration := 300 * 1000000,
      easing := EaseOutQuad, onComplete := false }
  opts.foldl (fun a opt => opt a) a

/-- Go `Animation.Update`, given `elapsed = time.Since(a.startTime)` in nanoseconds:
the new state, how many times the callback was invoked, and the returned flag. -/
def Animation.Update (a : Animation) (elapsed : ℤ) (state : SliderState) :
    SliderState × ℕ × Bool :=
  if elapsed ≥ a.duration then
    let state1 := state.SetValue a.endValue
    (state1, if a.onComplete then 1 else 0, true)
  else
    let progress := (elapsed : ℚ) / (a.duration : ℚ)
    let easedProgress := a.easing progress
    let value := a.startValue + (a.endValue - a.startValue) * easedProgress
    (state.SetValue value, 0, false)

/-- A sequence of `Update` calls at the given elapsed times: the final state and the
total number of callback invocations. -/
def Animation.updates (a : Animation) : List ℤ → SliderState → SliderState × ℕ
  | [], state => (state, 0)
  | elapsed :: rest, state =>
    let r := a.Update elapsed state
    let r2 := Animation.updates a rest r.1
    (r2.1, r.2.1 + r2.2)

/-- The fields of `SpringAnimation`, without the `state` pointer and `lastUpdate`
(`Update` is given the seconds since the last update). -/
structure SpringAnimation where
  target : ℚ
  velocity : ℚ
  stiffness : ℚ
  damping : ℚ
  threshold : ℚ
  deriving DecidableEq, Repr

/-- Go `NewSpringAnimation`. -/
def NewSpringAnimation (target : ℚ) : SpringAnimation :=
  { target := target, velocity := 0, stiffness := 180, damping := 12, threshold := 0.01 }

namespace SpringAnimation

/-- Go `WithStiffness`. -/
def WithStiffness (s : SpringAnimation) (stiffness : ℚ) : SpringAnimation :=
  { s with stiffness := stiffness }

/-- Go `WithDamping`. -/
def WithDamping (s : SpringAnimation) (damping : ℚ) : SpringAnimation :=
  { s with damping := damping }

/-- Go `SetTarget`. -/
def SetTarget (s : SpringAnimation) (target : ℚ) : SpringAnimation :=
  { s with target := target }

/-- Go `SpringAnimation.Update`, given `dt0 = now.Sub(s.lastUpdate).Seconds()`: the
new spring, the new state and the returned flag. -/
def Update (s : SpringAnimation) (dt0 : ℚ) (state : SliderState) :
    SpringAnimation × SliderState × Bool :=
  let dt := if dt0 > 0.1 then 0.1 else dt0
  let current := state.Value
  let displacement := current - s.target
  let springForce := -s.stiffness * displacement
  let dampingForce := -s.damping * s.velocity
  let acceleration := springForce + dampingForce
  let velocity1 := s.velocity + acceleration * dt
  let newValue := current + velocity1 * dt
  let state1 := state.SetValue newValue
  if |velocity1| < s.threshold ∧ |displacement| < s.threshold then
    (({ s with velocity := 0 } : SpringAnimation), state1.SetValue s.target, true)
  else (({ s with velocity := velocity1 } : SpringAnimation), state1, false)

end SpringAnimation

/-! ## `accessibility.go`: the progress announcer -/

/-- What the announcer callback is called with: `"Complete"` or
`fmt.Sprintf("%d percent complete", threshold)`. -/
inductive Announcement where
  | complete
  | percent (threshold : ℤ)
  deriving DecidableEq, Repr

/-- The fields of `ProgressAnnouncer`; `announcer` records whether the callback is
non-nil. -/
structure ProgressAnnouncer where
  lastAnnounced : ℤ
  interval : ℤ
  announcer : Bool
  deriving DecidableEq, Repr

/-- Go `NewProgressAnnouncer`. -/
def NewProgressAnnouncer (interval : ℤ) (announcer : Bool) : ProgressAnnouncer :=
  let interval1 := if interval < 1 then 10 else interval
  { lastAnnounced := -1, interval := interval1, announcer := announcer }

namespace ProgressAnnouncer

/-- The integer percentage `int(state.Percentage() * 100)` of `Update`, with the
arithmetic of `float64`: the percentage and the product are rounded, then the
product is truncated toward zero. -/
def pctOf (state : SliderState) : ℤ := truncToInt (round64 (Float64.Percentage state * 100))

/-- The statements of `Update` that follow `pct := int(state.Percentage() * 100)`, for
any value `pct` of that conversion, behind the `nil` test of the callback: the new
announcer and what it announced.  Go's integer division truncates toward zero. -/
def UpdateAt (p : ProgressAnnouncer) (pct : ℤ) : ProgressAnnouncer × List Announcement :=
  if p.announcer = false then (p, [])
  else
    let threshold := (Int.tdiv pct p.interval) * p.interval
    if pct ≥ 100 ∧ p.lastAnnounced < 100 then
      ({ p with lastAnnounced := 100 }, [Announcement.complete])
    else if threshold ≠ p.lastAnnounced ∧ threshold > 0 ∧ threshold < 100 then
      ({ p with lastAnnounced := threshold }, [Announcement.percent threshold])
    else (p, [])

/-- Go `ProgressAnnouncer.Update`: the new announcer and what it announced in this
call.  Go's integer division truncates toward zero. -/
def Update (p : ProgressAnnouncer) (state : SliderState) :
    ProgressAnnouncer × List Announcement :=
  if p.announcer = false then (p, [])
  else
    let pct := pctOf state
    let threshold := (Int.tdiv pct p.interval) * p.interval
    if pct ≥ 100 ∧ p.lastAnnounced < 100 then
      ({ p with lastAnnounced := 100 }, [Announcement.complete])
    else if threshold ≠ p.lastAnnounced ∧ threshold > 0 ∧ threshold < 100 then
      ({ p with lastAnnounced := threshold }, [Announcement.percent threshold])
    else (p, [])

/-- Go `Reset`. -/
def Reset (p : ProgressAnnouncer) : ProgressAnnouncer := { p with lastAnnounced := -1 }

/-- A sequence of `Update` calls, one per state: the final announcer and everything
announced, in order. -/
def updates (p : ProgressAnnouncer) : List SliderState → ProgressAnnouncer × List Announcement
  | [] => (p, [])
  | state :: rest =>
    let r := p.Update state
    let r2 := updates r.1 rest
    (r2.1, r.2 ++ r2.2)

/-- A sequence of `Update` calls, one per integer percentage the calls compute: the
final announcer and everything announced, in order. -/
def updatesAt (p : ProgressAnnouncer) : List ℤ → ProgressAnnouncer × List Announcement
  | [] => (p, [])
  | pct :: rest =>
    let r := p.UpdateAt pct
    let r2 := updatesAt r.1 rest
    (r2.1, r.2 ++ r2.2)

end ProgressAnnouncer

/-! ## `slider.go`: construction -/

/-- Go `SliderOption`. -/
abbrev SliderOption := Slider → Slider

/-- Go `WithWidth`: stored only when positive. -/
def WithWidth (width : ℤ) : SliderOption := fun s =>
  if width > 0 then { s with width := width } else s

/-- Go `WithHeight`: stored only when positive. -/
def WithHeight (height : ℤ) : SliderOption := fun s =>
  if height > 0 then { s with height := height } else s

/-- Go `WithSegmentCount`: stored when `count >= 0` (`0` means automatic). -/
def WithSegmentCount (count : ℤ) : SliderOption := fun s =>
  if count ≥ 0 then { s with segmentCount := count } else s

/-- Go `WithSegmentGap`: stored when `gap >= 0`. -/
def WithSegmentGap (gap : ℤ) : SliderOption := fun s =>
  if gap ≥ 0 then { s with segmentGap := gap } else s

/-- Go `New`: a `nil` state is replaced by `NewState()`, the fields get their
defaults, then the options run in order. -/
def New (state : Option SliderState) (opts : List SliderOption) : Slider :=
  let state1 := match state with
    | none => NewState []
    | some st => st
  let s : Slider :=
    { state := state1, width := 20, height := 10, orientation := Orientation.Horizontal,
      symbols := DefaultSymbols, showHandle := true, label := "",
      labelPosition := LabelPosition.LabelNone, showValue := false,
      valuePosition := ValuePosition.ValueRight, valueFormat := "", collisionCheck := true,
      segmented := false, segmentCount := 0, segmentGap := 1 }
  opts.foldl (fun s opt => opt s) s

/-! ## `animation.go`: interpolation helpers and the manager -/

/-- Go `Clamp`. -/
def Clamp (value min max : ℚ) : ℚ :=
  if value < min then min
  else if value > max then max
  else value

/-- Go `SmoothStep`. -/
def SmoothStep (t : ℚ) : ℚ :=
  let t1 := Clamp t 0 1
  t1 * t1 * (3 - 2 * t1)

/-- Go `SmootherStep`. -/
def SmootherStep (t : ℚ) : ℚ :=
  let t1 := Clamp t 0 1
  t1 * t1 * t1 * (t1 * (t1 * 6 - 15) + 10)

/-- Go `Animation.Update` with its division instrumented by `divChecked`: the same
control flow, `none` if the division were reached with a zero divisor. -/
def Animation.UpdateChecked (a : Animation) (elapsed : ℤ) (state : SliderState) :
    Option (SliderState × ℕ × Bool) :=
  if elapsed ≥ a.duration then
    let state1 := state.SetValue a.endValue
    some (state1, if a.onComplete then 1 else 0, true)
  else
    match SliderState.divChecked (elapsed : ℚ) (a.duration : ℚ) with
    | none => none
    | some progress =>
      let easedProgress := a.easing progress
      let value := a.startValue + (a.endValue - a.startValue) * easedProgress
      some (state.SetValue value, 0, false)

/-- An `*Animation` held by the manager: its fields and the address of the state it
animates. -/
structure ManagedAnimation where
  anim : Animation
  state : ℕ

/-- Go `AnimationManager`; the map `animations` is kept as a list of key and value
pairs with distinct keys. -/
structure AnimationManager where
  animations : List (ℤ × ManagedAnimation)
  nextID : ℤ

/-- Go `NewAnimationManager`. -/
def NewAnimationManager : AnimationManager := { animations := [], nextID := 0 }

namespace AnimationManager

/-- The map assignment `m[k] = v`: an entry with the same key is replaced. -/
def mapSet (m : List (ℤ × ManagedAnimation)) (k : ℤ) (v : ManagedAnimation) :
    List (ℤ × ManagedAnimation) :=
  (k, v) :: m.filter (fun e => decide (e.1 ≠ k))

/-- The map deletion `delete(m, k)`. -/
def mapDelete (m : List (ℤ × ManagedAnimation)) (k : ℤ) : List (ℤ × ManagedAnimation) :=
  m.filter (fun e => decide (e.1 ≠ k))

/-- Go `Start`: the new manager and the returned id. -/
def Start (m : AnimationManager) (heap : Heap) (state : ℕ) (targetValue : ℚ)
    (opts : List AnimationOption) : AnimationManager × ℤ :=
  let id := m.nextID
  let nextID1 := m.nextID + 1
  ({ animations := mapSet m.animations id
        { anim := NewAnimation (heap state) targetValue opts, state := state },
     nextID := nextID1 }, id)

/-- The loop of `Update` over the map, in list order (Go leaves the order open):
each animation is updated at the elapsed time `elapsed id` read for it, its state
is written, and it is deleted when it reports complete. -/
def updateLoop (elapsed : ℤ → ℤ) :
    List (ℤ × ManagedAnimation) → Heap → List (ℤ × ManagedAnimation) × Heap
  | [], heap => ([], heap)
  | e :: rest, heap =>
    let r := e.2.anim.Update (elapsed e.1) (heap e.2.state)
    let heap1 := Function.update heap e.2.state r.1
    let rr := updateLoop elapsed rest heap1
    if r.2.2 = true then rr else (e :: rr.1, rr.2)

/-- Go `AnimationManager.Update`: the new manager, the new heap and whether any
animation is still running. -/
def Update (m : AnimationManager) (elapsed : ℤ → ℤ) (heap : Heap) :
    AnimationManager × Heap × Bool :=
  let r := updateLoop elapsed m.animations heap
  ({ m with animations := r.1 }, r.2, decide (r.1.length > 0))

/-- Go `Cancel`. -/
def Cancel (m : AnimationManager) (id : ℤ) : AnimationManager :=
  { m with animations := mapDelete m.animations id }

/-- Go `CancelAll`. -/
def CancelAll (m : AnimationManager) : AnimationManager := { m with animations := [] }

/-- Go `IsRunning`. -/
def IsRunning (m : AnimationManager) : Bool := decide (m.animations.length > 0)

/-- Go `Count`. -/
def Count (m : AnimationManager) : ℤ := m.animations.length

/-- The ids of the running animations. -/
def running (m : AnimationManager) : List ℤ := m.animations.map Prod.fst

end AnimationManager

/-- One call on an `AnimationManager`. -/
inductive ManagerOp where
  | start (state : ℕ) (targetValue : ℚ) (opts : List AnimationOption)
  | update (elapsed : ℤ → ℤ)
  | cancel (id : ℤ)
  | cancelAll

/-- The manager and heap after one call, with the id it returned if it was a
`Start`. -/
def ManagerOp.apply (m : AnimationManager) (heap : Heap) :
    ManagerOp → AnimationManager × Heap × List ℤ
  | .start state targetValue opts =>
    let r := m.Start heap state targetValue opts
    (r.1, heap, [r.2])
  | .update elapsed =>
    let r := m.Update elapsed heap
    (r.1, r.2.1, [])
  | .cancel id => (m.Cancel id, heap, [])
  | .cancelAll => (m.CancelAll, heap, [])

/-- The manager and heap reached from the manager `m` by the calls `ops`, in order,
with the ids the `Start` calls returned appended to `ids`. -/
def runManagerFrom (m : AnimationManager) (heap : Heap) (ids : List ℤ) :
    List ManagerOp → AnimationManager × Heap × List ℤ
  | [] => (m, heap, ids)
  | op :: ops =>
    let r := op.apply m heap
    runManagerFrom r.1 r.2.1 (ids ++ r.2.2) ops

/-- The manager and heap reached from `NewAnimationManager()` by the calls `ops`, and
the ids the `Start` calls returned, in order. -/
def runManager (heap : Heap) (ops : List ManagerOp) : AnimationManager × Heap × List ℤ :=
  runManagerFrom NewAnimationManager heap [] ops

/-! ## `accessibility.go`: the accessible slider -/

/-- Go `AccessibilityMode`. -/
inductive AccessibilityMode where
  | AccessibilityDefault
  | AccessibilityHighContrast
  | AccessibilityASCII
  | AccessibilityScreenReader
  deriving DecidableEq, Repr

/-- The fields of `AccessibleSlider`; `announcer` records whether the callback is
non-nil. -/
structure AccessibleSlider where
  slider : Slider
  mode : AccessibilityMode
  description : String
  announcer : Bool
  focused : Bool

namespace AccessibleSlider

/-- Go `AccessibleSlider.Increment`: the wrapper with the state mutated, and how many
times the announcer was called. -/
def Increment (a : AccessibleSlider) : AccessibleSlider × ℕ :=
  let oldValue := a.slider.state.Value
  let state1 := a.slider.state.Increment
  let newValue := state1.Value
  let a1 : AccessibleSlider := { a with slider := { a.slider with state := state1 } }
  if oldValue ≠ newValue ∧ a.announcer = true then (a1, 1) else (a1, 0)

/-- Go `AccessibleSlider.Decrement`. -/
def Decrement (a : AccessibleSlider) : AccessibleSlider × ℕ :=
  let oldValue := a.slider.state.Value
  let state1 := a.slider.state.Decrement
  let newValue := state1.Value
  let a1 : AccessibleSlider := { a with slider := { a.slider with state := state1 } }
  if oldValue ≠ newValue ∧ a.announcer = true then (a1, 1) else (a1, 0)

/-- Go `AccessibleSlider.SetValue`. -/
def SetValue (a : AccessibleSlider) (value : ℚ) : AccessibleSlider × ℕ :=
  let oldValue := a.slider.state.Value
  let state1 := a.slider.state.SetValue value
  let newValue := state1.Value
  let a1 : AccessibleSlider := { a with slider := { a.slider with state := state1 } }
  if oldValue ≠ newValue ∧ a.announcer = true then (a1, 1) else (a1, 0)

end AccessibleSlider

open SliderState

/-! ## Lemmas on `clamp` and the reachable states -/

lemma clamp_mem_of_le (s : SliderState) (v : ℚ) (h : s.min ≤ s.max) :
    s.min ≤ s.clamp v ∧ s.clamp v ≤ s.max := by
  unfold SliderState.clamp
  split_ifs with h1 h2
  · exact ⟨le_refl _, h⟩
  · exact ⟨h, le_refl _⟩
  · exact ⟨not_lt.mp h1, not_lt.mp h2⟩

lemma clamp_between (s : SliderState) (v : ℚ) :
    s.min ⊓ s.max ≤ s.clamp v ∧ s.clamp v ≤ s.min ⊔ s.max := by
  unfold SliderState.clamp
  split_ifs with h1 h2
  · exact ⟨inf_le_left, le_sup_left⟩
  · exact ⟨inf_le_right, le_sup_right⟩
  · exact ⟨le_trans inf_le_left (not_lt.mp h1), le_trans (not_lt.mp h2) le_sup_right⟩

lemma foldl_options_step_pos (opts : List OptionCall) (s : SliderState) (h : 0 < s.step) :
    0 < ((opts.map OptionCall.toOption).foldl (fun s opt => opt s) s).step := by
  induction opts generalizing s with
  | nil => simpa using h
  | cons o os ih =>
    simp only [List.map_cons, List.foldl_cons]
    apply ih
    cases o with
    | withMin m => simpa [OptionCall.toOption, WithMin] using h
    | withMax m => simpa [OptionCall.toOption, WithMax] using h
    | withValue v => simpa [OptionCall.toOption, WithValue] using h
    | withStep st =>
      simp only [OptionCall.toOption, WithStep]
      split_ifs with hs
      · exact one_pos
      · exact not_le.mp hs

lemma NewState_inv (opts : List OptionCall) : Inv (NewState (opts.map OptionCall.toOption)) := by
  unfold NewState
  refine ⟨(clamp_between _ _).1, (clamp_between _ _).2, ?_⟩
  exact foldl_options_step_pos opts _ one_pos

lemma setFromPercentage_value (s : SliderState) (p : ℚ) :
    (s.SetFromPercentage p).value = s.min + (0 ⊔ (p ⊓ 1)) * (s.max - s.min) := by
  have hc : (if (if p < 0 then 0 else p) > 1 then 1 else (if p < 0 then 0 else p))
      = 0 ⊔ (p ⊓ 1) := by
    by_cases h0 : p < 0
    · have h01 : ¬ ((0 : ℚ) > 1) := by norm_num
      rw [if_pos h0, if_neg h01, inf_eq_left.mpr (by linarith : p ≤ 1),
        sup_eq_left.mpr (le_of_lt h0)]
    · rw [if_neg h0]
      by_cases h1 : p > 1
      · rw [if_pos h1, inf_eq_right.mpr (le_of_lt h1), sup_eq_right.mpr zero_le_one]
      · rw [if_neg h1, inf_eq_left.mpr (not_lt.mp h1), sup_eq_right.mpr (not_lt.mp h0)]
  show s.min + _ * (s.max - s.min) = _
  rw [hc]

lemma unit_clamp_mem (p : ℚ) : 0 ≤ 0 ⊔ (p ⊓ 1) ∧ 0 ⊔ (p ⊓ 1) ≤ 1 :=
  ⟨le_sup_left, sup_le zero_le_one inf_le_right⟩

lemma setFromPercentage_between (s : SliderState) (p : ℚ) :
    s.min ⊓ s.max ≤ (s.SetFromPercentage p).value ∧
      (s.SetFromPercentage p).value ≤ s.min ⊔ s.max := by
  rw [setFromPercentage_value]
  obtain ⟨h0, h1⟩ := unit_clamp_mem p
  generalize 0 ⊔ (p ⊓ 1) = c at h0 h1
  rcases le_total s.min s.max with h | h
  · rw [inf_eq_left.mpr h, sup_eq_right.mpr h]
    constructor <;> nlinarith
  · rw [inf_eq_right.mpr h, sup_eq_left.mpr h]
    constructor <;> nlinarith

lemma apply_inv (s : SliderState) (m : Mutation) (h : Inv s) : Inv (m.apply s) := by
  obtain ⟨h1, h2, h3⟩ := h
  cases m with
  | setValue v => exact ⟨(clamp_between s v).1, (clamp_between s v).2, h3⟩
  | setMin m =>
    exact ⟨(clamp_between { s with min := m } _).1, (clamp_between { s with min := m } _).2, h3⟩
  | setMax m =>
    exact ⟨(clamp_between { s with max := m } _).1, (clamp_between { s with max := m } _).2, h3⟩
  | setStep st =>
    simp only [Mutation.apply, SliderState.SetStep]
    split_ifs with hs
    · exact ⟨h1, h2, hs⟩
    · exact ⟨h1, h2, h3⟩
  | increment => exact ⟨(clamp_between s _).1, (clamp_between s _).2, h3⟩
  | decrement => exact ⟨(clamp_between s _).1, (clamp_between s _).2, h3⟩
  | setFromPercentage p =>
    exact ⟨(setFromPercentage_between s p).1, (setFromPercentage_between s p).2, h3⟩

lemma foldl_apply_inv (ms : List Mutation) (s : SliderState) (h : Inv s) :
    Inv (ms.foldl Mutation.apply s) := by
  induction ms generalizing s with
  | nil => simpa using h
  | cons m ms ih => exact ih _ (apply_inv s m h)

lemma reach_inv (opts : List OptionCall) (ms : List Mutation) : Inv (reach opts ms) :=
  foldl_apply_inv ms _ (NewState_inv opts)

/-! ## The value model: `SetValue`, the reachable states and `Percentage` -/

/-- C3: in every state reachable from `NewState` (any options) by any sequence of
mutator calls, `Percentage()` lies in `[0, 1]`, whatever the order of `min` and
`max`. -/
theorem Percentage_unit_interval (opts : List OptionCall) (ms : List Mutation) :
    0 ≤ (reach opts ms).Percentage ∧ (reach opts ms).Percentage ≤ 1 := by
  obtain ⟨h1, h2, -⟩ := reach_inv opts ms
  generalize reach opts ms = s at h1 h2
  unfold SliderState.Percentage
  split_ifs with he
  · exact ⟨le_rfl, zero_le_one⟩
  · rcases lt_or_gt_of_ne he with hlt | hgt
    · -- max < min: numerator and denominator are both non-positive
      have hle : s.max ≤ s.min := le_of_lt hlt
      rw [inf_eq_right.mpr hle] at h1
      rw [sup_eq_left.mpr hle] at h2
      have hd : s.max - s.min < 0 := by linarith
      constructor
      · exact div_nonneg_of_nonpos (by linarith) (le_of_lt hd)
      · rw [div_le_one_of_neg hd]
        linarith
    · have hle : s.min ≤ s.max := le_of_lt hgt
      rw [inf_eq_left.mpr hle] at h1
      rw [sup_eq_right.mpr hle] at h2
      have hd : 0 < s.max - s.min := by linarith
      constructor
      · exact div_nonneg (by linarith) (le_of_lt hd)
      · rw [div_le_one hd]
        linarith

/-- C4: for a state with `min < max` and `p` in `[0, 1]`, `Percentage()` after
`SetFromPercentage(p)` is `p`. -/
theorem Percentage_SetFromPercentage (s : SliderState) (p : ℚ) (h : s.min < s.max)
    (h0 : 0 ≤ p) (h1 : p ≤ 1) : (s.SetFromPercentage p).Percentage = p := by
  have hv := setFromPercentage_value s p
  rw [inf_eq_left.mpr h1, sup_eq_right.mpr h0] at hv
  have hd : s.max - s.min ≠ 0 := by
    intro hz
    linarith
  have hne : ¬ (s.SetFromPercentage p).max = (s.SetFromPercentage p).min := by
    show ¬ s.max = s.min
    intro hz
    linarith
  unfold SliderState.Percentage
  rw [if_neg hne, hv]
  show (s.min + p * (s.max - s.min) - s.min) / (s.max - s.min) = p
  field_simp

/-- C4 at `min=0, max=100`, `p = 1/4`: the percentage read back is `1/4`. -/
theorem Percentage_SetFromPercentage_witness :
    (SliderState.SetFromPercentage { min := 0, max := 100, value := 0, step := 1 }
      (1 / 4)).Percentage = 1 / 4 :=
  Percentage_SetFromPercentage { min := 0, max := 100, value := 0, step := 1 } (1 / 4)
    (by norm_num) (by norm_num) (by norm_num)

/-- C5: `Percentage()` is `(value - min)/(max - min)` when `max ≠ min` and `0` when
`max = min`, and its division is never reached with a zero divisor: the
instrumented `PercentageChecked` always returns the same number. -/
theorem Percentage_guarded (s : SliderState) :
    (s.max ≠ s.min → s.Percentage = (s.value - s.min) / (s.max - s.min)) ∧
    (s.max = s.min → s.Percentage = 0) ∧
    s.PercentageChecked = some s.Percentage := by
  refine ⟨fun h => ?_, fun h => ?_, ?_⟩
  · unfold SliderState.Percentage
    rw [if_neg h]
  · unfold SliderState.Percentage
    rw [if_pos h]
  · unfold SliderState.PercentageChecked SliderState.Percentage SliderState.divChecked
    by_cases h : s.max = s.min
    · rw [if_pos h, if_pos h]
    · rw [if_neg h, if_neg h, if_neg (sub_ne_zero.mpr h)]

/-- C5 at `min = max = value = 50`: the percentage is `0`. -/
theorem Percentage_guarded_witness :
    (SliderState.Percentage { min := 50, max := 50, value := 50, step := 1 }) = 0 :=
  (Percentage_guarded { min := 50, max := 50, value := 50, step := 1 }).2.1 rfl

/-! ## `SetFromPercentage`, the step, `Increment`/`Decrement` and `NewState` -/

lemma step_round_trip (s : SliderState) (hs : 0 ≤ s.step) :
    (s.min ≤ s.value → s.value + s.step ≤ s.max → s.Increment.Decrement.value = s.value) ∧
    (s.min ≤ s.value - s.step → s.value ≤ s.max → s.Decrement.Increment.value = s.value) := by
  have hcl : ∀ (t : SliderState) (v : ℚ), t.min ≤ v → v ≤ t.max → t.clamp v = v := by
    intro t v h1 h2
    unfold SliderState.clamp
    rw [if_neg (not_lt.mpr h1), if_neg (not_lt.mpr h2)]
  constructor
  · intro h1 h2
    have e1 : s.Increment.value = s.value + s.step :=
      hcl s _ (by linarith) h2
    show s.Increment.clamp (s.Increment.value - s.Increment.step) = s.value
    have e2 : s.Increment.step = s.step := rfl
    rw [e1, e2, add_sub_cancel_right]
    exact hcl _ _ h1 (by linarith [show s.Increment.max = s.max from rfl])
  · intro h1 h2
    have e1 : s.Decrement.value = s.value - s.step :=
      hcl s _ h1 (by linarith)
    show s.Decrement.clamp (s.Decrement.value + s.Decrement.step) = s.value
    have e2 : s.Decrement.step = s.step := rfl
    rw [e1, e2, sub_add_cancel]
    exact hcl _ _ (by linarith [show s.Decrement.min = s.min from rfl]) h2

/-- C8: `Increment()` then `Decrement()` restores the value when `min ≤ value` and
`value + step ≤ max`, and `Decrement()` then `Increment()` restores it when
`value - step ≥ min` and `value ≤ max`: in every state reachable from `NewState`,
and more generally in every state whose step is not negative (the zero value
`SliderState{}` included). -/
theorem Increment_Decrement_restore (opts : List OptionCall) (ms : List Mutation)
    (s : SliderState) :
    (((reach opts ms).min ≤ (reach opts ms).value →
        (reach opts ms).value + (reach opts ms).step ≤ (reach opts ms).max →
        (reach opts ms).Increment.Decrement.value = (reach opts ms).value) ∧
      ((reach opts ms).min ≤ (reach opts ms).value - (reach opts ms).step →
        (reach opts ms).value ≤ (reach opts ms).max →
        (reach opts ms).Decrement.Increment.value = (reach opts ms).value)) ∧
    (0 ≤ s.step →
      (s.min ≤ s.value → s.value + s.step ≤ s.max → s.Increment.Decrement.value = s.value) ∧
      (s.min ≤ s.value - s.step → s.value ≤ s.max → s.Decrement.Increment.value = s.value)) :=
  ⟨step_round_trip (reach opts ms) (le_of_lt (reach_inv opts ms).2.2), step_round_trip s⟩

/-- C8 at `NewState(WithMin(0), WithMax(1), WithValue(1/2), WithStep(1/10))`: up one
step and down again gives `1/2`. -/
theorem Increment_Decrement_restore_witness :
    (SliderState.Decrement (SliderState.Increment
      (reach [OptionCall.withMin 0, OptionCall.withMax 1, OptionCall.withValue (1 / 2),
        OptionCall.withStep (1 / 10)] []))).value =
      (reach [OptionCall.withMin 0, OptionCall.withMax 1, OptionCall.withValue (1 / 2),
        OptionCall.withStep (1 / 10)] []).value := by
  have hv : (reach [OptionCall.withMin 0, OptionCall.withMax 1, OptionCall.withValue (1 / 2),
      OptionCall.withStep (1 / 10)] []).value = 1 / 2 := by
    norm_num [reach, NewState, OptionCall.toOption, WithMin, WithMax, WithValue, WithStep,
      SliderState.clamp]
  have hst : (reach [OptionCall.withMin 0, OptionCall.withMax 1, OptionCall.withValue (1 / 2),
      OptionCall.withStep (1 / 10)] []).step = 1 / 10 := by
    norm_num [reach, NewState, OptionCall.toOption, WithMin, WithMax, WithValue, WithStep]
  have hmin : (reach [OptionCall.withMin 0, OptionCall.withMax 1, OptionCall.withValue (1 / 2),
      OptionCall.withStep (1 / 10)] []).min = 0 := rfl
  have hmax : (reach [OptionCall.withMin 0, OptionCall.withMax 1, OptionCall.withValue (1 / 2),
      OptionCall.withStep (1 / 10)] []).max = 1 := rfl
  exact (Increment_Decrement_restore
    [OptionCall.withMin 0, OptionCall.withMax 1, OptionCall.withValue (1 / 2),
      OptionCall.withStep (1 / 10)] [] (NewState [])).1.1
    (by rw [hmin, hv]; norm_num) (by rw [hv, hst, hmax]; norm_num)

/-- C9: `NewState()` yields `min=0, max=100, value=0, step=1`; the value is clamped
once, after all options ran, so for `a ≤ b` the options `WithMin(a)`, `WithMax(b)`,
`WithValue(v)` in any order yield `value = clamp(v, a, b)`, `min = a`, `max = b`. -/
theorem NewState_defaults_and_clamp (a b v : ℚ) (hab : a ≤ b) (opts : List StateOption)
    (hp : opts.Perm [WithMin a, WithMax b, WithValue v]) :
    NewState [] = { min := 0, max := 100, value := 0, step := 1 } ∧
    (NewState opts).value = a ⊔ (v ⊓ b) ∧
    (NewState opts).min = a ∧ (NewState opts).max = b := by
  have hclamp : (SliderState.clamp { min := a, max := b, value := v, step := 1 } v)
      = a ⊔ (v ⊓ b) := by
    unfold SliderState.clamp
    show (if v < a then a else if v > b then b else v) = a ⊔ (v ⊓ b)
    split_ifs with h1 h2
    · rw [inf_eq_left.mpr (by linarith : v ≤ b), sup_eq_left.mpr (le_of_lt h1)]
    · rw [inf_eq_right.mpr (le_of_lt h2), sup_eq_right.mpr hab]
    · rw [inf_eq_left.mpr (not_lt.mp h2), sup_eq_right.mpr (not_lt.mp h1)]
  have hcomm : ∀ x ∈ opts, ∀ y ∈ opts, ∀ z : SliderState, y (x z) = x (y z) := by
    intro x hx y hy z
    have hx1 := hp.mem_iff.mp hx
    have hy1 := hp.mem_iff.mp hy
    simp only [List.mem_cons, List.mem_singleton, List.not_mem_nil, or_false] at hx1 hy1
    rcases hx1 with h | h | h <;> rcases hy1 with h2 | h2 | h2 <;> subst h <;> subst h2 <;> rfl
  have hfold : opts.foldl (fun s opt => opt s)
        ({ min := 0, max := 100, value := 0, step := 1 } : SliderState) =
      [WithMin a, WithMax b, WithValue v].foldl (fun s opt => opt s)
        ({ min := 0, max := 100, value := 0, step := 1 } : SliderState) :=
    List.Perm.foldl_eq' hp hcomm _
  have hstate : NewState opts =
      { min := a, max := b,
        value := SliderState.clamp { min := a, max := b, value := v, step := 1 } v,
        step := 1 } := by
    unfold NewState
    simp only [hfold]
    rfl
  refine ⟨rfl, ?_, ?_, ?_⟩
  · rw [hstate]
    exact hclamp
  · rw [hstate]
  · rw [hstate]

/-- C9 at `NewState(WithValue(150), WithMax(100), WithMin(0))`: the value is `100`. -/
theorem NewState_defaults_and_clamp_witness :
    (NewState [WithValue 150, WithMax 100, WithMin 0]).value = 100 := by
  have h := (NewState_defaults_and_clamp 0 100 150 (by norm_num)
    [WithValue 150, WithMax 100, WithMin 0]
    (by
      refine (List.Perm.swap _ _ _).trans ?_
      refine (List.Perm.cons _ (List.Perm.swap _ _ _)).trans ?_
      exact List.Perm.swap _ _ _)).2.1
  rw [h]
  norm_num

/-! ## The continuous horizontal track -/

lemma emitLoop_unit (sym : Piece) (cells : ℤ) (k : ℕ) :
    ∀ (fuel : ℕ) (i : ℤ) (track : List Piece), i + k = cells → k < fuel →
      emitLoop sym 1 cells fuel i track = some (track ++ List.replicate k sym) := by
  induction k with
  | zero =>
    intro fuel i track hi hfuel
    obtain ⟨f, rfl⟩ : ∃ f, fuel = f + 1 := ⟨fuel - 1, by omega⟩
    have hnot : ¬ i < cells := by simp at hi; omega
    simp [emitLoop, hnot]
  | succ k ih =>
    intro fuel i track hi hfuel
    obtain ⟨f, rfl⟩ : ∃ f, fuel = f + 1 := ⟨fuel - 1, by omega⟩
    have hlt : i < cells := by push_cast at hi; omega
    have hnot : ¬ i + 1 > cells := by push_cast at hi; omega
    have hrec := ih f (i + 1) (track ++ [sym]) (by push_cast at hi; omega) (by omega)
    simp only [emitLoop, if_pos hlt, if_neg hnot, hrec, List.append_assoc,
      List.singleton_append, List.replicate_succ]

lemma trackColumns_append (sw : String → ℕ) (sym : Symbols) (a b : List Piece) :
    trackColumns sw sym (a ++ b) = trackColumns sw sym a + trackColumns sw sym b := by
  simp [trackColumns]

lemma trackColumns_replicate (sw : String → ℕ) (sym : Symbols) (n : ℕ) (p : Piece) :
    trackColumns sw sym (List.replicate n p) = n * Piece.columns sw sym p := by
  simp [trackColumns]

/-! ## Wide and zero-width glyphs in the continuous horizontal track -/

lemma emitLoop_zero_width (sym : Piece) (cells : ℤ) (fuel : ℕ) :
    ∀ (i : ℤ) (track : List Piece), i < cells → emitLoop sym 0 cells fuel i track = none := by
  induction fuel with
  | zero =>
    intro i track _
    rfl
  | succ f ih =>
    intro i track hi
    have hnot : ¬ i + 0 > cells := by omega
    simp only [emitLoop, if_pos hi, if_neg hnot]
    exact ih (i + 0) _ (by omega)

lemma floor_half_odd (k : ℤ) : ⌊((2 * k + 1 : ℤ) : ℚ) * (1 / 2)⌋ = k := by
  rw [Int.floor_eq_iff]
  push_cast
  constructor <;> linarith

lemma floor_half_even (k : ℤ) : ⌊((2 * k : ℤ) : ℚ) * (1 / 2)⌋ = k := by
  rw [Int.floor_eq_iff]
  push_cast
  constructor <;> linarith

lemma percentage_half :
    SliderState.Percentage { min := 0, max := 100, value := 50, step := 1 } = 1 / 2 := by
  norm_num [SliderState.Percentage]

lemma buildHorizontalTrack_cells (sw : String → ℕ) (fuel : ℕ) (s : Slider)
    (hseg : s.segmented = false) (avail filled : ℤ)
    (ha : avail = if s.width - handleColumns sw s < 0 then 0 else s.width - handleColumns sw s)
    (hf : filled = if truncToInt ((avail : ℚ) * s.state.Percentage) > avail then avail
      else truncToInt ((avail : ℚ) * s.state.Percentage)) :
    buildHorizontalTrack sw fuel s =
      match emitLoop Piece.filled (sw s.symbols.Filled) filled fuel 0 [] with
      | none => none
      | some track1 =>
        emitLoop Piece.empty (sw s.symbols.Empty) (avail - filled) fuel 0
          (if s.showHandle then track1 ++ [Piece.handle] else track1) := by
  subst hf
  subst ha
  unfold buildHorizontalTrack handleColumns
  rw [if_neg (by simp [hseg])]

/-- C11 fails on the code: with two-column filled and empty glyphs (`"=="`, `"--"`),
width 10, no handle and value 50 of `[0, 100]`, so `filledCells = emptyCells = 5`,
`buildHorizontalTrack` writes three filled and three empty glyphs: six columns
each, twelve in all, more than the width 10. -/
theorem buildHorizontalTrack_wide_glyph_overflow :
    buildHorizontalTrack String.length 20
        { state := { min := 0, max := 100, value := 50, step := 1 }, width := 10,
          showHandle := false, symbols := { Filled := "==", Empty := "--", Handle := "O" } } =
      some (List.replicate 3 Piece.filled ++ List.replicate 3 Piece.empty) ∧
    trackColumns String.length { Filled := "==", Empty := "--", Handle := "O" }
        (List.replicate 3 Piece.filled) = 6 ∧
    trackColumns String.length { Filled := "==", Empty := "--", Handle := "O" }
        (List.replicate 3 Piece.filled ++ List.replicate 3 Piece.empty) = 12 ∧
    ¬ trackColumns String.length { Filled := "==", Empty := "--", Handle := "O" }
        (List.replicate 3 Piece.filled ++ List.replicate 3 Piece.empty) ≤ 10 := by
  have ht : truncToInt (((10 : ℤ) : ℚ) * (1 / 2)) = 5 := by
    unfold truncToInt
    rw [if_pos (by norm_num)]
    exact floor_half_even 5
  refine ⟨?_, by decide, by decide, by decide⟩
  rw [buildHorizontalTrack_cells String.length 20 _ rfl 10 5 (by decide)
    (by
      show (5 : ℤ) = if truncToInt (((10 : ℤ) : ℚ) *
          SliderState.Percentage { min := 0, max := 100, value := 50, step := 1 }) > 10 then 10
        else truncToInt (((10 : ℤ) : ℚ) *
          SliderState.Percentage { min := 0, max := 100, value := 50, step := 1 })
      rw [percentage_half, ht]
      decide)]
  decide

/-- C12 fails on the code: with an empty filled glyph (display width 0), the default
width 20 and value 50 of `[0, 100]`, so `filledCells = 9`, the filled loop of
`buildHorizontalTrack` never advances `i`: no amount of fuel returns a track, and
`View` does not return either. -/
theorem buildHorizontalTrack_empty_glyph_diverges (fuel : ℕ) :
    buildHorizontalTrack String.length fuel
        { state := { min := 0, max := 100, value := 50, step := 1 },
          symbols := { Filled := "", Empty := "-", Handle := "O" } } = none ∧
    viewTrack String.length fuel
        { state := { min := 0, max := 100, value := 50, step := 1 },
          symbols := { Filled := "", Empty := "-", Handle := "O" } } = none := by
  have ht : truncToInt (((19 : ℤ) : ℚ) * (1 / 2)) = 9 := by
    unfold truncToInt
    rw [if_pos (by norm_num)]
    exact floor_half_odd 9
  have hb : buildHorizontalTrack String.length fuel
      { state := { min := 0, max := 100, value := 50, step := 1 },
        symbols := { Filled := "", Empty := "-", Handle := "O" } } = none := by
    rw [buildHorizontalTrack_cells String.length fuel _ rfl 19 9 (by decide)
      (by
        show (9 : ℤ) = if truncToInt (((19 : ℤ) : ℚ) *
            SliderState.Percentage { min := 0, max := 100, value := 50, step := 1 }) > 19 then 19
          else truncToInt (((19 : ℤ) : ℚ) *
            SliderState.Percentage { min := 0, max := 100, value := 50, step := 1 })
        rw [percentage_half, ht]
        decide)]
    have hl := emitLoop_zero_width Piece.filled 9 fuel 0 [] (by norm_num)
    show (match emitLoop Piece.filled ((0 : ℕ) : ℤ) 9 fuel 0 [] with
      | none => none
      | some track1 => _) = none
    rw [Nat.cast_zero, hl]
  refine ⟨hb, ?_⟩
  unfold viewTrack
  simp only [hb]
  rfl

/-! ## The vertical and the segmented track -/

lemma foldl_snoc_eq_map {α β : Type} (g : α → β) (l : List α) :
    ∀ init : List β, l.foldl (fun acc a => acc ++ [g a]) init = init ++ l.map g := by
  induction l with
  | nil => intro init; simp
  | cons a l ih =>
    intro init
    simp only [List.foldl_cons, List.map_cons, ih, List.append_assoc, List.singleton_append]

lemma foldl_step_eq_map {α β : Type} (l : List α) (step : List β → α → List β) (g : α → β)
    (h : ∀ acc a, step acc a = acc ++ [g a]) :
    ∀ init : List β, l.foldl step init = init ++ l.map g := by
  have hs : step = fun acc a => acc ++ [g a] := by
    funext acc a
    exact h acc a
  rw [hs]
  exact foldl_snoc_eq_map g l

lemma ite_gt_eq_min (f h : ℤ) : (if f > h then h else f) = min f h := by
  rw [min_def]
  split_ifs <;> omega

lemma clamp_row_eq (e h : ℤ) :
    (if (if e ≥ h then h - 1 else e) < 0 then 0 else if e ≥ h then h - 1 else e)
      = max 0 (min e (h - 1)) := by
  rw [max_def, min_def]
  split_ifs <;> omega

lemma truncToInt_of_nonneg (q : ℚ) (h : 0 ≤ q) : truncToInt q = ⌊q⌋ := by
  unfold truncToInt
  rw [if_pos h]

lemma count_map_range_eq_one {β : Type} [DecidableEq β] (f : ℕ → β) (b : β) (n k : ℕ)
    (hk : k < n) (hf : ∀ i, f i = b ↔ i = k) : ((List.range n).map f).count b = 1 := by
  rw [List.count, List.countP_map]
  have hfun : ((fun x => x == b) ∘ f) = fun i => i == k := by
    funext i
    by_cases h : i = k
    · simp [h, (hf k).mpr rfl]
    · have hne : f i ≠ b := fun hb => h ((hf i).mp hb)
      simp [h, hne]
  rw [hfun]
  exact List.count_eq_one_of_mem (List.nodup_range n) (List.mem_range.mpr hk)

lemma intersperse_snoc {α : Type} (sep a : α) (l : List α) (hl : l ≠ []) :
    (l ++ [a]).intersperse sep = l.intersperse sep ++ [sep, a] := by
  induction l with
  | nil => exact absurd rfl hl
  | cons x l ih =>
    cases l with
    | nil => rfl
    | cons y zs =>
      have h := ih (List.cons_ne_nil y zs)
      show x :: sep :: (y :: zs ++ [a]).intersperse sep
        = x :: sep :: ((y :: zs).intersperse sep ++ [sep, a])
      rw [h]

lemma length_intersperse_map_range {α : Type} (sep : α) (g : ℕ → α) (n : ℕ) :
    (((List.range (n + 1)).map g).intersperse sep).length = 2 * n + 1 := by
  induction n with
  | zero => rfl
  | succ n ih =>
    rw [List.range_succ, List.map_append, List.map_singleton,
      intersperse_snoc sep _ _ (by simp), List.length_append, ih]
    simp
    ring

lemma foldl_gap_step_eq_intersperse {α : Type} (sep : α) (g : ℕ → α)
    (step : List α → ℕ → List α)
    (h : ∀ acc n, step acc n = (if (n : ℤ) > 0 then acc ++ [sep] else acc) ++ [g n]) (n : ℕ) :
    (List.range n).foldl step [] = ((List.range n).map g).intersperse sep := by
  induction n with
  | zero => rfl
  | succ n ih =>
    rw [List.range_succ, List.foldl_append, List.foldl_cons, List.foldl_nil, ih, h,
      List.map_append, List.map_singleton]
    cases n with
    | zero => rfl
    | succ k =>
      have hpos : ((k + 1 : ℕ) : ℤ) > 0 := by exact_mod_cast Nat.succ_pos k
      rw [if_pos hpos, intersperse_snoc sep _ _ (by simp), List.append_assoc]
      rfl

lemma ite_ge_eq_min (f n : ℤ) : (if f ≥ n then n - 1 else f) = min f (n - 1) := by
  rw [min_def]
  split_ifs <;> omega

lemma segmentCount_eq (s : Slider) :
    (if s.segmentCount ≤ 0 then
        (if (if Int.tdiv s.width 3 < 5 then 5 else Int.tdiv s.width 3) > 20 then 20
          else (if Int.tdiv s.width 3 < 5 then 5 else Int.tdiv s.width 3))
      else s.segmentCount) = specSegmentCount s := by
  unfold specSegmentCount
  have hdiv : Int.tdiv s.width 3 = s.width / 3 ∨ (Int.tdiv s.width 3 ≤ 0 ∧ s.width / 3 ≤ 0) := by
    rcases le_or_lt 0 s.width with h | h
    · exact Or.inl (Int.tdiv_eq_ediv h (by norm_num))
    · right
      constructor
      · have h1 : Int.tdiv (-(-s.width)) 3 = -(Int.tdiv (-s.width) 3) := Int.neg_tdiv _ _
        rw [neg_neg] at h1
        have h2 : 0 ≤ Int.tdiv (-s.width) 3 := Int.tdiv_nonneg (by omega) (by norm_num)
        omega
      · omega
  rw [max_def, min_def]
  rcases hdiv with h | ⟨h1, h2⟩
  · rw [h]
    split_ifs <;> omega
  · split_ifs <;> omega

lemma specSegmentCount_pos (s : Slider) : 1 ≤ specSegmentCount s := by
  unfold specSegmentCount
  split_ifs with h
  · omega
  · exact le_trans (by norm_num) (le_max_left 5 _)

/-! ## Label and value placement -/

/-- C15: `resolveCollision` returns the label position unchanged; when label and
value ask for the same side the value goes to the opposite side of that axis, and
otherwise the value position is unchanged; so afterwards they are never on the same
side, and label Left with value Left gives value Right.  `renderHorizontal` lays
out with the resolved positions when collision checking is on and both texts are
non-empty. -/
theorem resolveCollision_spec (l : LabelPosition) (v : ValuePosition) (s : Slider)
    (valueText : String) :
    (resolveCollision l v).1 = l ∧
    (sameSide l v = true → (resolveCollision l v).2 = oppositeSide v) ∧
    (sameSide l v = false → (resolveCollision l v).2 = v) ∧
    sameSide (resolveCollision l v).1 (resolveCollision l v).2 = false ∧
    resolveCollision LabelPosition.LabelLeft ValuePosition.ValueLeft
      = (LabelPosition.LabelLeft, ValuePosition.ValueRight) ∧
    (s.collisionCheck = true → s.label ≠ "" → s.showValue = true → valueText ≠ "" →
      horizontalPositions s valueText = resolveCollision s.labelPosition s.valuePosition ∧
      sameSide (horizontalPositions s valueText).1 (horizontalPositions s valueText).2
        = false) := by
  have hres : ∀ (l : LabelPosition) (v : ValuePosition),
      sameSide (resolveCollision l v).1 (resolveCollision l v).2 = false := by
    intro l v
    cases l <;> cases v <;> decide
  refine ⟨?_, ?_, ?_, hres l v, by decide, fun hc hl hs hv => ?_⟩
  · cases l <;> cases v <;> decide
  · cases l <;> cases v <;> decide
  · cases l <;> cases v <;> decide
  · have hpos : horizontalPositions s valueText
        = resolveCollision s.labelPosition s.valuePosition := by
      unfold horizontalPositions
      simp only [hc, hs, if_true, if_pos hl, true_and]
      rw [if_pos ⟨hl, hv⟩]
    refine ⟨hpos, ?_⟩
    rw [hpos]
    exact hres _ _

/-- C15 at label Top, value Top: the value is moved to Bottom. -/
theorem resolveCollision_spec_witness :
    (resolveCollision LabelPosition.LabelTop ValuePosition.ValueTop).2
      = ValuePosition.ValueBottom :=
  (resolveCollision_spec LabelPosition.LabelTop ValuePosition.ValueTop
    { state := { min := 0, max := 100, value := 50, step := 1 } } "50").2.1 rfl

/-- C16 fails on the code: `renderVertical` resolves collisions first and replaces
`ValueRight` by `ValueBottom` afterwards.  For a vertical slider with label `"Vol"`
at Bottom, a shown value at the default Right and collision checking on, the value
ends at Bottom, the side of the label, not at Top; resolving after the replacement
would have given Top. -/
theorem verticalPositions_default_value_collides :
    verticalPositions
        { state := { min := 0, max := 100, value := 50, step := 1 },
          orientation := Orientation.Vertical, label := "Vol",
          labelPosition := LabelPosition.LabelBottom, showValue := true,
          valuePosition := ValuePosition.ValueRight, collisionCheck := true } "50"
      = (LabelPosition.LabelBottom, ValuePosition.ValueBottom) ∧
    sameSide LabelPosition.LabelBottom ValuePosition.ValueBottom = true ∧
    resolveCollision LabelPosition.LabelBottom ValuePosition.ValueBottom
      = (LabelPosition.LabelBottom, ValuePosition.ValueTop) := by
  refine ⟨?_, rfl, by decide⟩
  decide

/-! ## Pointer events -/

lemma clamp_rel_eq (r w : ℤ) (hw : 0 < w) :
    (if (if r < 0 then 0 else r) > w then w else (if r < 0 then 0 else r))
      = max 0 (min r w) := by
  rw [max_def, min_def]
  split_ifs <;> omega

lemma positionPercentage_eq_spec (m : MouseState) (x y : ℤ) (o : Orientation) :
    m.positionPercentage x y o = specPointerPct m x y o := by
  cases o with
  | Horizontal =>
    unfold MouseState.positionPercentage specPointerPct
    by_cases hw : m.Width > 0
    · simp only [if_pos hw, if_neg (not_le.mpr hw), clamp_rel_eq _ _ hw]
    · simp only [if_neg hw, if_pos (not_lt.mp hw)]
  | Vertical =>
    unfold MouseState.positionPercentage specPointerPct
    by_cases hh : m.Height > 0
    · simp only [if_pos hh, if_neg (not_le.mpr hh), clamp_rel_eq _ _ hh]
    · simp only [if_neg hh, if_pos (not_lt.mp hh)]

lemma positionPercentageChecked_eq (m : MouseState) (x y : ℤ) (o : Orientation) :
    m.positionPercentageChecked x y o = some (m.positionPercentage x y o) := by
  cases o with
  | Horizontal =>
    unfold MouseState.positionPercentageChecked MouseState.positionPercentage
      SliderState.divChecked
    by_cases hw : m.Width > 0
    · have hne : ((m.Width : ℤ) : ℚ) ≠ 0 := by exact_mod_cast (ne_of_gt hw)
      simp only [if_pos hw, if_neg hne]
    · simp only [if_neg hw]
  | Vertical =>
    unfold MouseState.positionPercentageChecked MouseState.positionPercentage
      SliderState.divChecked
    by_cases hh : m.Height > 0
    · have hne : ((m.Height : ℤ) : ℚ) ≠ 0 := by exact_mod_cast (ne_of_gt hh)
      simp only [if_pos hh, if_neg hne, Option.map_some']
    · simp only [if_neg hh]

lemma clamped_ratio_mem (c w : ℤ) (hw : 0 < w) (h0 : 0 ≤ c) (h1 : c ≤ w) :
    0 ≤ (c : ℚ) / (w : ℚ) ∧ (c : ℚ) / (w : ℚ) ≤ 1 := by
  have hwq : (0 : ℚ) < (w : ℚ) := by exact_mod_cast hw
  constructor
  · exact div_nonneg (by exact_mod_cast h0) (le_of_lt hwq)
  · rw [div_le_one hwq]
    exact_mod_cast h1

lemma specPointerPct_mem (m : MouseState) (x y : ℤ) (o : Orientation) :
    0 ≤ specPointerPct m x y o ∧ specPointerPct m x y o ≤ 1 := by
  cases o with
  | Horizontal =>
    unfold specPointerPct
    by_cases hw : m.Width ≤ 0
    · simp only [if_pos hw]
      exact ⟨le_rfl, zero_le_one⟩
    · simp only [if_neg hw]
      exact clamped_ratio_mem _ _ (not_le.mp hw) (le_max_left _ _)
        (max_le (le_of_lt (not_le.mp hw)) (min_le_right _ _))
  | Vertical =>
    unfold specPointerPct
    by_cases hh : m.Height ≤ 0
    · simp only [if_pos hh]
      exact ⟨le_rfl, zero_le_one⟩
    · simp only [if_neg hh]
      have h := clamped_ratio_mem (max 0 (min (y - m.Y) m.Height)) m.Height (not_le.mp hh)
        (le_max_left _ _) (max_le (le_of_lt (not_le.mp hh)) (min_le_right _ _))
      constructor <;> linarith [h.1, h.2]

lemma updateValue_eq (m : MouseState) (x y : ℤ) (o : Orientation) (st : SliderState) :
    m.updateValue x y o st =
      { st with value := st.min + specPointerPct m x y o * (st.max - st.min) } := by
  obtain ⟨h0, h1⟩ := specPointerPct_mem m x y o
  unfold MouseState.updateValue
  simp only [positionPercentage_eq_spec, if_neg (not_lt.mpr h0), if_neg (not_lt.mpr h1)]
  have hv := setFromPercentage_value st (specPointerPct m x y o)
  rw [inf_eq_left.mpr h1, sup_eq_right.mpr h0] at hv
  have : st.SetFromPercentage (specPointerPct m x y o) =
      { st with value := (st.SetFromPercentage (specPointerPct m x y o)).value } := rfl
  rw [this, hv]

lemma HandleMouse_press (m : MouseState) (msg : MouseMsg) (o : Orientation) (st : SliderState)
    (ha : msg.Action = MouseAction.MouseActionPress)
    (hb : msg.Button = MouseButton.MouseButtonLeft) (hc : m.Contains msg.X msg.Y = true) :
    m.HandleMouse msg (some { orientation := o, state := some st }) =
      ({ m with Dragging := true, Focused := true },
        some { orientation := o, state := some (m.updateValue msg.X msg.Y o st) }, true) := by
  unfold MouseState.HandleMouse
  simp only [ha, hb, hc, and_self, if_true]
  rfl

lemma HandleMouse_motion (m : MouseState) (msg : MouseMsg) (o : Orientation) (st : SliderState)
    (ha : msg.Action = MouseAction.MouseActionMotion) (hd : m.Dragging = true) :
    m.HandleMouse msg (some { orientation := o, state := some st }) =
      (m, some { orientation := o, state := some (m.updateValue msg.X msg.Y o st) }, true) := by
  unfold MouseState.HandleMouse
  simp only [ha, hd, if_true]

lemma HandleMouse_release (m : MouseState) (msg : MouseMsg) (o : Orientation) (st : SliderState)
    (ha : msg.Action = MouseAction.MouseActionRelease) (hd : m.Dragging = true) :
    m.HandleMouse msg (some { orientation := o, state := some st }) =
      ({ m with Dragging := false },
        some { orientation := o, state := some (m.updateValue msg.X msg.Y o st) }, true) := by
  unfold MouseState.HandleMouse
  simp only [ha, hd, if_true]
  rfl

/-- C17: with a non-nil slider and state, a left press inside the bounds sets
`Dragging` and `Focused`, applies the value of the position and returns true; a
motion while `Dragging` applies the value and returns true with the mouse state
unchanged (so still dragging), wherever the pointer is; a release while `Dragging`
applies the value, clears `Dragging` and returns true. -/
theorem HandleMouse_transitions (m : MouseState) (msg : MouseMsg) (o : Orientation)
    (st : SliderState) :
    (msg.Action = MouseAction.MouseActionPress → msg.Button = MouseButton.MouseButtonLeft →
      m.Contains msg.X msg.Y = true →
      m.HandleMouse msg (some { orientation := o, state := some st }) =
        ({ m with Dragging := true, Focused := true },
          some { orientation := o, state := some (m.updateValue msg.X msg.Y o st) }, true)) ∧
    (msg.Action = MouseAction.MouseActionMotion → m.Dragging = true →
      m.HandleMouse msg (some { orientation := o, state := some st }) =
        (m, some { orientation := o, state := some (m.updateValue msg.X msg.Y o st) }, true)) ∧
    (msg.Action = MouseAction.MouseActionRelease → m.Dragging = true →
      m.HandleMouse msg (some { orientation := o, state := some st }) =
        ({ m with Dragging := false },
          some { orientation := o, state := some (m.updateValue msg.X msg.Y o st) }, true)) :=
  ⟨HandleMouse_press m msg o st, HandleMouse_motion m msg o st, HandleMouse_release m msg o st⟩

/-- C17 at bounds `(0, 0, 100, 10)` while dragging: a motion to `(250, 50)`, outside
the bounds, is handled and leaves the mouse state dragging. -/
theorem HandleMouse_transitions_witness :
    (MouseState.HandleMouse { Width := 100, Height := 10, Dragging := true }
        { X := 250, Y := 50, Action := MouseAction.MouseActionMotion }
        (some { orientation := Orientation.Horizontal,
                state := some { min := 0, max := 100, value := 0, step := 1 } })).2.2 = true ∧
    (MouseState.HandleMouse { Width := 100, Height := 10, Dragging := true }
        { X := 250, Y := 50, Action := MouseAction.MouseActionMotion }
        (some { orientation := Orientation.Horizontal,
                state := some { min := 0, max := 100, value := 0, step := 1 } })).1.Dragging
      = true := by
  have h := (HandleMouse_transitions { Width := 100, Height := 10, Dragging := true }
    { X := 250, Y := 50, Action := MouseAction.MouseActionMotion } Orientation.Horizontal
    { min := 0, max := 100, value := 0, step := 1 }).2.1 rfl rfl
  exact ⟨by rw [h], by rw [h]⟩

/-- C18: when `HandleMouse` returns false the mouse state and the slider with its
state are returned unchanged; it returns false for every event that arrives while
not dragging with the point outside the bounds, and for every event when the
slider or its state is nil. -/
theorem HandleMouse_unhandled (m : MouseState) (msg : MouseMsg) (slider : Option SliderRef) :
    ((m.HandleMouse msg slider).2.2 = false →
      (m.HandleMouse msg slider).1 = m ∧ (m.HandleMouse msg slider).2.1 = slider) ∧
    (m.Dragging = false → m.Contains msg.X msg.Y = false →
      (m.HandleMouse msg slider).2.2 = false) ∧
    (slider = none → (m.HandleMouse msg slider).2.2 = false) ∧
    (∀ sl : SliderRef, slider = some sl → sl.state = none →
      (m.HandleMouse msg slider).2.2 = false) := by
  refine ⟨?_, ?_, ?_, ?_⟩
  · intro h
    rcases slider with _ | ⟨o, _ | st⟩
    · exact ⟨rfl, rfl⟩
    · exact ⟨rfl, rfl⟩
    · unfold MouseState.HandleMouse at h ⊢
      cases hact : msg.Action <;> simp only [hact] at h ⊢ <;>
        split_ifs at h ⊢ <;> exact ⟨rfl, rfl⟩
  · intro hd hc
    rcases slider with _ | ⟨o, _ | st⟩
    · rfl
    · rfl
    · unfold MouseState.HandleMouse
      cases hact : msg.Action <;> simp [hd, hc]
  · intro h
    subst h
    rfl
  · intro sl h hst
    subst h
    obtain ⟨o, stt⟩ := sl
    simp only at hst
    subst hst
    rfl

/-- C18 at bounds `(0, 0, 100, 10)`: a left press at `(150, 5)` is not handled. -/
theorem HandleMouse_unhandled_witness :
    (MouseState.HandleMouse { Width := 100, Height := 10 }
        { X := 150, Y := 5, Action := MouseAction.MouseActionPress,
          Button := MouseButton.MouseButtonLeft }
        (some { orientation := Orientation.Horizontal,
                state := some { min := 0, max := 100, value := 50, step := 1 } })).2.2
      = false :=
  (HandleMouse_unhandled { Width := 100, Height := 10 }
    { X := 150, Y := 5, Action := MouseAction.MouseActionPress,
      Button := MouseButton.MouseButtonLeft }
    (some { orientation := Orientation.Horizontal,
            state := some { min := 0, max := 100, value := 50, step := 1 } })).2.1
    rfl (by decide)

lemma HandleMouse_handled_state (m : MouseState) (msg : MouseMsg) (o : Orientation)
    (st : SliderState)
    (h : (m.HandleMouse msg (some { orientation := o, state := some st })).2.2 = true) :
    (m.HandleMouse msg (some { orientation := o, state := some st })).2.1 =
      some { orientation := o, state := some (m.updateValue msg.X msg.Y o st) } := by
  unfold MouseState.HandleMouse at h ⊢
  cases hact : msg.Action <;> simp only [hact] at h ⊢ <;>
    split_ifs at h ⊢ <;> rfl

/-- C19: after a handled event at `(x, y)` the state's value is
`min + pct*(max - min)` with `pct = clamp(x - X, 0, Width)/Width` for a horizontal
and `pct = 1 - clamp(y - Y, 0, Height)/Height` for a vertical slider, the other
fields unchanged; the divisions are never reached with a zero divisor, and when
the relevant `Width` or `Height` is `≤ 0` the percentage is `0`. -/
theorem HandleMouse_value (m : MouseState) (msg : MouseMsg) (o : Orientation)
    (st : SliderState)
    (h : (m.HandleMouse msg (some { orientation := o, state := some st })).2.2 = true) :
    (m.HandleMouse msg (some { orientation := o, state := some st })).2.1 =
      some { orientation := o,
             state := some { st with
               value := st.min + specPointerPct m msg.X msg.Y o * (st.max - st.min) } } ∧
    m.positionPercentageChecked msg.X msg.Y o = some (specPointerPct m msg.X msg.Y o) ∧
    (m.Width ≤ 0 → specPointerPct m msg.X msg.Y Orientation.Horizontal = 0) ∧
    (m.Height ≤ 0 → specPointerPct m msg.X msg.Y Orientation.Vertical = 0) := by
  refine ⟨?_, ?_, fun hw => ?_, fun hh => ?_⟩
  · rw [HandleMouse_handled_state m msg o st h, updateValue_eq]
  · rw [positionPercentageChecked_eq, positionPercentage_eq_spec]
  · unfold specPointerPct
    rw [if_pos hw]
  · unfold specPointerPct
    rw [if_pos hh]

/-- C19 at bounds `(0, 0, 100, 10)` while dragging: a motion to `x = 75` on a
horizontal slider over `[0, 100]` stores `0 + 75/100 * (100 - 0)`. -/
theorem HandleMouse_value_witness :
    (MouseState.HandleMouse { Width := 100, Height := 10, Dragging := true }
        { X := 75, Y := 5, Action := MouseAction.MouseActionMotion }
        (some { orientation := Orientation.Horizontal,
                state := some { min := 0, max := 100, value := 0, step := 1 } })).2.1 =
      some { orientation := Orientation.Horizontal,
             state := some { min := 0, max := 100,
                             value := 0 + specPointerPct
                               { Width := 100, Height := 10, Dragging := true } 75 5
                               Orientation.Horizontal * (100 - 0),
                             step := 1 } } :=
  (HandleMouse_value { Width := 100, Height := 10, Dragging := true }
    { X := 75, Y := 5, Action := MouseAction.MouseActionMotion } Orientation.Horizontal
    { min := 0, max := 100, value := 0, step := 1 } rfl).1

lemma percentage_after_updateValue (m : MouseState) (x y : ℤ) (o : Orientation)
    (st : SliderState) (hmm : st.min < st.max) :
    (m.updateValue x y o st).Percentage = specPointerPct m x y o := by
  rw [updateValue_eq]
  unfold SliderState.Percentage
  have hne : ¬ st.max = st.min := fun h => by linarith
  have hd : st.max - st.min ≠ 0 := sub_ne_zero.mpr hne
  simp only [if_neg hne]
  field_simp

lemma specPointerPct_centre (m : MouseState) (y : ℤ) (hW : 1 ≤ m.Width) :
    specPointerPct m (m.X + m.Width / 2) y Orientation.Horizontal
      = ((m.Width / 2 : ℤ) : ℚ) / (m.Width : ℚ) := by
  unfold specPointerPct
  rw [if_neg (by omega)]
  have h : max 0 (min (m.X + m.Width / 2 - m.X) m.Width) = m.Width / 2 := by
    rw [max_def, min_def]
    split_ifs <;> omega
  rw [h]

/-- In exact arithmetic, for a box of width `W ≥ 1` and a state with `min < max`, a
left press at `x = X + W div 2`, `y` inside, on a horizontal slider is handled and sets
`Percentage()` to `(W div 2)/W`; that is within `0.05` of `0.5` when `W` is even or
`W ≥ 10`. -/
theorem press_centre_percentage (m : MouseState) (st : SliderState) (y : ℤ)
    (hW : 1 ≤ m.Width) (hmm : st.min < st.max)
    (hin : m.Contains (m.X + m.Width / 2) y = true) :
    m.HandleMouse { X := m.X + m.Width / 2, Y := y, Action := MouseAction.MouseActionPress,
                    Button := MouseButton.MouseButtonLeft }
        (some { orientation := Orientation.Horizontal, state := some st }) =
      ({ m with Dragging := true, Focused := true },
        some { orientation := Orientation.Horizontal,
               state := some (m.updateValue (m.X + m.Width / 2) y Orientation.Horizontal st) },
        true) ∧
    (m.updateValue (m.X + m.Width / 2) y Orientation.Horizontal st).Percentage
      = ((m.Width / 2 : ℤ) : ℚ) / (m.Width : ℚ) ∧
    (m.Width % 2 = 0 ∨ 10 ≤ m.Width →
      |(m.updateValue (m.X + m.Width / 2) y Orientation.Horizontal st).Percentage - 1 / 2|
        ≤ 1 / 20) := by
  have hpct := percentage_after_updateValue m (m.X + m.Width / 2) y Orientation.Horizontal st hmm
  rw [specPointerPct_centre m y hW] at hpct
  refine ⟨HandleMouse_press m _ _ st rfl rfl hin, hpct, fun hcase => ?_⟩
  rw [hpct]
  have hWq : (0 : ℚ) < (m.Width : ℚ) := by exact_mod_cast (by omega : 0 < m.Width)
  have h1 : 2 * (m.Width / 2) ≤ m.Width := by omega
  have h2 : 9 * m.Width ≤ 20 * (m.Width / 2) := by omega
  have h1q : 2 * ((m.Width / 2 : ℤ) : ℚ) ≤ (m.Width : ℚ) := by exact_mod_cast h1
  have h2q : 9 * (m.Width : ℚ) ≤ 20 * ((m.Width / 2 : ℤ) : ℚ) := by exact_mod_cast h2
  rw [abs_le]
  constructor
  · rw [le_sub_iff_add_le, le_div_iff₀ hWq]
    linarith
  · rw [sub_le_iff_le_add, div_le_iff₀ hWq]
    linarith

/-! ## Presses on the top and bottom row of a vertical box -/

lemma specPointerPct_top (m : MouseState) (x : ℤ) (hH : 1 ≤ m.Height) :
    specPointerPct m x m.Y Orientation.Vertical = 1 := by
  simp only [specPointerPct]
  rw [if_neg (by omega)]
  have h : max 0 (min (m.Y - m.Y) m.Height) = 0 := by
    rw [max_def, min_def]
    split_ifs <;> omega
  rw [h]
  simp

lemma specPointerPct_bottom (m : MouseState) (x : ℤ) (hH : 1 ≤ m.Height) :
    specPointerPct m x (m.Y + m.Height - 1) Orientation.Vertical = 1 / (m.Height : ℚ) := by
  simp only [specPointerPct]
  rw [if_neg (by omega)]
  have h : max 0 (min (m.Y + m.Height - 1 - m.Y) m.Height) = m.Height - 1 := by
    rw [max_def, min_def]
    split_ifs <;> omega
  rw [h]
  have hq : ((m.Height : ℤ) : ℚ) ≠ 0 := by exact_mod_cast (by omega : m.Height ≠ 0)
  push_cast
  field_simp

/-- In exact arithmetic, for a box of height `H ≥ 1` and a state with `min < max`, a
left press on a vertical slider at the top row `y = Y` is handled and sets
`Percentage()` to `1` (so `≥ 0.95`); a press at the bottom row `y = Y + H - 1` is
handled and sets it to `1/H`, which is `≤ 0.05` when `H ≥ 20`. -/
theorem press_vertical_rows (m : MouseState) (st : SliderState) (x : ℤ)
    (hH : 1 ≤ m.Height) (hmm : st.min < st.max) :
    (m.Contains x m.Y = true →
      m.HandleMouse { X := x, Y := m.Y, Action := MouseAction.MouseActionPress,
                      Button := MouseButton.MouseButtonLeft }
          (some { orientation := Orientation.Vertical, state := some st }) =
        ({ m with Dragging := true, Focused := true },
          some { orientation := Orientation.Vertical,
                 state := some (m.updateValue x m.Y Orientation.Vertical st) }, true) ∧
      (m.updateValue x m.Y Orientation.Vertical st).Percentage = 1 ∧
      19 / 20 ≤ (m.updateValue x m.Y Orientation.Vertical st).Percentage) ∧
    (m.Contains x (m.Y + m.Height - 1) = true →
      m.HandleMouse { X := x, Y := m.Y + m.Height - 1, Action := MouseAction.MouseActionPress,
                      Button := MouseButton.MouseButtonLeft }
          (some { orientation := Orientation.Vertical, state := some st }) =
        ({ m with Dragging := true, Focused := true },
          some { orientation := Orientation.Vertical,
                 state := some (m.updateValue x (m.Y + m.Height - 1) Orientation.Vertical st) },
          true) ∧
      (m.updateValue x (m.Y + m.Height - 1) Orientation.Vertical st).Percentage
        = 1 / (m.Height : ℚ) ∧
      (20 ≤ m.Height →
        (m.updateValue x (m.Y + m.Height - 1) Orientation.Vertical st).Percentage ≤ 1 / 20)) := by
  have htop := percentage_after_updateValue m x m.Y Orientation.Vertical st hmm
  rw [specPointerPct_top m x hH] at htop
  have hbot := percentage_after_updateValue m x (m.Y + m.Height - 1) Orientation.Vertical st hmm
  rw [specPointerPct_bottom m x hH] at hbot
  refine ⟨fun hin => ⟨HandleMouse_press m _ _ st rfl rfl hin, htop, ?_⟩,
    fun hin => ⟨HandleMouse_press m _ _ st rfl rfl hin, hbot, fun h20 => ?_⟩⟩
  · rw [htop]
    norm_num
  · rw [hbot]
    have hq : (20 : ℚ) ≤ (m.Height : ℚ) := by exact_mod_cast h20
    rw [div_le_div_iff₀ (by linarith) (by norm_num)]
    linarith

/-! ## Tweens, springs and easing functions -/

lemma SetValue_value (st : SliderState) (v : ℚ) : (st.SetValue v).value = st.clamp v := rfl

lemma clamp_of_mem (st : SliderState) (v : ℚ) (h1 : st.min ≤ v) (h2 : v ≤ st.max) :
    st.clamp v = v := by
  unfold SliderState.clamp
  rw [if_neg (not_lt.mpr h1), if_neg (not_lt.mpr h2)]

lemma Animation_Update_done (a : Animation) (elapsed : ℤ) (st : SliderState)
    (h : elapsed ≥ a.duration) :
    a.Update elapsed st = (st.SetValue a.endValue, (if a.onComplete then 1 else 0), true) := by
  unfold Animation.Update
  rw [if_pos h]

lemma Animation_Update_running (a : Animation) (elapsed : ℤ) (st : SliderState)
    (h : elapsed < a.duration) :
    a.Update elapsed st =
      (st.SetValue (a.startValue + (a.endValue - a.startValue) *
        a.easing ((elapsed : ℚ) / (a.duration : ℚ))), 0, false) := by
  unfold Animation.Update
  rw [if_neg (not_le.mpr h)]

/-- C25 as stated fails: a tween to the target `150` on a state over `[0, 100]`,
updated at elapsed = duration (300 ms), stores `100`, not `150`. -/
theorem Animation_Update_target_outside_fails :
    ((NewAnimation { min := 0, max := 100, value := 0, step := 1 } 150 []).Update 300000000
        { min := 0, max := 100, value := 0, step := 1 }).1.value = 100 ∧
    ((NewAnimation { min := 0, max := 100, value := 0, step := 1 } 150 []).Update 300000000
        { min := 0, max := 100, value := 0, step := 1 }).1.value ≠ 150 := by
  have h : ((NewAnimation { min := 0, max := 100, value := 0, step := 1 } 150 []).Update
      300000000 { min := 0, max := 100, value := 0, step := 1 }).1.value = 100 := by
    rw [Animation_Update_done _ _ _ (by decide)]
    show SliderState.clamp { min := 0, max := 100, value := 0, step := 1 } 150 = 100
    norm_num [SliderState.clamp]
  refine ⟨h, ?_⟩
  rw [h]
  norm_num

/-- C25, amended: an `Update` at `elapsed ≥ duration` passes the target to
`SetValue`, so the model's value becomes the target clamped into `[min, max]`,
exactly the target when `min ≤ target ≤ max`, and `Update` reports complete. -/
theorem Animation_Update_complete (a : Animation) (elapsed : ℤ) (st : SliderState)
    (h : elapsed ≥ a.duration) :
    (a.Update elapsed st).1 = st.SetValue a.endValue ∧
    (a.Update elapsed st).1.value = st.clamp a.endValue ∧
    (st.min ≤ a.endValue → a.endValue ≤ st.max → (a.Update elapsed st).1.value = a.endValue) ∧
    (a.Update elapsed st).2.2 = true := by
  rw [Animation_Update_done a elapsed st h]
  exact ⟨rfl, rfl, fun h1 h2 => clamp_of_mem st _ h1 h2, rfl⟩

/-- C25, amended, for a tween from 0 to 100 on `[0, 100]` at 450 ms of 300 ms: the
value is exactly `100`. -/
theorem Animation_Update_complete_witness :
    ((NewAnimation { min := 0, max := 100, value := 0, step := 1 } 100 []).Update 450000000
        { min := 0, max := 100, value := 0, step := 1 }).1.value = 100 :=
  (Animation_Update_complete (NewAnimation { min := 0, max := 100, value := 0, step := 1 } 100 [])
    450000000 { min := 0, max := 100, value := 0, step := 1 } (by decide)).2.2.1
    (by show (0 : ℚ) ≤ 100; norm_num) (by show (100 : ℚ) ≤ 100; norm_num)

lemma Animation_updates_count (a : Animation) (hcb : a.onComplete = true) (elapseds : List ℤ) :
    ∀ st : SliderState,
      (a.updates elapseds st).2 = elapseds.countP (fun e => decide (e ≥ a.duration)) := by
  induction elapseds with
  | nil => intro st; rfl
  | cons e rest ih =>
    intro st
    unfold Animation.updates
    simp only [ih]
    by_cases h : e ≥ a.duration
    · rw [Animation_Update_done a e st h, List.countP_cons_of_pos _ _ (by simpa using h)]
      simp only [hcb, if_true]
      omega
    · rw [Animation_Update_running a e st (not_le.mp h),
        List.countP_cons_of_neg _ _ (by simpa using h)]
      simp only [Nat.zero_add]

/-- C26 as stated fails: a tween of 300 ms with a callback, updated at 300 ms and
again at 316 ms, invokes the callback twice. -/
theorem Animation_callback_twice :
    ((NewAnimation { min := 0, max := 100, value := 0, step := 1 } 100 [WithOnComplete]).updates
        [300000000, 316000000] { min := 0, max := 100, value := 0, step := 1 }).2 = 2 ∧
    ((NewAnimation { min := 0, max := 100, value := 0, step := 1 } 100 [WithOnComplete]).updates
        [300000000, 316000000] { min := 0, max := 100, value := 0, step := 1 }).2 ≠ 1 := by
  have h := Animation_updates_count
    (NewAnimation { min := 0, max := 100, value := 0, step := 1 } 100 [WithOnComplete]) rfl
    [300000000, 316000000] { min := 0, max := 100, value := 0, step := 1 }
  rw [h]
  decide

/-- C26, amended: for a tween with a completion callback, every `Update` at which
`elapsed ≥ duration` invokes the callback and no other `Update` does, so over a
sequence of `Update` calls it is invoked once per such call; it is invoked exactly
once when the sequence ends with the first `Update` at which `elapsed ≥ duration`
(as when `AnimationManager.Update` deletes the finished tween). -/
theorem Animation_callback_count (a : Animation) (hcb : a.onComplete = true)
    (elapseds : List ℤ) (last : ℤ) (st : SliderState) :
    (a.updates elapseds st).2 = elapseds.countP (fun e => decide (e ≥ a.duration)) ∧
    ((∀ e ∈ elapseds, e < a.duration) → last ≥ a.duration →
      (a.updates (elapseds ++ [last]) st).2 = 1) := by
  refine ⟨Animation_updates_count a hcb elapseds st, fun hpre hlast => ?_⟩
  rw [Animation_updates_count a hcb, List.countP_append]
  have h0 : elapseds.countP (fun e => decide (e ≥ a.duration)) = 0 := by
    rw [List.countP_eq_zero]
    intro e he
    simpa using hpre e he
  rw [h0, List.countP_cons_of_pos _ _ (by simpa using hlast)]
  rfl

/-- C26, amended, for a 300 ms tween updated at 16 ms, 150 ms and 316 ms: one
invocation. -/
theorem Animation_callback_count_witness :
    ((NewAnimation { min := 0, max := 100, value := 0, step := 1 } 100 [WithOnComplete]).updates
        ([16000000, 150000000] ++ [316000000])
        { min := 0, max := 100, value := 0, step := 1 }).2 = 1 :=
  (Animation_callback_count
    (NewAnimation { min := 0, max := 100, value := 0, step := 1 } 100 [WithOnComplete]) rfl
    [16000000, 150000000] 316000000 { min := 0, max := 100, value := 0, step := 1 }).2
    (by decide) (by decide)

/-- C27 as stated fails: a linear tween from 0 to the target `300` on a state over
`[0, 100]`, updated at 150 ms of 300 ms, has `Lerp(0, 300, 1/2) = 150` but stores
`100`. -/
theorem Animation_Update_lerp_outside_fails :
    Lerp 0 300 (Linear ((150000000 : ℤ) / (300000000 : ℤ))) = 150 ∧
    ((NewAnimation { min := 0, max := 100, value := 0, step := 1 } 300
        [WithEasing Linear]).Update 150000000
        { min := 0, max := 100, value := 0, step := 1 }).1.value = 100 := by
  constructor
  · norm_num [Lerp, Linear]
  · rw [Animation_Update_running _ _ _ (by decide)]
    show SliderState.clamp { min := 0, max := 100, value := 0, step := 1 }
      (0 + (300 - 0) * Linear (((150000000 : ℤ) : ℚ) / ((300000000 : ℤ) : ℚ))) = 100
    norm_num [SliderState.clamp, Linear]

/-- C27, amended: an `Update` at `elapsed < duration` passes
`Lerp(start, target, easing(elapsed/duration)) =
start + (target - start)*easing(elapsed/duration)` to `SetValue`, for every easing
function and target, so the model's value becomes that number clamped into
`[min, max]`, the number itself when it lies in `[min, max]`; `Update` reports not
complete and does not invoke the callback. -/
theorem Animation_Update_interpolates (a : Animation) (elapsed : ℤ) (st : SliderState)
    (h : elapsed < a.duration) :
    (a.Update elapsed st).1 =
      st.SetValue (Lerp a.startValue a.endValue (a.easing ((elapsed : ℚ) / (a.duration : ℚ)))) ∧
    Lerp a.startValue a.endValue (a.easing ((elapsed : ℚ) / (a.duration : ℚ))) =
      a.startValue + (a.endValue - a.startValue) * a.easing ((elapsed : ℚ) / (a.duration : ℚ)) ∧
    (a.Update elapsed st).1.value =
      st.clamp (Lerp a.startValue a.endValue (a.easing ((elapsed : ℚ) / (a.duration : ℚ)))) ∧
    (st.min ≤ Lerp a.startValue a.endValue (a.easing ((elapsed : ℚ) / (a.duration : ℚ))) →
      Lerp a.startValue a.endValue (a.easing ((elapsed : ℚ) / (a.duration : ℚ))) ≤ st.max →
      (a.Update elapsed st).1.value =
        Lerp a.startValue a.endValue (a.easing ((elapsed : ℚ) / (a.duration : ℚ)))) ∧
    (a.Update elapsed st).2.2 = false ∧ (a.Update elapsed st).2.1 = 0 := by
  rw [Animation_Update_running a elapsed st h]
  exact ⟨rfl, rfl, rfl, fun h1 h2 => clamp_of_mem st _ h1 h2, rfl, rfl⟩

/-- C27, amended, for a linear tween from 0 to 100 on `[0, 100]` at 150 ms of 300 ms:
not complete. -/
theorem Animation_Update_interpolates_witness :
    ((NewAnimation { min := 0, max := 100, value := 0, step := 1 } 100
        [WithEasing Linear]).Update 150000000
        { min := 0, max := 100, value := 0, step := 1 }).2.2 = false :=
  (Animation_Update_interpolates
    (NewAnimation { min := 0, max := 100, value := 0, step := 1 } 100 [WithEasing Linear])
    150000000 { min := 0, max := 100, value := 0, step := 1 } (by decide)).2.2.2.2.1

lemma Spring_Update_rest (s : SpringAnimation) (dt : ℚ) (st : SliderState)
    (h : (s.Update dt st).2.2 = true) :
    (s.Update dt st).1.velocity = 0 ∧ (s.Update dt st).2.1.value = st.clamp s.target := by
  unfold SpringAnimation.Update at h ⊢
  simp only [] at h ⊢
  split_ifs at h ⊢ <;> exact ⟨rfl, rfl⟩

/-- C28 as stated fails: a default spring with target `100.005` on a state over
`[0, 100]` at value `100`, updated 1 ms after the last update, reports at rest and
leaves the value at `100`, not at the target. -/
theorem Spring_rest_target_outside_fails :
    ((NewSpringAnimation (20001 / 200)).Update (1 / 1000)
        { min := 0, max := 100, value := 100, step := 1 }).2.2 = true ∧
    ((NewSpringAnimation (20001 / 200)).Update (1 / 1000)
        { min := 0, max := 100, value := 100, step := 1 }).2.1.value = 100 ∧
    ((NewSpringAnimation (20001 / 200)).Update (1 / 1000)
        { min := 0, max := 100, value := 100, step := 1 }).2.1.value ≠ 20001 / 200 := by
  have hflag : ((NewSpringAnimation (20001 / 200)).Update (1 / 1000)
      { min := 0, max := 100, value := 100, step := 1 }).2.2 = true := by
    unfold SpringAnimation.Update NewSpringAnimation SliderState.Value
    simp only []
    rw [if_pos]
    constructor
    · rw [abs_lt]
      norm_num
    · rw [abs_lt]
      norm_num
  have hval := (Spring_Update_rest _ _ _ hflag).2
  have hcl : SliderState.clamp { min := 0, max := 100, value := 100, step := 1 }
      (NewSpringAnimation (20001 / 200)).target = 100 := by
    norm_num [SliderState.clamp, NewSpringAnimation]
  rw [hcl] at hval
  refine ⟨hflag, hval, ?_⟩
  rw [hval]
  norm_num

/-- C28, amended: whenever `SpringAnimation.Update` reports at rest, afterwards the
spring's velocity is `0` and the model's value is the target clamped into
`[min, max]` by `SetValue`: the target exactly when `min ≤ target ≤ max`. -/
theorem Spring_Update_at_rest (s : SpringAnimation) (dt : ℚ) (st : SliderState)
    (h : (s.Update dt st).2.2 = true) :
    (s.Update dt st).1.velocity = 0 ∧
    (s.Update dt st).2.1.value = st.clamp s.target ∧
    (st.min ≤ s.target → s.target ≤ st.max → (s.Update dt st).2.1.value = s.target) := by
  obtain ⟨hv, hval⟩ := Spring_Update_rest s dt st h
  refine ⟨hv, hval, fun h1 h2 => ?_⟩
  rw [hval]
  exact clamp_of_mem st _ h1 h2

/-- C28, amended, for a default spring with target `50` on a state over `[0, 100]`
at value `50`, updated 16 ms after the last update: at rest with the value `50`. -/
theorem Spring_Update_at_rest_witness :
    ((NewSpringAnimation 50).Update (16 / 1000)
        { min := 0, max := 100, value := 50, step := 1 }).2.1.value = 50 := by
  have hflag : ((NewSpringAnimation 50).Update (16 / 1000)
      { min := 0, max := 100, value := 50, step := 1 }).2.2 = true := by
    unfold SpringAnimation.Update NewSpringAnimation SliderState.Value
    simp only []
    rw [if_pos]
    constructor
    · rw [abs_lt]
      norm_num
    · rw [abs_lt]
      norm_num
  exact (Spring_Update_at_rest (NewSpringAnimation 50) (16 / 1000)
    { min := 0, max := 100, value := 50, step := 1 } hflag).2.2
    (by show (0 : ℚ) ≤ 50; norm_num) (by show (50 : ℚ) ≤ 100; norm_num)

/-- C29: each of the 13 named easing functions maps `0` to `0` and `1` to `1`; for
the exponential ones this uses `math.Pow(2, 0) = 1`. -/
theorem easing_endpoints (pow : ℚ → ℚ → ℚ) (sin : ℚ → ℚ) (pi : ℚ) (hpow : pow 2 0 = 1) :
    (Linear 0 = 0 ∧ Linear 1 = 1) ∧
    (EaseInQuad 0 = 0 ∧ EaseInQuad 1 = 1) ∧
    (EaseOutQuad 0 = 0 ∧ EaseOutQuad 1 = 1) ∧
    (EaseInOutQuad 0 = 0 ∧ EaseInOutQuad 1 = 1) ∧
    (EaseInCubic 0 = 0 ∧ EaseInCubic 1 = 1) ∧
    (EaseOutCubic 0 = 0 ∧ EaseOutCubic 1 = 1) ∧
    (EaseInOutCubic 0 = 0 ∧ EaseInOutCubic 1 = 1) ∧
    (EaseInExpo pow 0 = 0 ∧ EaseInExpo pow 1 = 1) ∧
    (EaseOutExpo pow 0 = 0 ∧ EaseOutExpo pow 1 = 1) ∧
    (EaseInOutExpo pow 0 = 0 ∧ EaseInOutExpo pow 1 = 1) ∧
    (EaseOutElastic pow sin pi 0 = 0 ∧ EaseOutElastic pow sin pi 1 = 1) ∧
    (EaseOutBounce 0 = 0 ∧ EaseOutBounce 1 = 1) ∧
    (EaseInBounce 0 = 0 ∧ EaseInBounce 1 = 1) := by
  have hb0 : EaseOutBounce 0 = 0 := by norm_num [EaseOutBounce]
  have hb1 : EaseOutBounce 1 = 1 := by norm_num [EaseOutBounce]
  refine ⟨⟨rfl, rfl⟩, ?_, ?_, ?_, ?_, ?_, ?_, ?_, ?_, ?_, ?_, ⟨hb0, hb1⟩, ?_⟩
  · constructor <;> norm_num [EaseInQuad]
  · constructor <;> norm_num [EaseOutQuad]
  · constructor <;> norm_num [EaseInOutQuad]
  · constructor <;> norm_num [EaseInCubic]
  · constructor <;> norm_num [EaseOutCubic]
  · constructor <;> norm_num [EaseInOutCubic]
  · constructor
    · simp [EaseInExpo]
    · norm_num [EaseInExpo, hpow]
  · constructor
    · norm_num [EaseOutExpo, hpow]
    · simp [EaseOutExpo]
  · constructor
    · simp [EaseInOutExpo]
    · norm_num [EaseInOutExpo]
  · constructor
    · simp [EaseOutElastic]
    · norm_num [EaseOutElastic]
  · constructor
    · show 1 - EaseOutBounce (1 - 0) = 0
      rw [sub_zero, hb1, sub_self]
    · show 1 - EaseOutBounce (1 - 1) = 1
      rw [sub_self, hb0, sub_zero]

/-- C29 with an integer-exponent power for `math.Pow`: `EaseOutExpo(0) = 0`. -/
theorem easing_endpoints_witness :
    EaseOutExpo (fun b e => b ^ ⌊e⌋) 0 = 0 :=
  (easing_endpoints (fun b e => b ^ ⌊e⌋) (fun _ => 0) (22 / 7)
    (by simp)).2.2.2.2.2.2.2.2.1.1

/-! ## The progress announcer -/

lemma tdiv_pos_divisor (c iv : ℤ) (hiv : 0 < iv) :
    (0 ≤ c ∧ Int.tdiv c iv = c / iv) ∨ (c < 0 ∧ Int.tdiv c iv ≤ 0) := by
  rcases le_or_lt 0 c with h | h
  · exact Or.inl ⟨h, Int.tdiv_eq_ediv h (le_of_lt hiv)⟩
  · right
    refine ⟨h, ?_⟩
    have h1 : Int.tdiv (-(-c)) iv = -(Int.tdiv (-c) iv) := Int.neg_tdiv _ _
    rw [neg_neg] at h1
    have h2 : 0 ≤ Int.tdiv (-c) iv := Int.tdiv_nonneg (by omega) (le_of_lt hiv)
    omega

lemma threshold_mono (iv c c' : ℤ) (hiv : 0 < iv) (hpos : 0 < Int.tdiv c iv * iv)
    (hcc : c ≤ c') : Int.tdiv c iv * iv ≤ Int.tdiv c' iv * iv := by
  rcases tdiv_pos_divisor c iv hiv with ⟨h0, he⟩ | ⟨_, hle⟩
  · have he' : Int.tdiv c' iv = c' / iv := Int.tdiv_eq_ediv (le_trans h0 hcc) (le_of_lt hiv)
    rw [he, he']
    exact mul_le_mul_of_nonneg_right (Int.ediv_le_ediv hiv hcc) (le_of_lt hiv)
  · exfalso
    have : Int.tdiv c iv * iv ≤ 0 := mul_nonpos_of_nonpos_of_nonneg hle (le_of_lt hiv)
    omega

lemma threshold_ge_hundred (iv c : ℤ) (hiv : 0 < iv) (hdvd : iv ∣ 100) (hc : 100 ≤ c) :
    100 ≤ Int.tdiv c iv * iv := by
  have he : Int.tdiv c iv = c / iv := Int.tdiv_eq_ediv (by omega) (le_of_lt hiv)
  rw [he]
  calc (100 : ℤ) = 100 / iv * iv := (Int.ediv_mul_cancel hdvd).symm
    _ ≤ c / iv * iv := mul_le_mul_of_nonneg_right (Int.ediv_le_ediv hiv hc) (le_of_lt hiv)

lemma ProgressAnnouncer_Update_cases (p : ProgressAnnouncer) (st : ℤ)
    (ha : p.announcer = true) :
    (100 ≤ st ∧ p.lastAnnounced < 100 ∧
      p.UpdateAt st = ({ p with lastAnnounced := 100 }, [Announcement.complete])) ∨
    (¬ (100 ≤ st ∧ p.lastAnnounced < 100) ∧
      Int.tdiv st p.interval * p.interval ≠ p.lastAnnounced ∧
      0 < Int.tdiv st p.interval * p.interval ∧
      Int.tdiv st p.interval * p.interval < 100 ∧
      p.UpdateAt st =
        ({ p with lastAnnounced := Int.tdiv st p.interval * p.interval },
          [Announcement.percent
            (Int.tdiv st p.interval * p.interval)])) ∨
    (¬ (100 ≤ st ∧ p.lastAnnounced < 100) ∧ p.UpdateAt st = (p, [])) := by
  unfold ProgressAnnouncer.UpdateAt
  simp only [ha, Bool.true_eq_false, if_false]
  by_cases h1 : st ≥ 100 ∧ p.lastAnnounced < 100
  · left
    exact ⟨h1.1, h1.2, by rw [if_pos h1]⟩
  · right
    by_cases h2 : Int.tdiv st p.interval * p.interval ≠ p.lastAnnounced ∧
        Int.tdiv st p.interval * p.interval > 0 ∧
        Int.tdiv st p.interval * p.interval < 100
    · left
      exact ⟨h1, h2.1, h2.2.1, h2.2.2, by rw [if_neg h1, if_pos h2]⟩
    · right
      exact ⟨h1, by rw [if_neg h1, if_neg h2]⟩

lemma ProgressAnnouncer_updates_cons (p : ProgressAnnouncer) (st : ℤ)
    (rest : List ℤ) :
    (p.updatesAt (st :: rest)).2 = (p.UpdateAt st).2 ++ ((p.UpdateAt st).1.updatesAt rest).2 := rfl

lemma ProgressAnnouncer_log (iv : ℤ) (hiv : 0 < iv) (hdvd : iv ∣ 100) :
    ∀ (states : List ℤ) (p : ProgressAnnouncer), p.interval = iv →
      p.announcer = true →
      states.Pairwise (fun a b => a ≤ b) →
      (∀ st ∈ states,
        (p.lastAnnounced < 100 →
          Int.tdiv st iv * iv ≤ 0 ∨
            p.lastAnnounced ≤ Int.tdiv st iv * iv) ∧
        (100 ≤ p.lastAnnounced → 100 ≤ st)) →
      (p.updatesAt states).2.Nodup ∧
      ∀ m ∈ (p.updatesAt states).2,
        (m = Announcement.complete ∧ p.lastAnnounced < 100) ∨
        (∃ t, m = Announcement.percent t ∧ p.lastAnnounced < t ∧ t < 100) := by
  intro states
  induction states with
  | nil =>
    intro p _ _ _ _
    exact ⟨List.nodup_nil, fun m hm => absurd hm (List.not_mem_nil m)⟩
  | cons st rest ih =>
    intro p hp ha hsorted hpre
    rw [List.pairwise_cons] at hsorted
    obtain ⟨hhead, hrest⟩ := hsorted
    have hle : ∀ st' ∈ rest, st ≤ st' :=
      fun st' hst' => hhead _ hst'
    obtain ⟨hpre1, hpre2⟩ := hpre st (List.mem_cons_self _ _)
    rw [ProgressAnnouncer_updates_cons]
    rcases ProgressAnnouncer_Update_cases p st ha with ⟨hc, hl, hu⟩ | ⟨hn, hne, h0, h100, hu⟩ |
      ⟨_, hu⟩
    · -- "Complete" is announced
      rw [hu]
      obtain ⟨hnd, hmem⟩ := ih { p with lastAnnounced := 100 } hp ha hrest
        (fun st' hst' => ⟨fun h => absurd h (lt_irrefl 100),
          fun _ => le_trans hc (hle st' hst')⟩)
      have hempty : ∀ m ∈ (ProgressAnnouncer.updatesAt { p with lastAnnounced := 100 } rest).2,
          False := by
        intro m hm
        rcases hmem m hm with ⟨_, h⟩ | ⟨t, _, h1, h2⟩
        · exact lt_irrefl 100 h
        · exact lt_irrefl 100 (lt_trans h1 h2)
      constructor
      · exact List.nodup_cons.mpr ⟨fun h => hempty _ h, hnd⟩
      · intro m hm
        rcases List.mem_cons.mp hm with h | h
        · exact Or.inl ⟨h, hl⟩
        · exact absurd h (fun h' => hempty m h')
    · -- a threshold is announced
      rw [hu]
      rw [hp] at hne h0 h100
      have hlast : p.lastAnnounced < 100 := by
        by_contra hcon
        have := threshold_ge_hundred iv _ hiv hdvd (hpre2 (not_lt.mp hcon))
        omega
      have hlt : p.lastAnnounced < Int.tdiv st iv * iv := by
        rcases hpre1 hlast with h | h
        · omega
        · exact lt_of_le_of_ne h (Ne.symm hne)
      obtain ⟨hnd, hmem⟩ := ih
        { p with lastAnnounced := Int.tdiv st p.interval * p.interval }
        hp ha hrest
        (fun st' hst' => ⟨fun _ => Or.inr (by
            show Int.tdiv st p.interval * p.interval ≤ _
            rw [hp]
            exact threshold_mono iv _ _ hiv h0 (hle st' hst')),
          fun h => by
            have h' : 100 ≤ Int.tdiv st p.interval * p.interval := h
            rw [hp] at h'
            omega⟩)
      have hmem' : ∀ m ∈ (ProgressAnnouncer.updatesAt
          { p with lastAnnounced :=
            Int.tdiv st p.interval * p.interval } rest).2,
          m = Announcement.complete ∨
          ∃ t, m = Announcement.percent t ∧
            Int.tdiv st iv * iv < t ∧ t < 100 := by
        intro m hm
        rcases hmem m hm with ⟨h, _⟩ | ⟨t, ht, h1, h2⟩
        · exact Or.inl h
        · refine Or.inr ⟨t, ht, ?_, h2⟩
          have h1' : Int.tdiv st p.interval * p.interval < t := h1
          rw [hp] at h1'
          exact h1'
      constructor
      · refine List.nodup_cons.mpr ⟨fun h => ?_, hnd⟩
        rcases hmem' _ h with h' | ⟨t, ht, h1, _⟩
        · rw [hp] at h'
          exact Announcement.noConfusion h'
        · rw [hp] at ht
          have := Announcement.percent.inj ht
          omega
      · intro m hm
        rcases List.mem_cons.mp hm with h | h
        · refine Or.inr ⟨_, h, ?_, ?_⟩
          · rw [hp]
            exact hlt
          · rw [hp]
            exact h100
        · rcases hmem' m h with h' | ⟨t, ht, h1, h2⟩
          · exact Or.inl ⟨h', hlast⟩
          · exact Or.inr ⟨t, ht, lt_trans hlt h1, h2⟩
    · -- nothing is announced
      rw [hu]
      exact ih p hp ha hrest (fun st' hst' => hpre st' (List.mem_cons_of_mem _ hst'))

lemma ProgressAnnouncer_complete_mem :
    ∀ (states : List ℤ) (p : ProgressAnnouncer), p.announcer = true →
      p.lastAnnounced < 100 →
      (Announcement.complete ∈ (p.updatesAt states).2 ↔
        ∃ st ∈ states, 100 ≤ st) := by
  intro states
  induction states with
  | nil =>
    intro p _ _
    constructor
    · intro h
      exact absurd h (List.not_mem_nil _)
    · rintro ⟨st, hst, _⟩
      exact absurd hst (List.not_mem_nil _)
  | cons st rest ih =>
    intro p ha hl
    rw [ProgressAnnouncer_updates_cons]
    rcases ProgressAnnouncer_Update_cases p st ha with ⟨hc, _, hu⟩ | ⟨hn, _, _, h100, hu⟩ |
      ⟨hn, hu⟩
    · rw [hu]
      exact ⟨fun _ => ⟨st, List.mem_cons_self _ _, hc⟩, fun _ => List.mem_cons_self _ _⟩
    · rw [hu]
      have hlow : ¬ 100 ≤ st := fun h => hn ⟨h, hl⟩
      have hih := ih
        { p with lastAnnounced := Int.tdiv st p.interval * p.interval }
        ha h100
      constructor
      · intro h
        rcases List.mem_cons.mp h with h' | h'
        · exact Announcement.noConfusion h'
        · obtain ⟨st', hst', hp'⟩ := hih.mp h'
          exact ⟨st', List.mem_cons_of_mem _ hst', hp'⟩
      · rintro ⟨st', hst', hp'⟩
        rcases List.mem_cons.mp hst' with h' | h'
        · rw [h'] at hp'
          exact absurd hp' hlow
        · exact List.mem_cons_of_mem _ (hih.mpr ⟨st', h', hp'⟩)
    · rw [hu]
      have hlow : ¬ 100 ≤ st := fun h => hn ⟨h, hl⟩
      have hih := ih p ha hl
      constructor
      · intro h
        obtain ⟨st', hst', hp'⟩ := hih.mp h
        exact ⟨st', List.mem_cons_of_mem _ hst', hp'⟩
      · rintro ⟨st', hst', hp'⟩
        rcases List.mem_cons.mp hst' with h' | h'
        · rw [h'] at hp'
          exact absurd hp' hlow
        · exact hih.mpr ⟨st', h', hp'⟩

lemma ProgressAnnouncer_updates_eq (p : ProgressAnnouncer) (states : List SliderState) :
    p.updates states = p.updatesAt (states.map ProgressAnnouncer.pctOf) := by
  induction states generalizing p with
  | nil => rfl
  | cons st rest ih =>
    show (((p.Update st).1.updates rest).1, (p.Update st).2 ++ ((p.Update st).1.updates rest).2)
      = (((p.UpdateAt (ProgressAnnouncer.pctOf st)).1.updatesAt
            (rest.map ProgressAnnouncer.pctOf)).1,
          (p.UpdateAt (ProgressAnnouncer.pctOf st)).2 ++
            ((p.UpdateAt (ProgressAnnouncer.pctOf st)).1.updatesAt
              (rest.map ProgressAnnouncer.pctOf)).2)
    rw [ih]
    rfl


/-! ## `float64` rounding, evaluated -/

lemma roundHalfEven_eq (q : ℚ) (n : ℤ) (h1 : (n : ℚ) - 1 / 2 < q) (h2 : q < (n : ℚ) + 1 / 2) :
    roundHalfEven q = n := by
  unfold roundHalfEven
  simp only []
  have hf := Int.floor_le q
  have hf2 := Int.lt_floor_add_one q
  by_cases hc : q - (⌊q⌋ : ℚ) < 1 / 2
  · rw [if_pos hc, Int.floor_eq_iff]
    constructor
    · by_contra hcon
      have hlt : ⌊q⌋ < n := Int.floor_lt.mpr (not_le.mp hcon)
      have h3 : ⌊q⌋ ≤ n - 1 := by omega
      have h4 : (⌊q⌋ : ℚ) ≤ (n : ℚ) - 1 := by exact_mod_cast h3
      linarith
    · linarith
  · rw [if_neg hc]
    have hge : (n : ℚ) ≤ (⌊q⌋ : ℚ) + 1 := by
      by_contra hcon
      have h3 : ⌊q⌋ + 1 < n := by exact_mod_cast (not_le.mp hcon)
      have h4 : ⌊q⌋ + 2 ≤ n := by omega
      have h5 : (⌊q⌋ : ℚ) + 2 ≤ (n : ℚ) := by exact_mod_cast h4
      linarith
    have hle : (⌊q⌋ : ℚ) + 1 ≤ (n : ℚ) := by
      by_contra hcon
      have h3 : n < ⌊q⌋ + 1 := by exact_mod_cast (not_le.mp hcon)
      have h4 : n ≤ ⌊q⌋ := by omega
      have h5 : (n : ℚ) ≤ (⌊q⌋ : ℚ) := by exact_mod_cast h4
      linarith [not_lt.mp hc]
    have heq : (n : ℚ) = (⌊q⌋ : ℚ) + 1 := le_antisymm hge hle
    have heq' : n = ⌊q⌋ + 1 := by exact_mod_cast heq
    have hgt : 1 / 2 < q - (⌊q⌋ : ℚ) := by
      rw [heq] at h1
      linarith
    rw [if_pos hgt, heq']

lemma round64_eq (q : ℚ) (e n : ℤ) (hq : 0 < q) (he : -1022 ≤ e)
    (hlo : (2 : ℚ) ^ e ≤ q) (hhi : q < (2 : ℚ) ^ (e + 1))
    (h1 : (n : ℚ) - 1 / 2 < q / 2 ^ (e - 52)) (h2 : q / 2 ^ (e - 52) < (n : ℚ) + 1 / 2) :
    round64 q = (n : ℚ) * 2 ^ (e - 52) := by
  have hlog : Int.log 2 |q| = e := by
    rw [abs_of_pos hq]
    have ha : e ≤ Int.log 2 q :=
      (Int.zpow_le_iff_le_log (by norm_num) hq).mp (by exact_mod_cast hlo)
    have hb : Int.log 2 q < e + 1 :=
      (Int.lt_zpow_iff_log_lt (by norm_num) hq).mp (by exact_mod_cast hhi)
    omega
  unfold round64
  rw [if_neg (ne_of_gt hq)]
  simp only [hlog, max_eq_left he]
  rw [roundHalfEven_eq _ n h1 h2]

lemma round64_zero : round64 0 = 0 := by
  unfold round64
  rw [if_pos rfl]

lemma truncToInt_eq (q : ℚ) (n : ℤ) (h0 : 0 ≤ q) (h1 : (n : ℚ) ≤ q) (h2 : q < (n : ℚ) + 1) :
    truncToInt q = n := by
  unfold truncToInt
  rw [if_pos h0, Int.floor_eq_iff]
  exact ⟨h1, h2⟩

lemma Float64_Percentage_eval (mx v p : ℚ) (hmx : mx ≠ 0) (hv : round64 v = v)
    (hm : round64 mx = mx) (hp : round64 (v / mx) = p) :
    Float64.Percentage { min := 0, max := mx, value := v, step := 1 } = p := by
  unfold Float64.Percentage
  simp only [if_neg hmx, sub_zero]
  rw [hv, hm, hp]

lemma pctOf_eval (v p P : ℚ) (n : ℤ) (hv : round64 v = v) (hp : round64 (v / 100) = p)
    (hP : round64 (p * 100) = P) (hn : truncToInt P = n) :
    ProgressAnnouncer.pctOf { min := 0, max := 100, value := v, step := 1 } = n := by
  unfold ProgressAnnouncer.pctOf
  rw [Float64_Percentage_eval 100 v p (by norm_num) hv (by
    rw [round64_eq (100) (6) 7036874417766400 (by norm_num) (by norm_num) (by norm_num)
      (by norm_num) (by norm_num) (by norm_num)]
    norm_num) hp, hP, hn]

lemma pctOf_value_25 :
    ProgressAnnouncer.pctOf { min := 0, max := 100, value := 25, step := 1 } = 25 :=
  pctOf_eval 25 (1 / 4) 25 25
    (by
      rw [round64_eq (25) (4) 7036874417766400 (by norm_num) (by norm_num) (by norm_num)
        (by norm_num) (by norm_num) (by norm_num)]
      norm_num)
    (by
      rw [round64_eq (25 / 100) (-2) 4503599627370496 (by norm_num) (by norm_num) (by norm_num)
        (by norm_num) (by norm_num) (by norm_num)]
      norm_num)
    (by
      rw [round64_eq (1 / 4 * 100) (4) 7036874417766400 (by norm_num) (by norm_num) (by norm_num)
        (by norm_num) (by norm_num) (by norm_num)]
      norm_num)
    (truncToInt_eq 25 25 (by norm_num) (by norm_num) (by norm_num))

lemma pctOf_value_30 :
    ProgressAnnouncer.pctOf { min := 0, max := 100, value := 30, step := 1 } = 30 :=
  pctOf_eval 30 (5404319552844595 / 18014398509481984) 30 30
    (by
      rw [round64_eq (30) (4) 8444249301319680 (by norm_num) (by norm_num) (by norm_num)
        (by norm_num) (by norm_num) (by norm_num)]
      norm_num)
    (by
      rw [round64_eq (30 / 100) (-2) 5404319552844595 (by norm_num) (by norm_num) (by norm_num)
        (by norm_num) (by norm_num) (by norm_num)]
      norm_num)
    (by
      rw [round64_eq (5404319552844595 / 18014398509481984 * 100) (4) 8444249301319680 (by norm_num) (by norm_num) (by norm_num)
        (by norm_num) (by norm_num) (by norm_num)]
      norm_num)
    (truncToInt_eq 30 30 (by norm_num) (by norm_num) (by norm_num))

lemma pctOf_value_50 :
    ProgressAnnouncer.pctOf { min := 0, max := 100, value := 50, step := 1 } = 50 :=
  pctOf_eval 50 (1 / 2) 50 50
    (by
      rw [round64_eq (50) (5) 7036874417766400 (by norm_num) (by norm_num) (by norm_num)
        (by norm_num) (by norm_num) (by norm_num)]
      norm_num)
    (by
      rw [round64_eq (50 / 100) (-1) 4503599627370496 (by norm_num) (by norm_num) (by norm_num)
        (by norm_num) (by norm_num) (by norm_num)]
      norm_num)
    (by
      rw [round64_eq (1 / 2 * 100) (5) 7036874417766400 (by norm_num) (by norm_num) (by norm_num)
        (by norm_num) (by norm_num) (by norm_num)]
      norm_num)
    (truncToInt_eq 50 50 (by norm_num) (by norm_num) (by norm_num))

lemma pctOf_value_75 :
    ProgressAnnouncer.pctOf { min := 0, max := 100, value := 75, step := 1 } = 75 :=
  pctOf_eval 75 (3 / 4) 75 75
    (by
      rw [round64_eq (75) (6) 5277655813324800 (by norm_num) (by norm_num) (by norm_num)
        (by norm_num) (by norm_num) (by norm_num)]
      norm_num)
    (by
      rw [round64_eq (75 / 100) (-1) 6755399441055744 (by norm_num) (by norm_num) (by norm_num)
        (by norm_num) (by norm_num) (by norm_num)]
      norm_num)
    (by
      rw [round64_eq (3 / 4 * 100) (6) 5277655813324800 (by norm_num) (by norm_num) (by norm_num)
        (by norm_num) (by norm_num) (by norm_num)]
      norm_num)
    (truncToInt_eq 75 75 (by norm_num) (by norm_num) (by norm_num))

lemma pctOf_value_100 :
    ProgressAnnouncer.pctOf { min := 0, max := 100, value := 100, step := 1 } = 100 :=
  pctOf_eval 100 1 100 100
    (by
      rw [round64_eq (100) (6) 7036874417766400 (by norm_num) (by norm_num) (by norm_num)
        (by norm_num) (by norm_num) (by norm_num)]
      norm_num)
    (by
      rw [round64_eq (100 / 100) (0) 4503599627370496 (by norm_num) (by norm_num) (by norm_num)
        (by norm_num) (by norm_num) (by norm_num)]
      norm_num)
    (by
      rw [round64_eq (1 * 100) (6) 7036874417766400 (by norm_num) (by norm_num) (by norm_num)
        (by norm_num) (by norm_num) (by norm_num)]
      norm_num)
    (truncToInt_eq 100 100 (by norm_num) (by norm_num) (by norm_num))

lemma pctOf_value_29 :
    ProgressAnnouncer.pctOf { min := 0, max := 100, value := 29, step := 1 } = 28 :=
  pctOf_eval 29 (5224175567749775 / 18014398509481984) (8162774324609023 / 281474976710656) 28
    (by
      rw [round64_eq (29) (4) 8162774324609024 (by norm_num) (by norm_num) (by norm_num)
        (by norm_num) (by norm_num) (by norm_num)]
      norm_num)
    (by
      rw [round64_eq (29 / 100) (-2) 5224175567749775 (by norm_num) (by norm_num) (by norm_num)
        (by norm_num) (by norm_num) (by norm_num)]
      norm_num)
    (by
      rw [round64_eq (5224175567749775 / 18014398509481984 * 100) (4) 8162774324609023 (by norm_num) (by norm_num) (by norm_num)
        (by norm_num) (by norm_num) (by norm_num)]
      norm_num)
    (truncToInt_eq (8162774324609023 / 281474976710656) 28 (by norm_num) (by norm_num) (by norm_num))

lemma pctOf_value_29_5 :
    ProgressAnnouncer.pctOf { min := 0, max := 100, value := 59 / 2, step := 1 } = 29 :=
  pctOf_eval (59 / 2) (5314247560297185 / 18014398509481984) (59 / 2) 29
    (by
      rw [round64_eq (59 / 2) (4) 8303511812964352 (by norm_num) (by norm_num) (by norm_num)
        (by norm_num) (by norm_num) (by norm_num)]
      norm_num)
    (by
      rw [round64_eq (59 / 2 / 100) (-2) 5314247560297185 (by norm_num) (by norm_num) (by norm_num)
        (by norm_num) (by norm_num) (by norm_num)]
      norm_num)
    (by
      rw [round64_eq (5314247560297185 / 18014398509481984 * 100) (4) 8303511812964352 (by norm_num) (by norm_num) (by norm_num)
        (by norm_num) (by norm_num) (by norm_num)]
      norm_num)
    (truncToInt_eq (59 / 2) 29 (by norm_num) (by norm_num) (by norm_num))

lemma pctOf_value_0 :
    ProgressAnnouncer.pctOf { min := 0, max := 100, value := 0, step := 1 } = 0 := by
  refine pctOf_eval 0 0 0 0 round64_zero ?_ ?_ ?_
  · rw [zero_div, round64_zero]
  · rw [zero_mul, round64_zero]
  · exact truncToInt_eq 0 0 (by norm_num) (by norm_num) (by norm_num)

/-- C30 as stated fails.  With interval 25 and the percentages 25, 50, 25 the
threshold 25 is announced twice.  With interval 30 and three updates at 100 percent
the announcer says `Complete`, then `90 percent complete`, then `Complete` again.
With interval 1 and the values 29.5, 29, 29.5 of `[0, 100]`, whose percentages
`int(Percentage() * 100)` are 29, 28, 29 in `float64`, `29 percent complete` is
announced twice. -/
theorem ProgressAnnouncer_repeats :
    ((NewProgressAnnouncer 25 true).updates
        [{ min := 0, max := 100, value := 25, step := 1 },
         { min := 0, max := 100, value := 50, step := 1 },
         { min := 0, max := 100, value := 25, step := 1 }]).2
      = [Announcement.percent 25, Announcement.percent 50, Announcement.percent 25] ∧
    ((NewProgressAnnouncer 30 true).updates
        [{ min := 0, max := 100, value := 100, step := 1 },
         { min := 0, max := 100, value := 100, step := 1 },
         { min := 0, max := 100, value := 100, step := 1 }]).2
      = [Announcement.complete, Announcement.percent 90, Announcement.complete] ∧
    ((NewProgressAnnouncer 1 true).updates
        [{ min := 0, max := 100, value := 59 / 2, step := 1 },
         { min := 0, max := 100, value := 29, step := 1 },
         { min := 0, max := 100, value := 59 / 2, step := 1 }]).2
      = [Announcement.percent 29, Announcement.percent 28, Announcement.percent 29] ∧
    ¬ [Announcement.percent 25, Announcement.percent 50, Announcement.percent 25].Nodup ∧
    ¬ [Announcement.complete, Announcement.percent 90, Announcement.complete].Nodup ∧
    ¬ [Announcement.percent 29, Announcement.percent 28, Announcement.percent 29].Nodup := by
  refine ⟨?_, ?_, ?_, by decide, by decide, by decide⟩
  · rw [ProgressAnnouncer_updates_eq]
    simp only [List.map, pctOf_value_25, pctOf_value_50]
    decide
  · rw [ProgressAnnouncer_updates_eq]
    simp only [List.map, pctOf_value_100]
    decide
  · rw [ProgressAnnouncer_updates_eq]
    simp only [List.map, pctOf_value_29, pctOf_value_29_5]
    decide

/-- C30, amended: for an announcer with a callback just constructed or reset
(`lastAnnounced = -1`), an interval `≥ 1` that divides 100 and a sequence of
`Update` calls whose integer percentages (the values `int(state.Percentage() * 100)`
the calls compute, whatever `float64` makes them) do not decrease, no announcement
is issued twice: each threshold is announced at most once, and `Complete` is
announced exactly once if some update reaches 100 percent and not at all otherwise.
A sequence of `Update` calls on states is this sequence at their `pctOf`. -/
theorem ProgressAnnouncer_no_repeat (p : ProgressAnnouncer) (pcts : List ℤ)
    (ha : p.announcer = true) (hfresh : p.lastAnnounced = -1) (hiv : 1 ≤ p.interval)
    (hdvd : p.interval ∣ 100)
    (hsorted : pcts.Pairwise (fun a b => a ≤ b)) :
    (p.updatesAt pcts).2.Nodup ∧
    (Announcement.complete ∈ (p.updatesAt pcts).2 ↔ ∃ c ∈ pcts, 100 ≤ c) ∧
    ((∃ c ∈ pcts, 100 ≤ c) → (p.updatesAt pcts).2.count Announcement.complete = 1) ∧
    (∀ states : List SliderState,
      p.updates states = p.updatesAt (states.map ProgressAnnouncer.pctOf)) := by
  have hlog := ProgressAnnouncer_log p.interval (by omega) hdvd pcts p rfl ha hsorted
    (fun st _ => ⟨fun _ => by rw [hfresh]; omega, fun h => by rw [hfresh] at h; omega⟩)
  have hmem := ProgressAnnouncer_complete_mem pcts p ha (by rw [hfresh]; norm_num)
  exact ⟨hlog.1, hmem, fun h => List.count_eq_one_of_mem hlog.1 (hmem.mpr h),
    ProgressAnnouncer_updates_eq p⟩

/-- C30, amended, with interval 25 and the percentages 0, 25, 30, 50, 75, 100:
`Complete` is announced exactly once. -/
theorem ProgressAnnouncer_no_repeat_witness :
    ((NewProgressAnnouncer 25 true).updatesAt [0, 25, 30, 50, 75, 100]).2.count
      Announcement.complete = 1 :=
  (ProgressAnnouncer_no_repeat (NewProgressAnnouncer 25 true) [0, 25, 30, 50, 75, 100]
    rfl rfl (by decide) (by decide) (by decide)).2.2.1 ⟨100, by decide, by decide⟩

/-! ## The slider group -/

lemma HandleMouse_false (m : MouseState) (msg : MouseMsg) (slider : Option SliderRef)
    (h : (m.HandleMouse msg slider).2.2 = false) : m.HandleMouse msg slider = (m, slider, false) := by
  rcases slider with _ | ⟨o, _ | st⟩
  · rfl
  · rfl
  · unfold MouseState.HandleMouse at h ⊢
    cases hact : msg.Action <;> simp only [hact] at h ⊢ <;>
      split_ifs at h ⊢ <;> rfl

lemma writeBack_deref (heap : Heap) (slider : Option SliderPtr) :
    writeBack heap slider (derefSlider heap slider) = heap := by
  rcases slider with _ | ⟨o, _ | a⟩
  · rfl
  · rfl
  · exact Function.update_eq_self a heap

lemma writeBack_other (heap : Heap) (slider : Option SliderPtr) (r : Option SliderRef) (a : ℕ)
    (h : slider.bind (fun sp => sp.state) ≠ some a) : writeBack heap slider r a = heap a := by
  rcases slider with _ | ⟨o, _ | a0⟩
  · rfl
  · rcases r with _ | r <;> rfl
  · rcases r with _ | ⟨o', _ | st⟩
    · rfl
    · rfl
    · have hne : a ≠ a0 := by
        intro he
        apply h
        rw [he]
        rfl
      exact Function.update_noteq hne st heap

lemma handle_false (e : GroupEntry) (msg : MouseMsg) (heap : Heap)
    (h : (e.handle msg heap).2.2 = false) : e.handle msg heap = (e, heap, false) := by
  have h' : (e.mouse.HandleMouse msg (derefSlider heap e.slider)).2.2 = false := h
  have hm := HandleMouse_false e.mouse msg _ h'
  unfold GroupEntry.handle
  rw [hm]
  simp only [writeBack_deref]

lemma handle_heap_other (e : GroupEntry) (msg : MouseMsg) (heap : Heap) (a : ℕ)
    (h : e.slider.bind (fun sp => sp.state) ≠ some a) : (e.handle msg heap).2.1 a = heap a :=
  writeBack_other heap e.slider _ a h

lemma handle_slider (e : GroupEntry) (msg : MouseMsg) (heap : Heap) :
    (e.handle msg heap).1.slider = e.slider := rfl

lemma scan_none (d : Bool) (msg : MouseMsg) :
    ∀ (es : List GroupEntry) (i : ℕ) (heap : Heap),
      (∀ e ∈ es, ¬ (¬ (d = true ∧ e.mouse.Dragging = false) ∧ (e.handle msg heap).2.2 = true)) →
      SliderGroup.scan d msg es i heap = (es, heap, none) := by
  intro es
  induction es with
  | nil => intro i heap _; rfl
  | cons e rest ih =>
    intro i heap hall
    have he := hall e (List.mem_cons_self _ _)
    have hrest := ih (i + 1) heap (fun x hx => hall x (List.mem_cons_of_mem _ hx))
    unfold SliderGroup.scan
    by_cases hskip : d = true ∧ e.mouse.Dragging = false
    · rw [if_pos hskip]
      simp only [hrest]
    · rw [if_neg hskip]
      have hf : (e.handle msg heap).2.2 = false := by
        cases hb : (e.handle msg heap).2.2
        · rfl
        · exact absurd ⟨hskip, hb⟩ he
      have hh := handle_false e msg heap hf
      simp only [hh, Bool.false_eq_true, if_false, hrest]

lemma scan_some (d : Bool) (msg : MouseMsg) :
    ∀ (pre : List GroupEntry) (e : GroupEntry) (post : List GroupEntry) (i : ℕ) (heap : Heap),
      (∀ x ∈ pre, ¬ (¬ (d = true ∧ x.mouse.Dragging = false) ∧ (x.handle msg heap).2.2 = true)) →
      ¬ (d = true ∧ e.mouse.Dragging = false) → (e.handle msg heap).2.2 = true →
      SliderGroup.scan d msg (pre ++ e :: post) i heap =
        (pre ++ (e.handle msg heap).1 :: post, (e.handle msg heap).2.1, some (i + pre.length)) := by
  intro pre
  induction pre with
  | nil =>
    intro e post i heap _ hask hh
    show SliderGroup.scan d msg (e :: post) i heap = _
    unfold SliderGroup.scan
    rw [if_neg hask]
    simp only [hh, if_true]
    rfl
  | cons x pre ih =>
    intro e post i heap hall hask hh
    have hx := hall x (List.mem_cons_self _ _)
    have hrest := ih e post (i + 1) heap (fun y hy => hall y (List.mem_cons_of_mem _ hy)) hask hh
    have hidx : i + 1 + pre.length = i + (x :: pre).length := by
      simp only [List.length_cons]
      omega
    show SliderGroup.scan d msg (x :: (pre ++ e :: post)) i heap = _
    unfold SliderGroup.scan
    by_cases hskip : d = true ∧ x.mouse.Dragging = false
    · rw [if_pos hskip]
      simp only [hrest, hidx]
      rfl
    · rw [if_neg hskip]
      have hf : (x.handle msg heap).2.2 = false := by
        cases hb : (x.handle msg heap).2.2
        · rfl
        · exact absurd ⟨hskip, hb⟩ hx
      have hxh := handle_false x msg heap hf
      simp only [hxh, Bool.false_eq_true, if_false, hrest, hidx]
      rfl

lemma list_first_split {α : Type} (P : α → Prop) :
    ∀ es : List α, (∀ e ∈ es, ¬ P e) ∨
      ∃ pre e post, es = pre ++ e :: post ∧ (∀ x ∈ pre, ¬ P x) ∧ P e := by
  intro es
  induction es with
  | nil => exact Or.inl (fun e he => absurd he (List.not_mem_nil e))
  | cons a rest ih =>
    by_cases ha : P a
    · exact Or.inr ⟨[], a, rest, rfl, fun x hx => absurd hx (List.not_mem_nil x), ha⟩
    · rcases ih with hall | ⟨pre, e, post, hes, hpre, he⟩
      · left
        intro e he
        rcases List.mem_cons.mp he with h | h
        · rw [h]; exact ha
        · exact hall e h
      · right
        refine ⟨a :: pre, e, post, by rw [hes]; rfl, ?_, he⟩
        intro x hx
        rcases List.mem_cons.mp hx with h | h
        · rw [h]; exact ha
        · exact hpre x h

lemma getElem?_split_ne {α : Type} (a b : α) (post : List α) :
    ∀ (pre : List α) (j : ℕ), j ≠ pre.length →
      (pre ++ a :: post)[j]? = (pre ++ b :: post)[j]? := by
  intro pre
  induction pre with
  | nil =>
    intro j hj
    cases j with
    | zero => exact absurd rfl hj
    | succ k => simp
  | cons x pre ih =>
    intro j hj
    cases j with
    | zero => simp
    | succ k =>
      have hk : k ≠ pre.length := fun h => hj (by rw [h]; rfl)
      simpa using ih k hk

lemma getElem?_split_self {α : Type} (a : α) (post : List α) :
    ∀ pre : List α, (pre ++ a :: post)[pre.length]? = some a := by
  intro pre
  induction pre with
  | nil => simp
  | cons x pre ih => simpa using ih

lemma clearOtherFocus_getElem? (i j : ℕ) (es : List GroupEntry) :
    (SliderGroup.clearOtherFocus i es)[j]? =
      (es[j]?).map (fun e => if j ≠ i then e.unfocus else e) := by
  unfold SliderGroup.clearOtherFocus
  rw [List.getElem?_mapIdx]

/-- The three ways `SliderGroup.HandleMouse` can end: a dragging entry handles the
event in the first loop; no dragging entry does and some entry handles it in the
second loop; or no entry handles it. -/
lemma SliderGroup_HandleMouse_cases (g : SliderGroup) (msg : MouseMsg) (heap : Heap) :
    (∃ pre e post, g.entries = pre ++ e :: post ∧
      (∀ x ∈ pre, ¬ (x.mouse.Dragging = true ∧ (x.handle msg heap).2.2 = true)) ∧
      e.mouse.Dragging = true ∧ (e.handle msg heap).2.2 = true ∧
      g.HandleMouse msg heap =
        ({ entries := pre ++ (e.handle msg heap).1 :: post, focused := (pre.length : ℤ) },
          (e.handle msg heap).2.1, true)) ∨
    (∃ pre e post, g.entries = pre ++ e :: post ∧
      (∀ x ∈ g.entries, ¬ (x.mouse.Dragging = true ∧ (x.handle msg heap).2.2 = true)) ∧
      (∀ x ∈ pre, (x.handle msg heap).2.2 = false) ∧ (e.handle msg heap).2.2 = true ∧
      g.HandleMouse msg heap =
        ({ entries := SliderGroup.clearOtherFocus pre.length
              (pre ++ (e.handle msg heap).1 :: post),
           focused := (pre.length : ℤ) },
          (e.handle msg heap).2.1, true)) ∨
    ((∀ x ∈ g.entries, (x.handle msg heap).2.2 = false) ∧ g.HandleMouse msg heap = (g, heap, false)) := by
  have hconv : ∀ x : GroupEntry,
      (¬ (true = true ∧ x.mouse.Dragging = false) ∧ (x.handle msg heap).2.2 = true) ↔
        (x.mouse.Dragging = true ∧ (x.handle msg heap).2.2 = true) := by
    intro x
    cases x.mouse.Dragging <;> simp
  have hconv2 : ∀ x : GroupEntry,
      (¬ (false = true ∧ x.mouse.Dragging = false) ∧ (x.handle msg heap).2.2 = true) ↔
        (x.handle msg heap).2.2 = true := by
    intro x
    simp
  rcases list_first_split
      (fun x : GroupEntry => x.mouse.Dragging = true ∧ (x.handle msg heap).2.2 = true)
      g.entries with hnone | ⟨pre, e, post, hes, hpre, hd, hh⟩
  · have h1 := scan_none true msg g.entries 0 heap
      (fun x hx hc => hnone x hx ((hconv x).mp hc))
    rcases list_first_split (fun x : GroupEntry => (x.handle msg heap).2.2 = true)
        g.entries with hnone2 | ⟨pre, e, post, hes, hpre, hh⟩
    · right; right
      have hall : ∀ x ∈ g.entries, (x.handle msg heap).2.2 = false := by
        intro x hx
        cases hb : (x.handle msg heap).2.2
        · rfl
        · exact absurd hb (hnone2 x hx)
      have h2 := scan_none false msg g.entries 0 heap
        (fun x hx hc => hnone2 x hx ((hconv2 x).mp hc))
      refine ⟨hall, ?_⟩
      unfold SliderGroup.HandleMouse
      simp only [h1, h2]
    · right; left
      have hpre' : ∀ x ∈ pre, (x.handle msg heap).2.2 = false := by
        intro x hx
        cases hb : (x.handle msg heap).2.2
        · rfl
        · exact absurd hb (hpre x hx)
      have h2 := scan_some false msg pre e post 0 heap
        (fun x hx hc => hpre x hx ((hconv2 x).mp hc)) (by simp) hh
      refine ⟨pre, e, post, hes, hnone, hpre', hh, ?_⟩
      unfold SliderGroup.HandleMouse
      simp only [h1]
      rw [hes, h2]
      simp only [Nat.zero_add]
  · left
    have h1 := scan_some true msg pre e post 0 heap
      (fun x hx hc => hpre x hx ((hconv x).mp hc)) (by simp [hd]) hh
    refine ⟨pre, e, post, hes, hpre, hd, hh, ?_⟩
    unfold SliderGroup.HandleMouse
    rw [hes, h1]
    simp only [Nat.zero_add]

/-- C22: one `SliderGroup.HandleMouse` call routes the event to at most one slider.
When it returns false the group and every state are unchanged.  It returns true
exactly when some slider's `HandleMouse` would handle the event, and then there is
one index `i`, with `Focused() = i`, whose slider handled it: the `Dragging` flag of
every other index is unchanged, and no state other than the one slider `i` points
to is written. -/
theorem SliderGroup_HandleMouse_routes (g : SliderGroup) (msg : MouseMsg) (heap : Heap) :
    ((g.HandleMouse msg heap).2.2 = false →
      (g.HandleMouse msg heap).1 = g ∧ (g.HandleMouse msg heap).2.1 = heap) ∧
    ((g.HandleMouse msg heap).2.2 = true ↔
      ∃ e ∈ g.entries, (e.handle msg heap).2.2 = true) ∧
    ((g.HandleMouse msg heap).2.2 = true →
      ∃ (i : ℕ) (e : GroupEntry), g.entries[i]? = some e ∧ (e.handle msg heap).2.2 = true ∧
        (g.HandleMouse msg heap).1.Focused = (i : ℤ) ∧
        (∀ j : ℕ, j ≠ i →
          ((g.HandleMouse msg heap).1.entries[j]?).map (fun x => x.mouse.Dragging) =
            (g.entries[j]?).map (fun x => x.mouse.Dragging)) ∧
        (∀ a : ℕ, e.slider.bind (fun sp => sp.state) ≠ some a →
          (g.HandleMouse msg heap).2.1 a = heap a)) := by
  rcases SliderGroup_HandleMouse_cases g msg heap with
    ⟨pre, e, post, hes, _, _, hh, hr⟩ | ⟨pre, e, post, hes, _, _, hh, hr⟩ | ⟨hall, hr⟩
  · rw [hr]
    refine ⟨fun h => absurd h (by simp), ⟨fun _ => ⟨e, by rw [hes]; simp, hh⟩, fun _ => rfl⟩,
      fun _ => ⟨pre.length, e, by rw [hes]; exact getElem?_split_self e post pre, hh, rfl,
        fun j hj => ?_, fun a ha => handle_heap_other e msg heap a ha⟩⟩
    show ((pre ++ (e.handle msg heap).1 :: post)[j]?).map _ = _
    rw [hes, getElem?_split_ne _ e post pre j hj]
  · rw [hr]
    refine ⟨fun h => absurd h (by simp), ⟨fun _ => ⟨e, by rw [hes]; simp, hh⟩, fun _ => rfl⟩,
      fun _ => ⟨pre.length, e, by rw [hes]; exact getElem?_split_self e post pre, hh, rfl,
        fun j hj => ?_, fun a ha => handle_heap_other e msg heap a ha⟩⟩
    show ((SliderGroup.clearOtherFocus pre.length
      (pre ++ (e.handle msg heap).1 :: post))[j]?).map _ = _
    rw [clearOtherFocus_getElem?, hes, getElem?_split_ne _ e post pre j hj, Option.map_map]
    congr 1
    funext x
    show (if j ≠ pre.length then x.unfocus else x).mouse.Dragging = x.mouse.Dragging
    rw [if_pos hj]
    rfl
  · rw [hr]
    refine ⟨fun _ => ⟨rfl, rfl⟩, ⟨fun h => absurd h (by simp), ?_⟩, fun h => absurd h (by simp)⟩
    rintro ⟨e, he, hh⟩
    rw [hall e he] at hh
    exact absurd hh (by simp)

/-- C22 on the group of the test: a left press at `(50, 5)` is handled. -/
theorem SliderGroup_HandleMouse_routes_witness :
    (testGroup.HandleMouse (leftPress 50 5) testHeap).2.2 = true :=
  (SliderGroup_HandleMouse_routes testGroup (leftPress 50 5) testHeap).2.1.mpr
    ⟨{ slider := some { orientation := Orientation.Horizontal, state := some 0 },
       mouse := { X := 0, Y := 0, Width := 100, Height := 10 } }, by decide, by decide⟩

lemma handle_of_handled (e : GroupEntry) (msg : MouseMsg) (heap : Heap) (sp : SliderPtr)
    (a : ℕ) (hsl : e.slider = some sp) (hst : sp.state = some a)
    (h : (e.mouse.HandleMouse msg
      (some { orientation := sp.orientation, state := some (heap a) })).2.2 = true) :
    e.handle msg heap =
      ({ e with mouse := (e.mouse.HandleMouse msg
            (some { orientation := sp.orientation, state := some (heap a) })).1 },
        Function.update heap a (e.mouse.updateValue msg.X msg.Y sp.orientation (heap a)),
        true) := by
  have hd : derefSlider heap e.slider =
      some { orientation := sp.orientation, state := some (heap a) } := by
    rw [hsl]
    show some ({ orientation := sp.orientation, state := sp.state.map heap } : SliderRef) = _
    rw [hst]
    rfl
  have hs := HandleMouse_handled_state e.mouse msg sp.orientation (heap a) h
  unfold GroupEntry.handle
  rw [hd]
  simp only [hs, h, hsl]
  unfold writeBack
  simp only [hst]

/-- C23 as stated fails: in the group of the test, after a left press at `(50, 5)`
slider 0 is mid-drag; a left press at `(50, 25)`, outside its bounds and inside
those of slider 1, is then handled by slider 1, whose `Dragging` and `Focused`
flags change from false to true, while slider 0 loses `Focused`. -/
theorem SliderGroup_press_elsewhere_during_drag :
    ((testGroup.handleAll testHeap [leftPress 50 5]).1.entries.map
        fun e => (e.mouse.Dragging, e.mouse.Focused)) = [(true, true), (false, false)] ∧
    ((testGroup.handleAll testHeap [leftPress 50 5, leftPress 50 25]).1.entries.map
        fun e => (e.mouse.Dragging, e.mouse.Focused)) = [(true, false), (true, true)] ∧
    (testGroup.handleAll testHeap [leftPress 50 5, leftPress 50 25]).1.Focused = 1 := by
  refine ⟨by decide, by decide, by decide⟩

/-- C23, amended: when the first mid-drag index of a group (with a non-nil slider
and state) receives a motion or release event, or a left press inside its own
bounds, `HandleMouse` returns true with `Focused()` at that index; every other
index keeps its mouse state (so its `Dragging` and `Focused` flags) and its slider,
and only the state that slider points to is written. -/
theorem SliderGroup_drag_captures (g : SliderGroup) (msg : MouseMsg) (heap : Heap)
    (pre post : List GroupEntry) (e : GroupEntry) (sp : SliderPtr) (a : ℕ)
    (hes : g.entries = pre ++ e :: post) (hpre : ∀ x ∈ pre, x.mouse.Dragging = false)
    (hd : e.mouse.Dragging = true) (hsl : e.slider = some sp) (hst : sp.state = some a)
    (hmsg : msg.Action = MouseAction.MouseActionMotion ∨
      msg.Action = MouseAction.MouseActionRelease ∨
      (msg.Action = MouseAction.MouseActionPress ∧ msg.Button = MouseButton.MouseButtonLeft ∧
        e.mouse.Contains msg.X msg.Y = true)) :
    g.HandleMouse msg heap =
      ({ entries := pre ++
            { e with mouse := (e.mouse.HandleMouse msg
                (some { orientation := sp.orientation, state := some (heap a) })).1 } :: post,
         focused := (pre.length : ℤ) },
        Function.update heap a (e.mouse.updateValue msg.X msg.Y sp.orientation (heap a)),
        true) := by
  have hh : (e.mouse.HandleMouse msg
      (some { orientation := sp.orientation, state := some (heap a) })).2.2 = true := by
    rcases hmsg with h | h | ⟨h1, h2, h3⟩
    · rw [HandleMouse_motion e.mouse msg sp.orientation (heap a) h hd]
    · rw [HandleMouse_release e.mouse msg sp.orientation (heap a) h hd]
    · rw [HandleMouse_press e.mouse msg sp.orientation (heap a) h1 h2 h3]
  have he := handle_of_handled e msg heap sp a hsl hst hh
  have hflag : (e.handle msg heap).2.2 = true := by rw [he]
  have h1 := scan_some true msg pre e post 0 heap
    (fun x hx hc => hc.1 ⟨rfl, hpre x hx⟩) (by simp [hd]) hflag
  unfold SliderGroup.HandleMouse
  rw [hes, h1]
  simp only [Nat.zero_add, he]

/-- C23, amended, on the group of the test with slider 0 mid-drag: a motion to
`(75, 50)`, outside every box, is handled by slider 0. -/
theorem SliderGroup_drag_captures_witness :
    (SliderGroup.HandleMouse
        { entries :=
            [{ slider := some { orientation := Orientation.Horizontal, state := some 0 },
               mouse := { X := 0, Y := 0, Width := 100, Height := 10, Dragging := true,
                          Focused := true } },
             { slider := some { orientation := Orientation.Horizontal, state := some 1 },
               mouse := { X := 0, Y := 20, Width := 100, Height := 10 } }],
          focused := 0 }
        (motionTo 75 50) testHeap).2.2 = true := by
  rw [SliderGroup_drag_captures _ (motionTo 75 50) testHeap []
    [{ slider := some { orientation := Orientation.Horizontal, state := some 1 },
       mouse := { X := 0, Y := 20, Width := 100, Height := 10 } }]
    { slider := some { orientation := Orientation.Horizontal, state := some 0 },
      mouse := { X := 0, Y := 0, Width := 100, Height := 10, Dragging := true,
                 Focused := true } }
    { orientation := Orientation.Horizontal, state := some 0 } 0 rfl
    (fun x hx => absurd hx (List.not_mem_nil x)) rfl rfl rfl (Or.inl rfl)]

/-- C24 fails on the code: driving the group of the test only through `HandleMouse`,
the left presses at `(50, 5)`, `(50, 25)` and `(50, 5)` (no release in between)
leave both mouse states with `Focused = true`: the third press is handled in the
first loop, which sets the focused index but does not clear the other flags.
After the presses at `(50, 5)` and `(50, 25)` and a motion to `(60, 5)`, the call
returns true with `Focused() = 0` while the only `Focused` flag is at index 1. -/
theorem SliderGroup_two_focused :
    ((testGroup.handleAll testHeap
        [leftPress 50 5, leftPress 50 25, leftPress 50 5]).1.entries.map
        fun e => e.mouse.Focused) = [true, true] ∧
    ((testGroup.handleAll testHeap [leftPress 50 5, leftPress 50 25]).1.HandleMouse
        (motionTo 60 5)
        (testGroup.handleAll testHeap [leftPress 50 5, leftPress 50 25]).2).2.2 = true ∧
    (testGroup.handleAll testHeap
        [leftPress 50 5, leftPress 50 25, motionTo 60 5]).1.Focused = 0 ∧
    ((testGroup.handleAll testHeap
        [leftPress 50 5, leftPress 50 25, motionTo 60 5]).1.entries.map
        fun e => e.mouse.Focused) = [false, true] := by
  refine ⟨by decide, by decide, by decide, by decide⟩

/-! ## Options, hit testing and inverted bounds -/

/-- C33 as stated fails for the argument `0`: `WithSegmentCount(0)` after
`WithSegmentCount(5)` stores `0` instead of leaving `5`, and `WithSegmentGap(0)`
stores `0` instead of leaving the default `1`. -/
theorem zero_segment_options_are_stored :
    (New none [WithSegmentCount 5, WithSegmentCount 0]).segmentCount = 0 ∧
    (New none [WithSegmentCount 5]).segmentCount = 5 ∧
    (New none [WithSegmentGap 0]).segmentGap = 0 ∧
    (New none []).segmentGap = 1 := by
  refine ⟨by decide, by decide, by decide, by decide⟩

/-- C33, amended: `WithWidth` and `WithHeight` ignore every argument `≤ 0` and store
every positive one; `WithSegmentCount` and `WithSegmentGap` ignore every negative
argument and store every argument `≥ 0`, zero included; the defaults of `New` are
20, 10, 0 and 1. -/
theorem size_options (s : Slider) (n : ℤ) :
    (n ≤ 0 → WithWidth n s = s) ∧ (0 < n → (WithWidth n s).width = n) ∧
    (n ≤ 0 → WithHeight n s = s) ∧ (0 < n → (WithHeight n s).height = n) ∧
    (n < 0 → WithSegmentCount n s = s) ∧ (0 ≤ n → (WithSegmentCount n s).segmentCount = n) ∧
    (n < 0 → WithSegmentGap n s = s) ∧ (0 ≤ n → (WithSegmentGap n s).segmentGap = n) ∧
    ((New none []).width = 20 ∧ (New none []).height = 10 ∧
      (New none []).segmentCount = 0 ∧ (New none []).segmentGap = 1) := by
  refine ⟨fun h => ?_, fun h => ?_, fun h => ?_, fun h => ?_, fun h => ?_, fun h => ?_,
    fun h => ?_, fun h => ?_, ⟨rfl, rfl, rfl, rfl⟩⟩
  · unfold WithWidth
    rw [if_neg (not_lt.mpr h)]
  · unfold WithWidth
    rw [if_pos h]
  · unfold WithHeight
    rw [if_neg (not_lt.mpr h)]
  · unfold WithHeight
    rw [if_pos h]
  · unfold WithSegmentCount
    rw [if_neg (not_le.mpr h)]
  · unfold WithSegmentCount
    rw [if_pos h]
  · unfold WithSegmentGap
    rw [if_neg (not_le.mpr h)]
  · unfold WithSegmentGap
    rw [if_pos h]

/-- C33, amended, at `New(nil, WithWidth(-5))`: the width stays 20. -/
theorem size_options_witness : (New none [WithWidth (-5)]).width = 20 := by
  have h := (size_options (New none []) (-5)).1 (by decide)
  show (WithWidth (-5) (New none [])).width = 20
  rw [h]
  rfl

/-! ## Accessible slider, smooth steps and the bounce easings -/

/-- C32: `AccessibleSlider.Increment`, `Decrement` and `SetValue` with an announcer
call it exactly once when the value after the call differs from the value before and
not at all when it is unchanged; the state is mutated exactly as by the
`SliderState` operation of the same name, and nothing else of the slider changes. -/
theorem AccessibleSlider_announces_changes (a : AccessibleSlider) (v : ℚ)
    (ha : a.announcer = true) :
    (a.Increment.1.slider.state = a.slider.state.Increment ∧
      a.Increment.2 = (if a.slider.state.Increment.Value ≠ a.slider.state.Value then 1 else 0) ∧
      a.Increment.1 =
        { a with slider := { a.slider with state := a.slider.state.Increment } }) ∧
    (a.Decrement.1.slider.state = a.slider.state.Decrement ∧
      a.Decrement.2 = (if a.slider.state.Decrement.Value ≠ a.slider.state.Value then 1 else 0) ∧
      a.Decrement.1 =
        { a with slider := { a.slider with state := a.slider.state.Decrement } }) ∧
    ((a.SetValue v).1.slider.state = a.slider.state.SetValue v ∧
      (a.SetValue v).2 =
        (if (a.slider.state.SetValue v).Value ≠ a.slider.state.Value then 1 else 0) ∧
      (a.SetValue v).1 =
        { a with slider := { a.slider with state := a.slider.state.SetValue v } }) := by
  refine ⟨?_, ?_, ?_⟩
  · unfold AccessibleSlider.Increment
    by_cases h : a.slider.state.Value ≠ a.slider.state.Increment.Value
    · simp only [h, ha, ne_eq, not_false_eq_true, and_self, if_true, Ne.symm h]
    · have h' : a.slider.state.Value = a.slider.state.Increment.Value := not_not.mp h
      simp only [← h', ne_eq, not_true_eq_false, false_and, if_false, and_self]
  · unfold AccessibleSlider.Decrement
    by_cases h : a.slider.state.Value ≠ a.slider.state.Decrement.Value
    · simp only [h, ha, ne_eq, not_false_eq_true, and_self, if_true, Ne.symm h]
    · have h' : a.slider.state.Value = a.slider.state.Decrement.Value := not_not.mp h
      simp only [← h', ne_eq, not_true_eq_false, false_and, if_false, and_self]
  · unfold AccessibleSlider.SetValue
    by_cases h : a.slider.state.Value ≠ (a.slider.state.SetValue v).Value
    · simp only [h, ha, ne_eq, not_false_eq_true, and_self, if_true, Ne.symm h]
    · have h' : a.slider.state.Value = (a.slider.state.SetValue v).Value := not_not.mp h
      simp only [← h', ne_eq, not_true_eq_false, false_and, if_false, and_self]

/-- C32 at a fresh slider (value 0 of `[0, 100]`): `Decrement` leaves the value at the
minimum and does not call the announcer; `Increment` changes it and calls it once. -/
theorem AccessibleSlider_announces_changes_witness :
    (AccessibleSlider.Decrement
      { slider := New none [], mode := AccessibilityMode.AccessibilityDefault,
        description := "", announcer := true, focused := false }).2 = 0 ∧
    (AccessibleSlider.Increment
      { slider := New none [], mode := AccessibilityMode.AccessibilityDefault,
        description := "", announcer := true, focused := false }).2 = 1 := by
  have h := AccessibleSlider_announces_changes
      { slider := New none [], mode := AccessibilityMode.AccessibilityDefault,
        description := "", announcer := true, focused := false } 0 rfl
  refine ⟨?_, ?_⟩
  · rw [h.2.1.2.1]
    norm_num [New, NewState, SliderState.Decrement, SliderState.SetValue, SliderState.clamp,
      SliderState.Value]
  · rw [h.1.2.1]
    norm_num [New, NewState, SliderState.Increment, SliderState.SetValue, SliderState.clamp,
      SliderState.Value]

/-- C36: with `c = Clamp(t, 0, 1)`, `SmoothStep(t) = 3c² - 2c³` and
`SmootherStep(t) = 6c⁵ - 15c⁴ + 10c³`; both are `0` for `t ≤ 0`, `1` for `t ≥ 1` and
`1/2` at `t = 1/2`. -/
theorem SmoothStep_polynomials (t : ℚ) :
    SmoothStep t = 3 * Clamp t 0 1 ^ 2 - 2 * Clamp t 0 1 ^ 3 ∧
    SmootherStep t = 6 * Clamp t 0 1 ^ 5 - 15 * Clamp t 0 1 ^ 4 + 10 * Clamp t 0 1 ^ 3 ∧
    (t ≤ 0 → SmoothStep t = 0 ∧ SmootherStep t = 0) ∧
    (1 ≤ t → SmoothStep t = 1 ∧ SmootherStep t = 1) ∧
    SmoothStep (1 / 2) = 1 / 2 ∧ SmootherStep (1 / 2) = 1 / 2 := by
  refine ⟨?_, ?_, fun h => ?_, fun h => ?_, ?_, ?_⟩
  · unfold SmoothStep
    ring
  · unfold SmootherStep
    ring
  · have hc : Clamp t 0 1 = 0 := by
      unfold Clamp
      rcases lt_or_eq_of_le h with h' | h'
      · rw [if_pos h']
      · rw [h']
        norm_num
    unfold SmoothStep SmootherStep
    rw [hc]
    norm_num
  · have hc : Clamp t 0 1 = 1 := by
      unfold Clamp
      rw [if_neg (not_lt.mpr (le_trans zero_le_one h))]
      rcases lt_or_eq_of_le h with h' | h'
      · rw [if_pos h']
      · rw [← h']
        norm_num
    unfold SmoothStep SmootherStep
    rw [hc]
    norm_num
  · norm_num [SmoothStep, Clamp]
  · norm_num [SmootherStep, Clamp]

/-- C36 at `t = 2` and `t = -1`: the steps return `1` and `0`. -/
theorem SmoothStep_polynomials_witness :
    (SmoothStep 2 = 1 ∧ SmootherStep 2 = 1) ∧ (SmoothStep (-1) = 0 ∧ SmootherStep (-1) = 0) :=
  ⟨(SmoothStep_polynomials 2).2.2.2.1 (by norm_num),
    (SmoothStep_polynomials (-1)).2.2.1 (by norm_num)⟩

lemma EaseOutBounce_mem (t : ℚ) (h0 : 0 ≤ t) (h1 : t ≤ 1) :
    0 ≤ EaseOutBounce t ∧ EaseOutBounce t ≤ 1 := by
  unfold EaseOutBounce
  split_ifs with ha hb hc
  · norm_num at ha ⊢
    constructor
    · nlinarith [mul_nonneg h0 h0]
    · nlinarith [mul_nonneg h0 h0]
  · norm_num at ha hb ⊢
    constructor
    · nlinarith [sq_nonneg (t - 6 / 11)]
    · nlinarith [sq_nonneg (t - 6 / 11)]
  · norm_num at hb hc ⊢
    constructor
    · nlinarith [sq_nonneg (t - 9 / 11)]
    · nlinarith [sq_nonneg (t - 9 / 11)]
  · norm_num at hc ⊢
    constructor
    · nlinarith [sq_nonneg (t - 21 / 22)]
    · nlinarith [sq_nonneg (t - 21 / 22)]

/-- C40: for every `t` in `[0, 1]`, `EaseOutBounce(t)` lies in `[0, 1]`, and
`EaseInBounce(t) = 1 - EaseOutBounce(1 - t)` lies in `[0, 1]` as well. -/
theorem bounce_in_unit_interval (t : ℚ) (h0 : 0 ≤ t) (h1 : t ≤ 1) :
    (0 ≤ EaseOutBounce t ∧ EaseOutBounce t ≤ 1) ∧
    EaseInBounce t = 1 - EaseOutBounce (1 - t) ∧
    (0 ≤ EaseInBounce t ∧ EaseInBounce t ≤ 1) := by
  have h := EaseOutBounce_mem (1 - t) (by linarith) (by linarith)
  refine ⟨EaseOutBounce_mem t h0 h1, rfl, ?_, ?_⟩
  · show 0 ≤ 1 - EaseOutBounce (1 - t)
    linarith [h.2]
  · show 1 - EaseOutBounce (1 - t) ≤ 1
    linarith [h.1]

/-- C40 at `t = 1/2`: both bounce easings stay in `[0, 1]`. -/
theorem bounce_in_unit_interval_witness :
    (0 ≤ EaseOutBounce (1 / 2) ∧ EaseOutBounce (1 / 2) ≤ 1) ∧
    EaseInBounce (1 / 2) = 1 - EaseOutBounce (1 - 1 / 2) ∧
    (0 ≤ EaseInBounce (1 / 2) ∧ EaseInBounce (1 / 2) ≤ 1) :=
  bounce_in_unit_interval (1 / 2) (by norm_num) (by norm_num)

/-- C39: for `elapsed ≥ 0`, `Animation.Update` never divides by zero (the instrumented
`UpdateChecked` returns the result of `Update`); the quotient is evaluated only when
`elapsed < duration`, then `duration > 0`, the progress `elapsed/duration` handed to
the easing lies in `[0, 1)`; and a tween with `duration ≤ 0` completes on that
`Update`, storing the clamped target. -/
theorem Animation_Update_no_zero_division (a : Animation) (elapsed : ℤ) (state : SliderState)
    (h0 : 0 ≤ elapsed) :
    a.UpdateChecked elapsed state = some (a.Update elapsed state) ∧
    (elapsed < a.duration →
      0 < a.duration ∧
      (0 ≤ (elapsed : ℚ) / (a.duration : ℚ) ∧ (elapsed : ℚ) / (a.duration : ℚ) < 1) ∧
      a.Update elapsed state =
        (state.SetValue (a.startValue + (a.endValue - a.startValue) *
          a.easing ((elapsed : ℚ) / (a.duration : ℚ))), 0, false)) ∧
    (a.duration ≤ elapsed →
      a.UpdateChecked elapsed state =
        some (state.SetValue a.endValue, (if a.onComplete then 1 else 0), true)) ∧
    (a.duration ≤ 0 →
      (a.Update elapsed state).2.2 = true ∧
      (a.Update elapsed state).1 = state.SetValue a.endValue) := by
  refine ⟨?_, fun h => ?_, fun h => ?_, fun h => ?_⟩
  · unfold Animation.UpdateChecked Animation.Update
    by_cases h : elapsed ≥ a.duration
    · simp only [if_pos h]
    · have hd : (0 : ℤ) < a.duration := lt_of_le_of_lt h0 (not_le.mp h)
      have hne : ((a.duration : ℤ) : ℚ) ≠ 0 := by exact_mod_cast (ne_of_gt hd)
      simp only [if_neg h, SliderState.divChecked, if_neg hne]
  · have hd : (0 : ℤ) < a.duration := lt_of_le_of_lt h0 h
    have hdq : (0 : ℚ) < (a.duration : ℚ) := by exact_mod_cast hd
    refine ⟨hd, ⟨div_nonneg (by exact_mod_cast h0) (le_of_lt hdq), ?_⟩,
      Animation_Update_running a elapsed state h⟩
    rw [div_lt_one hdq]
    exact_mod_cast h
  · unfold Animation.UpdateChecked
    rw [if_pos h]
  · rw [Animation_Update_done a elapsed state (le_trans h h0)]
    exact ⟨rfl, rfl⟩

/-- C39 at a tween of duration 0 updated at elapsed 0: it completes at once. -/
theorem Animation_Update_no_zero_division_witness :
    Animation.UpdateChecked
      { startValue := 0, endValue := 50, duration := 0, easing := Linear, onComplete := false } 0
      { min := 0, max := 100, value := 0, step := 1 } =
    some (Animation.Update
      { startValue := 0, endValue := 50, duration := 0, easing := Linear, onComplete := false } 0
      { min := 0, max := 100, value := 0, step := 1 }) :=
  (Animation_Update_no_zero_division
    { startValue := 0, endValue := 50, duration := 0, easing := Linear, onComplete := false } 0
    { min := 0, max := 100, value := 0, step := 1 } (le_refl 0)).1

/-! ## The range of a press inside the bounds -/

lemma contains_bounds (m : MouseState) (x y : ℤ) (h : m.Contains x y = true) :
    (m.X ≤ x ∧ x < m.X + m.Width) ∧ (m.Y ≤ y ∧ y < m.Y + m.Height) := by
  unfold MouseState.Contains at h
  simp only [Bool.and_eq_true, decide_eq_true_eq, ge_iff_le] at h
  tauto

lemma positionPercentage_horizontal_inside (m : MouseState) (x y : ℤ)
    (h1 : m.X ≤ x) (h2 : x < m.X + m.Width) :
    m.positionPercentage x y Orientation.Horizontal = ((x - m.X : ℤ) : ℚ) / (m.Width : ℚ) := by
  rw [positionPercentage_eq_spec]
  simp only [specPointerPct]
  rw [if_neg (by omega), max_eq_right (le_min (by omega) (by omega)),
    min_eq_left (by omega)]

lemma positionPercentage_vertical_inside (m : MouseState) (x y : ℤ)
    (h1 : m.Y ≤ y) (h2 : y < m.Y + m.Height) :
    m.positionPercentage x y Orientation.Vertical
      = 1 - ((y - m.Y : ℤ) : ℚ) / (m.Height : ℚ) := by
  rw [positionPercentage_eq_spec]
  simp only [specPointerPct]
  rw [if_neg (by omega), max_eq_right (le_min (by omega) (by omega)),
    min_eq_left (by omega)]

/-- C38: a left press inside the bounds is handled and stores
`min + pct * (max - min)` where `pct` is the percentage of the position; on a
horizontal slider the width is `W ≥ 1` and `pct = (x - X)/W` lies in `[0, (W - 1)/W]`,
so it is never 1; on a vertical slider the height is `H ≥ 1` and
`pct = 1 - (y - Y)/H` lies in `[1/H, 1]`, so it is never 0; and for `W ≥ 1` the
horizontal percentage of any position is 1 exactly when `x ≥ X + W`. -/
theorem press_inside_percentage_range (m : MouseState) (msg : MouseMsg) (o : Orientation)
    (st : SliderState) (ha : msg.Action = MouseAction.MouseActionPress)
    (hb : msg.Button = MouseButton.MouseButtonLeft) (hc : m.Contains msg.X msg.Y = true) :
    m.HandleMouse msg (some { orientation := o, state := some st }) =
      ({ m with Dragging := true, Focused := true },
        some { orientation := o,
               state := some { st with value :=
                 st.min + m.positionPercentage msg.X msg.Y o * (st.max - st.min) } }, true) ∧
    (o = Orientation.Horizontal →
      1 ≤ m.Width ∧
      m.positionPercentage msg.X msg.Y o = ((msg.X - m.X : ℤ) : ℚ) / (m.Width : ℚ) ∧
      0 ≤ m.positionPercentage msg.X msg.Y o ∧
      m.positionPercentage msg.X msg.Y o ≤ ((m.Width : ℚ) - 1) / (m.Width : ℚ) ∧
      m.positionPercentage msg.X msg.Y o < 1) ∧
    (o = Orientation.Vertical →
      1 ≤ m.Height ∧
      m.positionPercentage msg.X msg.Y o = 1 - ((msg.Y - m.Y : ℤ) : ℚ) / (m.Height : ℚ) ∧
      1 / (m.Height : ℚ) ≤ m.positionPercentage msg.X msg.Y o ∧
      m.positionPercentage msg.X msg.Y o ≤ 1 ∧
      0 < m.positionPercentage msg.X msg.Y o) ∧
    (∀ x y : ℤ, 1 ≤ m.Width →
      (m.positionPercentage x y Orientation.Horizontal = 1 ↔ m.X + m.Width ≤ x)) := by
  obtain ⟨⟨hx1, hx2⟩, hy1, hy2⟩ := contains_bounds m msg.X msg.Y hc
  refine ⟨?_, fun ho => ?_, fun ho => ?_, fun x y hW => ?_⟩
  · rw [HandleMouse_press m msg o st ha hb hc, updateValue_eq, positionPercentage_eq_spec]
  · subst ho
    have hW : (0 : ℤ) < m.Width := by omega
    have hWq : (0 : ℚ) < (m.Width : ℚ) := by exact_mod_cast hW
    have hr0 : (0 : ℚ) ≤ ((msg.X - m.X : ℤ) : ℚ) := by exact_mod_cast (by omega : 0 ≤ msg.X - m.X)
    have hr1 : ((msg.X - m.X : ℤ) : ℚ) ≤ (m.Width : ℚ) - 1 := by
      have : msg.X - m.X ≤ m.Width - 1 := by omega
      exact_mod_cast this
    rw [positionPercentage_horizontal_inside m msg.X msg.Y hx1 hx2]
    refine ⟨by omega, rfl, div_nonneg hr0 (le_of_lt hWq), ?_, ?_⟩
    · exact div_le_div_of_nonneg_right hr1 (le_of_lt hWq)
    · rw [div_lt_one hWq]
      linarith
  · subst ho
    have hH : (0 : ℤ) < m.Height := by omega
    have hHq : (0 : ℚ) < (m.Height : ℚ) := by exact_mod_cast hH
    have hr0 : (0 : ℚ) ≤ ((msg.Y - m.Y : ℤ) : ℚ) := by exact_mod_cast (by omega : 0 ≤ msg.Y - m.Y)
    have hr1 : ((msg.Y - m.Y : ℤ) : ℚ) ≤ (m.Height : ℚ) - 1 := by
      have : msg.Y - m.Y ≤ m.Height - 1 := by omega
      exact_mod_cast this
    have hq0 : 0 ≤ ((msg.Y - m.Y : ℤ) : ℚ) / (m.Height : ℚ) := div_nonneg hr0 (le_of_lt hHq)
    have hq1 : ((msg.Y - m.Y : ℤ) : ℚ) / (m.Height : ℚ) ≤ 1 - 1 / (m.Height : ℚ) := by
      rw [div_le_iff₀ hHq, sub_mul, one_mul, one_div, inv_mul_cancel₀ (ne_of_gt hHq)]
      exact hr1
    have hinv : 0 < 1 / (m.Height : ℚ) := one_div_pos.mpr hHq
    rw [positionPercentage_vertical_inside m msg.X msg.Y hy1 hy2]
    refine ⟨by omega, rfl, by linarith, by linarith, by linarith⟩
  · have hWq : (0 : ℚ) < (m.Width : ℚ) := by exact_mod_cast (by omega : 0 < m.Width)
    rw [positionPercentage_eq_spec]
    simp only [specPointerPct]
    rw [if_neg (by omega), div_eq_one_iff_eq (ne_of_gt hWq)]
    constructor
    · intro h
      have h' : max 0 (min (x - m.X) m.Width) = m.Width := by exact_mod_cast h
      rcases le_total (x - m.X) m.Width with hle | hle
      · rw [min_eq_left hle] at h'
        rcases le_total 0 (x - m.X) with h0 | h0
        · rw [max_eq_right h0] at h'
          omega
        · rw [max_eq_left h0] at h'
          omega
      · omega
    · intro h
      rw [min_eq_right (by omega), max_eq_right (by omega)]

/-- C38 at the box `(0, 0, 10, 1)` and a press at its last column `x = 9`: the
percentage is `9/10`. -/
theorem press_inside_percentage_range_witness :
    MouseState.positionPercentage { X := 0, Y := 0, Width := 10, Height := 1 } 9 0
      Orientation.Horizontal ≤ (((10 : ℤ) : ℚ) - 1) / ((10 : ℤ) : ℚ) :=
  ((press_inside_percentage_range { X := 0, Y := 0, Width := 10, Height := 1 }
    { X := 9, Y := 0, Action := MouseAction.MouseActionPress,
      Button := MouseButton.MouseButtonLeft } Orientation.Horizontal
    { min := 0, max := 100, value := 0, step := 1 } rfl rfl (by decide)).2.1 rfl).2.2.2.1

/-! ## The animation manager -/

lemma filter_ne_eq_self (l : List (ℤ × ManagedAnimation)) (k : ℤ)
    (h : k ∉ l.map Prod.fst) : l.filter (fun e => decide (e.1 ≠ k)) = l := by
  rw [List.filter_eq_self]
  intro e he
  have : e.1 ≠ k := fun hk => h (hk ▸ List.mem_map_of_mem Prod.fst he)
  exact decide_eq_true this

lemma filter_ne_length (k : ℤ) :
    ∀ l : List (ℤ × ManagedAnimation), (l.map Prod.fst).Nodup → k ∈ l.map Prod.fst →
      (l.filter (fun e => decide (e.1 ≠ k))).length + 1 = l.length := by
  intro l
  induction l with
  | nil =>
    intro _ hk
    exact absurd hk (List.not_mem_nil _)
  | cons e rest ih =>
    intro hnd hk
    rw [List.map_cons, List.nodup_cons] at hnd
    rw [List.map_cons, List.mem_cons] at hk
    by_cases he : e.1 = k
    · have hnot : k ∉ rest.map Prod.fst := he ▸ hnd.1
      rw [List.filter_cons_of_neg (by simp [he]), filter_ne_eq_self rest k hnot]
      rfl
    · have hin : k ∈ rest.map Prod.fst := by
        rcases hk with h | h
        · exact absurd h.symm he
        · exact h
      rw [List.filter_cons_of_pos (by simp [he]), List.length_cons, List.length_cons,
        ih hnd.2 hin]

lemma updateLoop_sublist (elapsed : ℤ → ℤ) :
    ∀ (l : List (ℤ × ManagedAnimation)) (heap : Heap),
      (AnimationManager.updateLoop elapsed l heap).1.Sublist l := by
  intro l
  induction l with
  | nil =>
    intro heap
    exact List.Sublist.refl _
  | cons e rest ih =>
    intro heap
    unfold AnimationManager.updateLoop
    simp only []
    split_ifs
    · exact List.Sublist.cons _ (ih _)
    · exact List.Sublist.cons₂ _ (ih _)

/-- The invariant of a manager and the ids it has returned: the running ids are
distinct and below `nextID`, and so are the returned ids. -/
lemma manager_inv_step (m : AnimationManager) (heap : Heap) (ids : List ℤ) (op : ManagerOp)
    (h1 : ∀ k ∈ m.running, k < m.nextID) (h2 : m.running.Nodup)
    (h3 : ∀ i ∈ ids, i < m.nextID) (h4 : ids.Nodup) :
    (∀ k ∈ (op.apply m heap).1.running, k < (op.apply m heap).1.nextID) ∧
    (op.apply m heap).1.running.Nodup ∧
    (∀ i ∈ ids ++ (op.apply m heap).2.2, i < (op.apply m heap).1.nextID) ∧
    (ids ++ (op.apply m heap).2.2).Nodup := by
  have hsub : ∀ l : List (ℤ × ManagedAnimation), l.Sublist m.animations →
      (∀ k ∈ l.map Prod.fst, k < m.nextID) ∧ (l.map Prod.fst).Nodup :=
    fun l hl => ⟨fun k hk => h1 k ((hl.map Prod.fst).subset hk), h2.sublist (hl.map Prod.fst)⟩
  cases op with
  | start state targetValue opts =>
    have hfresh : m.nextID ∉ m.animations.map Prod.fst := fun h => lt_irrefl _ (h1 _ h)
    have hrun : (ManagerOp.apply m heap (ManagerOp.start state targetValue opts)).1.running
        = m.nextID :: m.running := by
      show List.map Prod.fst (AnimationManager.mapSet m.animations m.nextID _) = _
      unfold AnimationManager.mapSet
      rw [filter_ne_eq_self _ _ hfresh]
      rfl
    have hnext : (ManagerOp.apply m heap (ManagerOp.start state targetValue opts)).1.nextID
        = m.nextID + 1 := rfl
    have hids : (ManagerOp.apply m heap (ManagerOp.start state targetValue opts)).2.2
        = [m.nextID] := rfl
    rw [hrun, hnext, hids]
    refine ⟨?_, ?_, ?_, ?_⟩
    · intro k hk
      rcases List.mem_cons.mp hk with h | h
      · omega
      · have := h1 k h
        omega
    · exact List.nodup_cons.mpr ⟨hfresh, h2⟩
    · intro i hi
      rcases List.mem_append.mp hi with h | h
      · have := h3 i h
        omega
      · rw [List.mem_singleton] at h
        omega
    · rw [List.nodup_append]
      refine ⟨h4, List.nodup_singleton _, ?_⟩
      intro a ha hb
      rw [List.mem_singleton] at hb
      have := h3 a ha
      omega
  | update elapsed =>
    have hs := hsub _ (updateLoop_sublist elapsed m.animations heap)
    have hids : (ManagerOp.apply m heap (ManagerOp.update elapsed)).2.2 = [] := rfl
    rw [hids, List.append_nil]
    exact ⟨hs.1, hs.2, h3, h4⟩
  | cancel id =>
    have hs := hsub _ (List.filter_sublist (p := fun e => decide (e.1 ≠ id)) m.animations)
    have hids : (ManagerOp.apply m heap (ManagerOp.cancel id)).2.2 = [] := rfl
    rw [hids, List.append_nil]
    exact ⟨hs.1, hs.2, h3, h4⟩
  | cancelAll =>
    have hids : (ManagerOp.apply m heap ManagerOp.cancelAll).2.2 = [] := rfl
    rw [hids, List.append_nil]
    exact ⟨fun k hk => absurd hk (List.not_mem_nil _), List.nodup_nil, h3, h4⟩

lemma manager_inv_run :
    ∀ (ops : List ManagerOp) (m : AnimationManager) (heap : Heap) (ids : List ℤ),
      (∀ k ∈ m.running, k < m.nextID) → m.running.Nodup →
      (∀ i ∈ ids, i < m.nextID) → ids.Nodup →
      (∀ k ∈ (runManagerFrom m heap ids ops).1.running,
        k < (runManagerFrom m heap ids ops).1.nextID) ∧
      (runManagerFrom m heap ids ops).1.running.Nodup ∧
      (∀ i ∈ (runManagerFrom m heap ids ops).2.2, i < (runManagerFrom m heap ids ops).1.nextID) ∧
      (runManagerFrom m heap ids ops).2.2.Nodup := by
  intro ops
  induction ops with
  | nil =>
    intro m heap ids h1 h2 h3 h4
    exact ⟨h1, h2, h3, h4⟩
  | cons op ops ih =>
    intro m heap ids h1 h2 h3 h4
    obtain ⟨g1, g2, g3, g4⟩ := manager_inv_step m heap ids op h1 h2 h3 h4
    exact ih _ _ _ g1 g2 g3 g4

lemma manager_inv (heap : Heap) (ops : List ManagerOp) :
    (∀ k ∈ (runManager heap ops).1.running, k < (runManager heap ops).1.nextID) ∧
    (runManager heap ops).1.running.Nodup ∧
    (∀ i ∈ (runManager heap ops).2.2, i < (runManager heap ops).1.nextID) ∧
    (runManager heap ops).2.2.Nodup :=
  manager_inv_run ops NewAnimationManager heap []
    (fun _ hk => absurd hk (List.not_mem_nil _)) List.nodup_nil
    (fun _ hi => absurd hi (List.not_mem_nil _)) List.nodup_nil

/-- C34: for the manager `m` reached from `NewAnimationManager()` by any calls of
`Start`, `Update`, `Cancel` and `CancelAll`: the ids the `Start` calls returned are
pairwise distinct; a further `Start` returns an id that was never returned and raises
`Count()` by one; `Cancel(id)` lowers `Count()` by one when `id` is running and
changes nothing when it is not; `CancelAll` makes `Count()` 0; and `IsRunning()`
holds iff `Count() > 0`. -/
theorem AnimationManager_ids_and_count (heap : Heap) (ops : List ManagerOp) :
    (runManager heap ops).2.2.Nodup ∧
    (∀ (state : ℕ) (targetValue : ℚ) (opts : List AnimationOption),
      ((runManager heap ops).1.Start (runManager heap ops).2.1 state targetValue opts).2
        ∉ (runManager heap ops).2.2 ∧
      ((runManager heap ops).1.Start (runManager heap ops).2.1 state targetValue opts).1.Count
        = (runManager heap ops).1.Count + 1) ∧
    (∀ id : ℤ, id ∈ (runManager heap ops).1.running →
      ((runManager heap ops).1.Cancel id).Count = (runManager heap ops).1.Count - 1 ∧
      id ∉ ((runManager heap ops).1.Cancel id).running) ∧
    (∀ id : ℤ, id ∉ (runManager heap ops).1.running →
      ((runManager heap ops).1.Cancel id).animations = (runManager heap ops).1.animations ∧
      ((runManager heap ops).1.Cancel id).Count = (runManager heap ops).1.Count) ∧
    (runManager heap ops).1.CancelAll.Count = 0 ∧
    ((runManager heap ops).1.IsRunning = true ↔ (runManager heap ops).1.Count > 0) := by
  obtain ⟨h1, h2, h3, h4⟩ := manager_inv heap ops
  generalize (runManager heap ops).1 = m at h1 h2 h3 ⊢
  generalize (runManager heap ops).2.1 = hp
  generalize (runManager heap ops).2.2 = ids at h3 h4 ⊢
  have hfresh : m.nextID ∉ m.animations.map Prod.fst := fun h => lt_irrefl _ (h1 _ h)
  refine ⟨h4, fun state targetValue opts => ⟨?_, ?_⟩, fun id hid => ⟨?_, ?_⟩,
    fun id hid => ?_, rfl, ?_⟩
  · intro h
    exact lt_irrefl _ (h3 _ h)
  · show ((AnimationManager.mapSet m.animations m.nextID _).length : ℤ)
      = (m.animations.length : ℤ) + 1
    unfold AnimationManager.mapSet
    rw [filter_ne_eq_self _ _ hfresh, List.length_cons]
    push_cast
    rfl
  · show ((AnimationManager.mapDelete m.animations id).length : ℤ)
      = (m.animations.length : ℤ) - 1
    unfold AnimationManager.mapDelete
    have := filter_ne_length id m.animations h2 hid
    omega
  · show id ∉ List.map Prod.fst (AnimationManager.mapDelete m.animations id)
    unfold AnimationManager.mapDelete
    intro h
    obtain ⟨e, he, hk⟩ := List.mem_map.mp h
    have := (List.mem_filter.mp he).2
    simp only [ne_eq, decide_not, Bool.not_eq_eq_eq_not, Bool.not_true,
      decide_eq_false_iff_not] at this
    exact this hk
  · have heq : (m.Cancel id).animations = m.animations := by
      show AnimationManager.mapDelete m.animations id = m.animations
      unfold AnimationManager.mapDelete
      exact filter_ne_eq_self _ _ hid
    refine ⟨heq, ?_⟩
    show ((m.Cancel id).animations.length : ℤ) = (m.animations.length : ℤ)
    rw [heq]
  · unfold AnimationManager.IsRunning AnimationManager.Count
    rw [decide_eq_true_iff]
    omega

/-- C34 on the calls `Start, Start, Cancel(0), Start, CancelAll, Start`: the ids
returned are `0, 1, 2, 3`, one animation is running, and cancelling it leaves none. -/
theorem AnimationManager_ids_and_count_witness :
    (runManager testHeap
      [ManagerOp.start 0 50 [], ManagerOp.start 0 60 [], ManagerOp.cancel 0,
        ManagerOp.start 0 70 [], ManagerOp.cancelAll, ManagerOp.start 0 80 []]).2.2
      = [0, 1, 2, 3] ∧
    ((runManager testHeap
      [ManagerOp.start 0 50 [], ManagerOp.start 0 60 [], ManagerOp.cancel 0,
        ManagerOp.start 0 70 [], ManagerOp.cancelAll, ManagerOp.start 0 80 []]).1.Cancel 3).Count
      = (runManager testHeap
      [ManagerOp.start 0 50 [], ManagerOp.start 0 60 [], ManagerOp.cancel 0,
        ManagerOp.start 0 70 [], ManagerOp.cancelAll, ManagerOp.start 0 80 []]).1.Count - 1 :=
  ⟨by decide,
    ((AnimationManager_ids_and_count testHeap
      [ManagerOp.start 0 50 [], ManagerOp.start 0 60 [], ManagerOp.cancel 0,
        ManagerOp.start 0 70 [], ManagerOp.cancelAll, ManagerOp.start 0 80 []]).2.2.1 3
      (by decide)).1⟩

/-! ## The progress announcer, call by call -/

lemma ProgressAnnouncer_updates_append :
    ∀ (l1 l2 : List ℤ) (p : ProgressAnnouncer),
      p.updatesAt (l1 ++ l2) =
        (((p.updatesAt l1).1.updatesAt l2).1, (p.updatesAt l1).2 ++ ((p.updatesAt l1).1.updatesAt l2).2) := by
  intro l1
  induction l1 with
  | nil =>
    intro l2 p
    rfl
  | cons st rest ih =>
    intro l2 p
    show (((p.UpdateAt st).1.updatesAt (rest ++ l2)).1,
        (p.UpdateAt st).2 ++ ((p.UpdateAt st).1.updatesAt (rest ++ l2)).2) = _
    rw [ih l2 (p.UpdateAt st).1]
    show _ = ((((p.UpdateAt st).1.updatesAt rest).1.updatesAt l2).1,
      ((p.UpdateAt st).2 ++ ((p.UpdateAt st).1.updatesAt rest).2) ++
        (((p.UpdateAt st).1.updatesAt rest).1.updatesAt l2).2)
    rw [List.append_assoc]

lemma ProgressAnnouncer_Update_split (p : ProgressAnnouncer) (st : ℤ)
    (ha : p.announcer = true) :
    (100 ≤ st ∧ p.lastAnnounced < 100 ∧
      p.UpdateAt st = ({ p with lastAnnounced := 100 }, [Announcement.complete])) ∨
    (¬ (100 ≤ st ∧ p.lastAnnounced < 100) ∧
      Int.tdiv st p.interval * p.interval ≠ p.lastAnnounced ∧
      0 < Int.tdiv st p.interval * p.interval ∧
      Int.tdiv st p.interval * p.interval < 100 ∧
      p.UpdateAt st =
        ({ p with lastAnnounced := Int.tdiv st p.interval * p.interval },
          [Announcement.percent
            (Int.tdiv st p.interval * p.interval)])) ∨
    (¬ (100 ≤ st ∧ p.lastAnnounced < 100) ∧
      ¬ (Int.tdiv st p.interval * p.interval ≠ p.lastAnnounced ∧
        0 < Int.tdiv st p.interval * p.interval ∧
        Int.tdiv st p.interval * p.interval < 100) ∧
      p.UpdateAt st = (p, [])) := by
  unfold ProgressAnnouncer.UpdateAt
  simp only [ha, Bool.true_eq_false, if_false]
  by_cases h1 : st ≥ 100 ∧ p.lastAnnounced < 100
  · left
    exact ⟨h1.1, h1.2, by rw [if_pos h1]⟩
  · right
    by_cases h2 : Int.tdiv st p.interval * p.interval ≠ p.lastAnnounced ∧
        Int.tdiv st p.interval * p.interval > 0 ∧
        Int.tdiv st p.interval * p.interval < 100
    · left
      exact ⟨h1, h2.1, h2.2.1, h2.2.2, by rw [if_neg h1, if_pos h2]⟩
    · right
      exact ⟨h1, h2, by rw [if_neg h1, if_neg h2]⟩

lemma threshold_lt_hundred (iv c : ℤ) (hiv : 0 < iv) (hc : c < 100) :
    Int.tdiv c iv * iv < 100 := by
  rcases tdiv_pos_divisor c iv hiv with ⟨_, he⟩ | ⟨_, hle⟩
  · rw [he]
    have := Int.ediv_mul_le c (ne_of_gt hiv)
    omega
  · have : Int.tdiv c iv * iv ≤ 0 := mul_nonpos_of_nonpos_of_nonneg hle (le_of_lt hiv)
    omega

lemma ProgressAnnouncer_prefix_inv (iv : ℤ) (hiv : 1 ≤ iv) (hdvd : iv ∣ 100) :
    ∀ pre : List ℤ,
      pre.Pairwise (fun a b => a ≤ b) →
      ((NewProgressAnnouncer iv true).updatesAt pre).1.interval = iv ∧
      ((NewProgressAnnouncer iv true).updatesAt pre).1.announcer = true ∧
      ((∃ st ∈ pre, 100 ≤ st) →
        ((NewProgressAnnouncer iv true).updatesAt pre).1.lastAnnounced = 100) ∧
      ((∀ st ∈ pre, st < 100) →
        (((NewProgressAnnouncer iv true).updatesAt pre).1.lastAnnounced = -1 ∧
          ∀ st ∈ pre, Int.tdiv st iv * iv ≤ 0) ∨
        (0 < ((NewProgressAnnouncer iv true).updatesAt pre).1.lastAnnounced ∧
          ((NewProgressAnnouncer iv true).updatesAt pre).1.lastAnnounced < 100 ∧
          (∃ st ∈ pre, Int.tdiv st iv * iv =
            ((NewProgressAnnouncer iv true).updatesAt pre).1.lastAnnounced) ∧
          ∀ st ∈ pre, Int.tdiv st iv * iv ≤
            ((NewProgressAnnouncer iv true).updatesAt pre).1.lastAnnounced)) := by
  have hiv0 : 0 < iv := by omega
  intro pre
  induction pre using List.reverseRecOn with
  | nil =>
    intro _
    refine ⟨?_, rfl, ?_, ?_⟩
    · show (if iv < 1 then 10 else iv) = iv
      rw [if_neg (by omega)]
    · rintro ⟨st, hst, _⟩
      exact absurd hst (List.not_mem_nil _)
    · intro _
      exact Or.inl ⟨rfl, fun st hst => absurd hst (List.not_mem_nil _)⟩
  | append_singleton pre s ih =>
    intro hsorted
    rw [List.pairwise_append] at hsorted
    obtain ⟨hpre, _, hle⟩ := hsorted
    have hle' : ∀ st ∈ pre, st ≤ s :=
      fun st hst => hle _ hst _ (by simp)
    obtain ⟨hi, ha, hbig, hsmall⟩ := ih hpre
    have hq : ((NewProgressAnnouncer iv true).updatesAt (pre ++ [s])).1 =
        (((NewProgressAnnouncer iv true).updatesAt pre).1.UpdateAt s).1 := by
      rw [ProgressAnnouncer_updates_append]
      rfl
    rw [hq]
    generalize ((NewProgressAnnouncer iv true).updatesAt pre).1 = q at hi ha hbig hsmall ⊢
    have hsbig : (∃ st ∈ pre ++ [s], 100 ≤ st) →
        100 ≤ s := by
      rintro ⟨st, hst, h⟩
      rcases List.mem_append.mp hst with h' | h'
      · exact le_trans h (hle' st h')
      · rw [List.mem_singleton] at h'
        rw [← h']
        exact h
    rcases ProgressAnnouncer_Update_split q s ha with ⟨hc, hl, hu⟩ | ⟨hn, hne, h0, h100, hu⟩ |
      ⟨hn, hn2, hu⟩
    · rw [hu]
      refine ⟨hi, ha, fun _ => rfl, fun hall => ?_⟩
      have := hall s (by simp)
      omega
    · rw [hu]
      rw [hi] at hne h0 h100 ⊢
      refine ⟨rfl, ha, fun hex => ?_, fun hall => ?_⟩
      · have := threshold_ge_hundred iv _ hiv0 hdvd (hsbig hex)
        omega
      · right
        refine ⟨h0, h100, ⟨s, by simp, rfl⟩, fun st hst => ?_⟩
        rcases List.mem_append.mp hst with h' | h'
        · rcases hsmall (fun st' hst' => hall st' (List.mem_append_left _ hst')) with
            ⟨_, hz⟩ | ⟨hpos, _, ⟨st'', hst'', heq⟩, hmax⟩
          · have := hz st h'
            show _ ≤ Int.tdiv s iv * iv
            omega
          · have h1 := hmax st h'
            have h2 := threshold_mono iv _ _ hiv0 (by rw [heq]; exact hpos) (hle' st'' hst'')
            show _ ≤ Int.tdiv s iv * iv
            omega
        · rw [List.mem_singleton] at h'
          rw [h']
    · rw [hu]
      rw [hi] at hn2
      dsimp only
      refine ⟨hi, ha, fun hex => ?_, fun hall => ?_⟩
      · have hs100 := hsbig hex
        have hlast : 100 ≤ q.lastAnnounced := by
          by_contra hcon
          exact hn ⟨hs100, not_le.mp hcon⟩
        by_cases hex' : ∃ st ∈ pre, 100 ≤ st
        · exact hbig hex'
        · exfalso
          have hall' : ∀ st ∈ pre, st < 100 := by
            intro st hst
            by_contra hcon
            exact hex' ⟨st, hst, not_lt.mp hcon⟩
          rcases hsmall hall' with ⟨h, _⟩ | ⟨_, h, _⟩ <;> omega
      · have hs : s < 100 := hall s (by simp)
        have hthr := threshold_lt_hundred iv _ hiv0 hs
        have hcase : Int.tdiv s iv * iv = q.lastAnnounced ∨
            Int.tdiv s iv * iv ≤ 0 := by
          by_contra hcon
          rw [not_or] at hcon
          exact hn2 ⟨hcon.1, by omega, hthr⟩
        rcases hsmall (fun st' hst' => hall st' (List.mem_append_left _ hst')) with
          ⟨hm, hz⟩ | ⟨hpos, hlt, ⟨st'', hst'', heq⟩, hmax⟩
        · left
          refine ⟨hm, fun st hst => ?_⟩
          rcases List.mem_append.mp hst with h' | h'
          · exact hz st h'
          · rw [List.mem_singleton] at h'
            rw [h']
            omega
        · right
          refine ⟨hpos, hlt, ⟨st'', List.mem_append_left _ hst'', heq⟩, fun st hst => ?_⟩
          rcases List.mem_append.mp hst with h' | h'
          · exact hmax st h'
          · rw [List.mem_singleton] at h'
            rw [h']
            omega

/-- C31: for a fresh announcer with a callback and an interval `iv ≥ 1` dividing 100,
fed integer percentages that do not decrease (the values `int(state.Percentage() * 100)`
of the calls, whatever `float64` makes them), the `Update` call at the percentage `st`
that follows the percentages `pre` announces, with `t = (st div iv) * iv`:
at `st ≥ 100` only `Complete`, and only if no earlier percentage reached 100;
at `st < 100` the threshold `t` if `0 < t` and no earlier call had the threshold `t`,
and nothing otherwise; `100 percent` is never announced; interval 25 through
0, 25, 30, 50, 75, 100 announces 25, 50, 75 and `Complete`, four announcements, also
when the percentages are computed in `float64` from the values 0, ..., 100 of
`[0, 100]`; and `Update` on a state is this call at `pctOf` of the state. -/
theorem ProgressAnnouncer_thresholds (iv : ℤ) (pre post : List ℤ) (st : ℤ)
    (hiv : 1 ≤ iv) (hdvd : iv ∣ 100)
    (hsorted : (pre ++ st :: post).Pairwise (fun a b => a ≤ b)) :
    ((NewProgressAnnouncer iv true).updatesAt (pre ++ st :: post)).2 =
      ((NewProgressAnnouncer iv true).updatesAt pre).2 ++
        ((((NewProgressAnnouncer iv true).updatesAt pre).1.UpdateAt st).2 ++
          ((((NewProgressAnnouncer iv true).updatesAt pre).1.UpdateAt st).1.updatesAt post).2) ∧
    (100 ≤ st →
      ((∀ s ∈ pre, s < 100) →
        (((NewProgressAnnouncer iv true).updatesAt pre).1.UpdateAt st).2 = [Announcement.complete]) ∧
      ((∃ s ∈ pre, 100 ≤ s) →
        (((NewProgressAnnouncer iv true).updatesAt pre).1.UpdateAt st).2 = [])) ∧
    (st < 100 →
      ((0 < Int.tdiv st iv * iv ∧
          ∀ s ∈ pre, Int.tdiv s iv * iv ≠
            Int.tdiv st iv * iv) →
        (((NewProgressAnnouncer iv true).updatesAt pre).1.UpdateAt st).2 =
          [Announcement.percent (Int.tdiv st iv * iv)]) ∧
      (¬ (0 < Int.tdiv st iv * iv ∧
          ∀ s ∈ pre, Int.tdiv s iv * iv ≠
            Int.tdiv st iv * iv) →
        (((NewProgressAnnouncer iv true).updatesAt pre).1.UpdateAt st).2 = [])) ∧
    Announcement.percent 100 ∉ ((NewProgressAnnouncer iv true).updatesAt (pre ++ st :: post)).2 ∧
    ((NewProgressAnnouncer 25 true).updatesAt [0, 25, 30, 50, 75, 100]).2 =
      [Announcement.percent 25, Announcement.percent 50, Announcement.percent 75,
        Announcement.complete] ∧
    ((NewProgressAnnouncer 25 true).updates
        [{ min := 0, max := 100, value := 0, step := 1 },
         { min := 0, max := 100, value := 25, step := 1 },
         { min := 0, max := 100, value := 30, step := 1 },
         { min := 0, max := 100, value := 50, step := 1 },
         { min := 0, max := 100, value := 75, step := 1 },
         { min := 0, max := 100, value := 100, step := 1 }]).2 =
      [Announcement.percent 25, Announcement.percent 50, Announcement.percent 75,
        Announcement.complete] ∧
    (∀ (p : ProgressAnnouncer) (state : SliderState),
      p.Update state = p.UpdateAt (ProgressAnnouncer.pctOf state)) ∧
    (∀ (p : ProgressAnnouncer) (states : List SliderState),
      p.updates states = p.updatesAt (states.map ProgressAnnouncer.pctOf)) := by
  have hiv0 : 0 < iv := by omega
  have hsorted' := hsorted
  rw [List.pairwise_append] at hsorted'
  obtain ⟨hpre, _, hle⟩ := hsorted'
  have hle' : ∀ s ∈ pre, s ≤ st :=
    fun s hs => hle _ hs _ (by simp)
  obtain ⟨hi, ha, hbig, hsmall⟩ := ProgressAnnouncer_prefix_inv iv hiv hdvd pre hpre
  have hfresh_iv : (NewProgressAnnouncer iv true).interval = iv := by
    show (if iv < 1 then 10 else iv) = iv
    rw [if_neg (by omega)]
  have hlog := ProgressAnnouncer_log iv hiv0 hdvd (pre ++ st :: post)
    (NewProgressAnnouncer iv true) hfresh_iv rfl hsorted
    (fun s _ => ⟨fun _ => by
        show Int.tdiv s iv * iv ≤ 0 ∨
          (-1 : ℤ) ≤ Int.tdiv s iv * iv
        omega,
      fun h => by
        have h' : (100 : ℤ) ≤ -1 := h
        omega⟩)
  refine ⟨?_, fun h100 => ⟨fun hall => ?_, fun hex => ?_⟩,
    fun hlt => ⟨fun hnew => ?_, fun hold => ?_⟩, ?_, by decide, ?_, fun _ _ => rfl,
    ProgressAnnouncer_updates_eq⟩
  · rw [ProgressAnnouncer_updates_append]
    rfl
  · generalize ((NewProgressAnnouncer iv true).updatesAt pre).1 = q at hi ha hbig hsmall ⊢
    have hlast : q.lastAnnounced < 100 := by
      rcases hsmall hall with ⟨h, _⟩ | ⟨_, h, _⟩ <;> omega
    rcases ProgressAnnouncer_Update_split q st ha with ⟨_, _, hu⟩ | ⟨hn, _⟩ | ⟨hn, _⟩
    · rw [hu]
    · exact absurd ⟨h100, hlast⟩ hn
    · exact absurd ⟨h100, hlast⟩ hn
  · generalize ((NewProgressAnnouncer iv true).updatesAt pre).1 = q at hi ha hbig hsmall ⊢
    have hlast : q.lastAnnounced = 100 := hbig hex
    rcases ProgressAnnouncer_Update_split q st ha with ⟨_, hl, _⟩ | ⟨_, _, _, hthr, _⟩ |
      ⟨_, _, hu⟩
    · omega
    · rw [hi] at hthr
      have := threshold_ge_hundred iv _ hiv0 hdvd h100
      omega
    · rw [hu]
  · generalize ((NewProgressAnnouncer iv true).updatesAt pre).1 = q at hi ha hbig hsmall ⊢
    have hall : ∀ s ∈ pre, s < 100 :=
      fun s hs => lt_of_le_of_lt (hle' s hs) hlt
    have hthr := threshold_lt_hundred iv _ hiv0 hlt
    have hne : Int.tdiv st iv * iv ≠ q.lastAnnounced := by
      rcases hsmall hall with ⟨h, _⟩ | ⟨_, _, ⟨s, hs, heq⟩, _⟩
      · omega
      · rw [← heq]
        exact Ne.symm (hnew.2 s hs)
    rcases ProgressAnnouncer_Update_split q st ha with ⟨hc, _, _⟩ | ⟨_, _, _, _, hu⟩ |
      ⟨_, hn2, _⟩
    · omega
    · rw [hu, hi]
    · rw [hi] at hn2
      exact absurd ⟨hne, hnew.1, hthr⟩ hn2
  · generalize ((NewProgressAnnouncer iv true).updatesAt pre).1 = q at hi ha hbig hsmall ⊢
    have hall : ∀ s ∈ pre, s < 100 :=
      fun s hs => lt_of_le_of_lt (hle' s hs) hlt
    rcases ProgressAnnouncer_Update_split q st ha with ⟨hc, _, _⟩ | ⟨_, hne, h0, _, _⟩ |
      ⟨_, _, hu⟩
    · omega
    · exfalso
      rw [hi] at hne h0
      apply hold
      refine ⟨h0, fun s hs => ?_⟩
      rcases hsmall hall with ⟨_, hz⟩ | ⟨hpos, _, ⟨s', hs', heq⟩, hmax⟩
      · have := hz s hs
        omega
      · have h1 := hmax s hs
        have h2 := threshold_mono iv _ _ hiv0 (by rw [heq]; exact hpos) (hle' s' hs')
        omega
    · rw [hu]
  · intro hmem
    rcases hlog.2 _ hmem with ⟨h, _⟩ | ⟨t, ht, _, h2⟩
    · exact Announcement.noConfusion h
    · have := Announcement.percent.inj ht
      omega
  · rw [ProgressAnnouncer_updates_eq]
    simp only [List.map, pctOf_value_0, pctOf_value_25, pctOf_value_30, pctOf_value_50,
      pctOf_value_75, pctOf_value_100]
    decide

/-- C31 with interval 25 at the last of the percentages 0, 25, 30, 50, 75, 100: that
call announces `Complete` only. -/
theorem ProgressAnnouncer_thresholds_witness :
    (((NewProgressAnnouncer 25 true).updatesAt [0, 25, 30, 50, 75]).1.UpdateAt 100).2
      = [Announcement.complete] :=
  ((ProgressAnnouncer_thresholds 25 [0, 25, 30, 50, 75] [] 100 (by decide) (by decide)
    (by decide)).2.1 (by decide)).1 (by decide)

/-! ## The value model over `float64` values: NaN and the infinities -/

lemma F64_lt_num (a b : WithBot (WithTop ℚ)) : F64.lt (F64.num a) (F64.num b) = true ↔ a < b := by
  show decide (a < b) = true ↔ a < b
  exact decide_eq_true_iff

lemma F64_le_num (a b : WithBot (WithTop ℚ)) : F64.le (F64.num a) (F64.num b) = true ↔ a ≤ b := by
  show decide (a ≤ b) = true ↔ a ≤ b
  exact decide_eq_true_iff

lemma F64_lt_nan_left (b : F64) : F64.lt F64.nan b = false := rfl

lemma F64_lt_nan_right (a : F64) : F64.lt a F64.nan = false := by
  cases a <;> rfl

lemma F64_le_nan_left (b : F64) : F64.le F64.nan b = false := rfl

lemma F64_le_nan_right (a : F64) : F64.le a F64.nan = false := by
  cases a <;> rfl

lemma F64_exists_num (v : F64) (hv : v ≠ F64.nan) : ∃ x, v = F64.num x := by
  cases v with
  | nan => exact absurd rfl hv
  | num x => exact ⟨x, rfl⟩

lemma F64_le_true (a b : F64) (h : F64.le a b = true) :
    ∃ x y, a = F64.num x ∧ b = F64.num y ∧ x ≤ y := by
  cases a with
  | nan => exact absurd h (by simp [F64_le_nan_left])
  | num x =>
    cases b with
    | nan => exact absurd h (by simp [F64_le_nan_right])
    | num y => exact ⟨x, y, rfl, rfl, (F64_le_num x y).mp h⟩

lemma F64_lt_true (a b : F64) (h : F64.lt a b = true) :
    ∃ x y, a = F64.num x ∧ b = F64.num y ∧ x < y := by
  cases a with
  | nan => exact absurd h (by simp [F64_lt_nan_left])
  | num x =>
    cases b with
    | nan => exact absurd h (by simp [F64_lt_nan_right])
    | num y => exact ⟨x, y, rfl, rfl, (F64_lt_num x y).mp h⟩

lemma IEEE_clamp_num (s : IEEE.SliderState) (a b x : WithBot (WithTop ℚ))
    (ha : s.min = F64.num a) (hb : s.max = F64.num b) :
    s.clamp (F64.num x) =
      if x < a then F64.num a else if b < x then F64.num b else F64.num x := by
  unfold IEEE.SliderState.clamp F64.gt
  rw [ha, hb]
  simp only [F64_lt_num]

lemma IEEE_clamp_nan (s : IEEE.SliderState) : s.clamp F64.nan = F64.nan := by
  unfold IEEE.SliderState.clamp F64.gt
  rw [F64_lt_nan_left, F64_lt_nan_right]
  rfl

/-- C1 as stated fails for `v = NaN`: on the state `min = 0, max = 100`, `SetValue(NaN)`
stores NaN, and neither `min <= value` nor `value <= max` holds of it. -/
theorem SetValue_stores_NaN :
    (IEEE.SliderState.SetValue (IEEE.NewState []) F64.nan).value = F64.nan ∧
    F64.le (IEEE.NewState []).min (IEEE.NewState []).max = true ∧
    F64.le (IEEE.NewState []).min
      (IEEE.SliderState.SetValue (IEEE.NewState []) F64.nan).value = false ∧
    F64.le (IEEE.SliderState.SetValue (IEEE.NewState []) F64.nan).value
      (IEEE.NewState []).max = false := by
  have h : (IEEE.SliderState.SetValue (IEEE.NewState []) F64.nan).value = F64.nan :=
    IEEE_clamp_nan (IEEE.NewState [])
  refine ⟨h, by decide, ?_, ?_⟩
  · rw [h, F64_le_nan_right]
  · rw [h, F64_le_nan_left]

/-- C1, amended: for a `float64` state with `min <= max` and every `v` other than NaN
(finite or infinite), `SetValue(v)` leaves the value in `[min, max]`; it is `v` when
`min <= v <= max`, `min` when `v < min` and `max` when `v > max`; `min`, `max` and
`step` are unchanged. -/
theorem SetValue_clamps_float (s : IEEE.SliderState) (v : F64)
    (h : F64.le s.min s.max = true) (hv : v ≠ F64.nan) :
    (F64.le s.min (s.SetValue v).value = true ∧ F64.le (s.SetValue v).value s.max = true) ∧
    (F64.le s.min v = true → F64.le v s.max = true → (s.SetValue v).value = v) ∧
    (F64.lt v s.min = true → (s.SetValue v).value = s.min) ∧
    (F64.gt v s.max = true → (s.SetValue v).value = s.max) ∧
    (s.SetValue v).min = s.min ∧ (s.SetValue v).max = s.max ∧
    (s.SetValue v).step = s.step := by
  obtain ⟨a, b, ha, hb, hab⟩ := F64_le_true _ _ h
  obtain ⟨x, hx⟩ := F64_exists_num v hv
  have hval : (s.SetValue v).value =
      if x < a then F64.num a else if b < x then F64.num b else F64.num x := by
    rw [hx]
    exact IEEE_clamp_num s a b x ha hb
  refine ⟨?_, ?_, ?_, ?_, rfl, rfl, rfl⟩
  · rw [hval, ha, hb]
    split_ifs with h1 h2
    · exact ⟨(F64_le_num _ _).mpr le_rfl, (F64_le_num _ _).mpr hab⟩
    · exact ⟨(F64_le_num _ _).mpr hab, (F64_le_num _ _).mpr le_rfl⟩
    · exact ⟨(F64_le_num _ _).mpr (not_lt.mp h1), (F64_le_num _ _).mpr (not_lt.mp h2)⟩
  · intro h1 h2
    rw [ha, hx, F64_le_num] at h1
    rw [hb, hx, F64_le_num] at h2
    rw [hval, if_neg (not_lt.mpr h1), if_neg (not_lt.mpr h2), hx]
  · intro h1
    rw [ha, hx, F64_lt_num] at h1
    rw [hval, if_pos h1, ha]
  · intro h2
    unfold F64.gt at h2
    rw [hb, hx, F64_lt_num] at h2
    rw [hval, if_neg (not_lt.mpr (le_trans hab (le_of_lt h2))), if_pos h2, hb]

/-- C1, amended, at `min=0, max=100`: `SetValue(+Inf)` stores `100`. -/
theorem SetValue_clamps_float_witness :
    (IEEE.SliderState.SetValue (IEEE.NewState []) (F64.num ⊤)).value = F64.ofRat 100 :=
  (SetValue_clamps_float (IEEE.NewState []) (F64.num ⊤) (by decide)
    (fun h => F64.noConfusion h)).2.2.2.1 (by decide)

/-- C37 as stated fails for `v = NaN`: on a state with `min = 10 > max = 5`,
`SetValue(NaN)` stores NaN, which is neither bound. -/
theorem SetValue_inverted_NaN :
    (IEEE.SliderState.SetValue
      { min := F64.ofRat 10, max := F64.ofRat 5, value := F64.ofRat 10, step := F64.ofRat 1 }
      F64.nan).value = F64.nan ∧
    F64.gt (F64.ofRat 10) (F64.ofRat 5) = true ∧
    F64.lt F64.nan (F64.ofRat 10) = false ∧
    F64.nan ≠ F64.ofRat 10 ∧ F64.nan ≠ F64.ofRat 5 :=
  ⟨IEEE_clamp_nan
      { min := F64.ofRat 10, max := F64.ofRat 5, value := F64.ofRat 10, step := F64.ofRat 1 },
    by decide, rfl, fun h => F64.noConfusion h, fun h => F64.noConfusion h⟩

/-- C37, amended: when `min > max`, for every `v` other than NaN, `SetValue(v)`
stores `min` if `v < min` and `max` otherwise, so the stored value is one of the two
bounds. -/
theorem SetValue_inverted_float (s : IEEE.SliderState) (v : F64)
    (h : F64.gt s.min s.max = true) (hv : v ≠ F64.nan) :
    (F64.lt v s.min = true → (s.SetValue v).value = s.min) ∧
    (F64.lt v s.min = false → (s.SetValue v).value = s.max) ∧
    ((s.SetValue v).value = s.min ∨ (s.SetValue v).value = s.max) := by
  obtain ⟨b, a, hb, ha, hba⟩ := F64_lt_true _ _ h
  obtain ⟨x, hx⟩ := F64_exists_num v hv
  have hval : (s.SetValue v).value =
      if x < a then F64.num a else if b < x then F64.num b else F64.num x := by
    rw [hx]
    exact IEEE_clamp_num s a b x ha hb
  have h1 : F64.lt v s.min = true → (s.SetValue v).value = s.min := by
    intro hlt
    rw [ha, hx, F64_lt_num] at hlt
    rw [hval, if_pos hlt, ha]
  have h2 : F64.lt v s.min = false → (s.SetValue v).value = s.max := by
    intro hlt
    have hnot : ¬ x < a := by
      intro hxa
      rw [ha, hx, (F64_lt_num x a).mpr hxa] at hlt
      exact Bool.noConfusion hlt
    rw [hval, if_neg hnot, if_pos (lt_of_lt_of_le hba (not_lt.mp hnot)), hb]
  refine ⟨h1, h2, ?_⟩
  cases hc : F64.lt v s.min
  · exact Or.inr (h2 hc)
  · exact Or.inl (h1 hc)

/-- C37, amended, at `min = 10, max = 5`: `SetValue(7)` stores `10`. -/
theorem SetValue_inverted_float_witness :
    (IEEE.SliderState.SetValue
      { min := F64.ofRat 10, max := F64.ofRat 5, value := F64.ofRat 10, step := F64.ofRat 1 }
      (F64.ofRat 7)).value = F64.ofRat 10 :=
  (SetValue_inverted_float
    { min := F64.ofRat 10, max := F64.ofRat 5, value := F64.ofRat 10, step := F64.ofRat 1 }
    (F64.ofRat 7) (by decide) (fun h => F64.noConfusion h)).1 (by decide)

/-! ## The reachable `float64` states: the step and the bounds -/

lemma IEEE_option_step (o : IEEE.OptionCall) (s : IEEE.SliderState)
    (ho : o.stepNaN = false) (h : F64.gt s.step (F64.ofRat 0) = true) :
    F64.gt (o.toOption s).step (F64.ofRat 0) = true := by
  cases o with
  | withMin m => exact h
  | withMax m => exact h
  | withValue v => exact h
  | withStep st =>
    cases st with
    | nan => exact absurd ho (by decide)
    | num x =>
      show F64.gt (if F64.le (F64.num x) (F64.ofRat 0) = true then F64.ofRat 1 else F64.num x)
        (F64.ofRat 0) = true
      by_cases hx : F64.le (F64.num x) (F64.ofRat 0) = true
      · rw [if_pos hx]
        decide
      · rw [if_neg hx]
        unfold F64.gt F64.ofRat
        rw [F64_lt_num]
        unfold F64.ofRat at hx
        rw [F64_le_num] at hx
        exact not_le.mp hx

lemma IEEE_options_step (opts : List IEEE.OptionCall) :
    ∀ s : IEEE.SliderState, (∀ o ∈ opts, o.stepNaN = false) →
      F64.gt s.step (F64.ofRat 0) = true →
      F64.gt ((opts.map IEEE.OptionCall.toOption).foldl (fun s opt => opt s) s).step
        (F64.ofRat 0) = true := by
  induction opts with
  | nil =>
    intro s _ h
    exact h
  | cons o rest ih =>
    intro s ho h
    exact ih (o.toOption s) (fun o' ho' => ho o' (List.mem_cons_of_mem _ ho'))
      (IEEE_option_step o s (ho o (List.mem_cons_self _ _)) h)

lemma IEEE_SetStep_step (s : IEEE.SliderState) (st : F64)
    (h : F64.gt s.step (F64.ofRat 0) = true) :
    F64.gt (s.SetStep st).step (F64.ofRat 0) = true := by
  unfold IEEE.SliderState.SetStep
  by_cases hst : F64.gt st (F64.ofRat 0) = true
  · rw [if_pos hst]
    exact hst
  · rw [if_neg hst]
    exact h

lemma IEEE_apply_step (ar : IEEE.Arith) (s : IEEE.SliderState) (m : IEEE.Mutation)
    (h : F64.gt s.step (F64.ofRat 0) = true) :
    F64.gt (m.apply ar s).step (F64.ofRat 0) = true := by
  cases m with
  | setValue v => exact h
  | setMin x => exact h
  | setMax x => exact h
  | setStep st => exact IEEE_SetStep_step s st h
  | increment => exact h
  | decrement => exact h
  | setFromPercentage p => exact h

lemma IEEE_foldl_step (ar : IEEE.Arith) (ms : List IEEE.Mutation) :
    ∀ s : IEEE.SliderState, F64.gt s.step (F64.ofRat 0) = true →
      F64.gt (ms.foldl (IEEE.Mutation.apply ar) s).step (F64.ofRat 0) = true := by
  induction ms with
  | nil =>
    intro s h
    exact h
  | cons m rest ih =>
    intro s h
    exact ih _ (IEEE_apply_step ar s m h)

/-- C7 as stated fails for the option `WithStep(NaN)`: the test `step <= 0` is false
for NaN, so NaN is stored, and `Step() > 0` is false in `NewState(WithStep(NaN))`. -/
theorem WithStep_stores_NaN :
    (IEEE.NewState [IEEE.WithStep F64.nan]).Step = F64.nan ∧
    F64.gt (IEEE.NewState [IEEE.WithStep F64.nan]).Step (F64.ofRat 0) = false :=
  ⟨rfl, rfl⟩

/-- C7, amended: over `float64` values (NaN and the infinities included) and whatever
the results of `+`, `-` and `*` are, `Step() > 0` in every state reachable from
`NewState` with any options other than `WithStep(NaN)` (`WithStep` of a zero or
negative number included) by any sequence of mutator calls with any arguments; and
`SetStep(st)` with `st <= 0` returns the state unchanged. -/
theorem Step_pos_float (ar : IEEE.Arith) (opts : List IEEE.OptionCall)
    (ms : List IEEE.Mutation) (s : IEEE.SliderState) (st : F64)
    (hopts : ∀ o ∈ opts, o.stepNaN = false) :
    F64.gt (IEEE.reach ar opts ms).Step (F64.ofRat 0) = true ∧
    (F64.le st (F64.ofRat 0) = true → s.SetStep st = s) := by
  constructor
  · apply IEEE_foldl_step
    exact IEEE_options_step opts
      { min := F64.ofRat 0, max := F64.ofRat 100, value := F64.ofRat 0, step := F64.ofRat 1 }
      hopts (by decide)
  · intro h
    obtain ⟨x, y, hx, hy, hxy⟩ := F64_le_true _ _ h
    unfold IEEE.SliderState.SetStep
    have hgt : F64.gt st (F64.ofRat 0) = false := by
      unfold F64.gt
      rw [hx, hy]
      cases hc : F64.lt (F64.num y) (F64.num x)
      · rfl
      · exact absurd ((F64_lt_num y x).mp hc) (not_lt.mpr hxy)
    rw [hgt]
    rfl

/-- C7, amended, at `NewState(WithStep(-5))` followed by `SetStep(NaN)` and
`SetStep(0)`: the step is positive, and `SetStep(-10)` changes nothing. -/
theorem Step_pos_float_witness :
    F64.gt (IEEE.reach IEEE.exactArith [IEEE.OptionCall.withStep (F64.ofRat (-5))]
      [IEEE.Mutation.setStep F64.nan, IEEE.Mutation.setStep (F64.ofRat 0)]).Step
      (F64.ofRat 0) = true ∧
    IEEE.SliderState.SetStep (IEEE.NewState []) (F64.ofRat (-10)) = IEEE.NewState [] :=
  ⟨(Step_pos_float IEEE.exactArith [IEEE.OptionCall.withStep (F64.ofRat (-5))]
      [IEEE.Mutation.setStep F64.nan, IEEE.Mutation.setStep (F64.ofRat 0)]
      (IEEE.NewState []) (F64.ofRat (-10)) (by decide)).1,
    (Step_pos_float IEEE.exactArith [IEEE.OptionCall.withStep (F64.ofRat (-5))]
      [IEEE.Mutation.setStep F64.nan, IEEE.Mutation.setStep (F64.ofRat 0)]
      (IEEE.NewState []) (F64.ofRat (-10)) (by decide)).2 (by decide)⟩

lemma F64_finite_iff (a : F64) : a.finite = true ↔ ∃ q : ℚ, a = F64.ofRat q := by
  constructor
  · intro h
    cases a with
    | nan => exact absurd h (by decide)
    | num x =>
      match x, h with
      | some (some q), _ => exact ⟨q, rfl⟩
  · rintro ⟨q, rfl⟩
    rfl

lemma F64_le_ofRat (a b : ℚ) : F64.le (F64.ofRat a) (F64.ofRat b) = true ↔ a ≤ b := by
  unfold F64.ofRat
  rw [F64_le_num, WithBot.coe_le_coe, WithTop.coe_le_coe]

lemma F64_ofRat_ne_nan (q : ℚ) : F64.ofRat q ≠ F64.nan := fun h => F64.noConfusion h

lemma IEEE_clamp_between (s : IEEE.SliderState) (mn mx : ℚ) (x : F64)
    (hmin : s.min = F64.ofRat mn) (hmax : s.max = F64.ofRat mx) (hx : x ≠ F64.nan) :
    ∃ c : ℚ, s.clamp x = F64.ofRat c ∧ mn ⊓ mx ≤ c ∧ c ≤ mn ⊔ mx := by
  obtain ⟨e, rfl⟩ := F64_exists_num x hx
  rw [IEEE_clamp_num s _ _ e hmin hmax]
  by_cases h1 : e < ((mn : WithTop ℚ) : WithBot (WithTop ℚ))
  · rw [if_pos h1]
    exact ⟨mn, rfl, inf_le_left, le_sup_left⟩
  · rw [if_neg h1]
    by_cases h2 : ((mx : WithTop ℚ) : WithBot (WithTop ℚ)) < e
    · rw [if_pos h2]
      exact ⟨mx, rfl, inf_le_right, le_sup_right⟩
    · rw [if_neg h2]
      induction e using WithBot.recBotCoe with
      | bot => exact absurd (WithBot.bot_lt_coe _) h1
      | coe t =>
        induction t using WithTop.recTopCoe with
        | top =>
          exfalso
          apply h2
          rw [WithBot.coe_lt_coe]
          exact WithTop.coe_lt_top mx
        | coe q =>
          rw [WithBot.coe_lt_coe, WithTop.coe_lt_coe] at h1 h2
          exact ⟨q, rfl, le_trans inf_le_left (not_lt.mp h1),
            le_trans (not_lt.mp h2) le_sup_right⟩

/-- What the clamping mutators keep of a `float64` state: the four fields are finite
and the value lies between the two bounds, whichever is the larger. -/
lemma IEEE_apply_between (ar : IEEE.Arith)
    (hadd : ∀ a b : F64, a.finite = true → b.finite = true → ar.add a b ≠ F64.nan)
    (hsub : ∀ a b : F64, a.finite = true → b.finite = true → ar.sub a b ≠ F64.nan)
    (s : IEEE.SliderState) (m : IEEE.Mutation) (hm : m.finiteClamping = true)
    (h : ∃ mn mx v st : ℚ, s.min = F64.ofRat mn ∧ s.max = F64.ofRat mx ∧
      s.value = F64.ofRat v ∧ s.step = F64.ofRat st ∧ mn ⊓ mx ≤ v ∧ v ≤ mn ⊔ mx) :
    ∃ mn mx v st : ℚ, (m.apply ar s).min = F64.ofRat mn ∧ (m.apply ar s).max = F64.ofRat mx ∧
      (m.apply ar s).value = F64.ofRat v ∧ (m.apply ar s).step = F64.ofRat st ∧
      mn ⊓ mx ≤ v ∧ v ≤ mn ⊔ mx := by
  obtain ⟨mn, mx, v, st, hmin, hmax, hval, hstep, hlo, hhi⟩ := h
  cases m with
  | setValue x =>
    obtain ⟨q, rfl⟩ := (F64_finite_iff x).mp hm
    obtain ⟨c, hc, h1, h2⟩ := IEEE_clamp_between s mn mx _ hmin hmax (F64_ofRat_ne_nan q)
    exact ⟨mn, mx, c, st, hmin, hmax, hc, hstep, h1, h2⟩
  | setMin x =>
    obtain ⟨q, rfl⟩ := (F64_finite_iff x).mp hm
    obtain ⟨c, hc, h1, h2⟩ := IEEE_clamp_between { s with min := F64.ofRat q } q mx s.value
      rfl hmax (by rw [hval]; exact F64_ofRat_ne_nan v)
    exact ⟨q, mx, c, st, rfl, hmax, hc, hstep, h1, h2⟩
  | setMax x =>
    obtain ⟨q, rfl⟩ := (F64_finite_iff x).mp hm
    obtain ⟨c, hc, h1, h2⟩ := IEEE_clamp_between { s with max := F64.ofRat q } mn q s.value
      hmin rfl (by rw [hval]; exact F64_ofRat_ne_nan v)
    exact ⟨mn, q, c, st, hmin, rfl, hc, hstep, h1, h2⟩
  | setStep x =>
    obtain ⟨q, rfl⟩ := (F64_finite_iff x).mp hm
    have hcase : IEEE.Mutation.apply ar s (IEEE.Mutation.setStep (F64.ofRat q)) =
          { s with step := F64.ofRat q } ∨
        IEEE.Mutation.apply ar s (IEEE.Mutation.setStep (F64.ofRat q)) = s := by
      show s.SetStep (F64.ofRat q) = _ ∨ s.SetStep (F64.ofRat q) = s
      unfold IEEE.SliderState.SetStep
      by_cases hq : F64.gt (F64.ofRat q) (F64.ofRat 0) = true
      · left
        rw [if_pos hq]
      · right
        rw [if_neg hq]
    rcases hcase with hc | hc
    · rw [hc]
      exact ⟨mn, mx, v, q, hmin, hmax, hval, rfl, hlo, hhi⟩
    · rw [hc]
      exact ⟨mn, mx, v, st, hmin, hmax, hval, hstep, hlo, hhi⟩
  | increment =>
    have hne : ar.add s.value s.step ≠ F64.nan :=
      hadd _ _ ((F64_finite_iff _).mpr ⟨v, hval⟩) ((F64_finite_iff _).mpr ⟨st, hstep⟩)
    obtain ⟨c, hc, h1, h2⟩ := IEEE_clamp_between s mn mx _ hmin hmax hne
    exact ⟨mn, mx, c, st, hmin, hmax, hc, hstep, h1, h2⟩
  | decrement =>
    have hne : ar.sub s.value s.step ≠ F64.nan :=
      hsub _ _ ((F64_finite_iff _).mpr ⟨v, hval⟩) ((F64_finite_iff _).mpr ⟨st, hstep⟩)
    obtain ⟨c, hc, h1, h2⟩ := IEEE_clamp_between s mn mx _ hmin hmax hne
    exact ⟨mn, mx, c, st, hmin, hmax, hc, hstep, h1, h2⟩
  | setFromPercentage p => exact Bool.noConfusion hm

lemma IEEE_foldl_between (ar : IEEE.Arith)
    (hadd : ∀ a b : F64, a.finite = true → b.finite = true → ar.add a b ≠ F64.nan)
    (hsub : ∀ a b : F64, a.finite = true → b.finite = true → ar.sub a b ≠ F64.nan)
    (ms : List IEEE.Mutation) :
    ∀ s : IEEE.SliderState, (∀ m ∈ ms, m.finiteClamping = true) →
      (∃ mn mx v st : ℚ, s.min = F64.ofRat mn ∧ s.max = F64.ofRat mx ∧
        s.value = F64.ofRat v ∧ s.step = F64.ofRat st ∧ mn ⊓ mx ≤ v ∧ v ≤ mn ⊔ mx) →
      ∃ mn mx v st : ℚ, (ms.foldl (IEEE.Mutation.apply ar) s).min = F64.ofRat mn ∧
        (ms.foldl (IEEE.Mutation.apply ar) s).max = F64.ofRat mx ∧
        (ms.foldl (IEEE.Mutation.apply ar) s).value = F64.ofRat v ∧
        (ms.foldl (IEEE.Mutation.apply ar) s).step = F64.ofRat st ∧
        mn ⊓ mx ≤ v ∧ v ≤ mn ⊔ mx := by
  induction ms with
  | nil =>
    intro s _ h
    exact h
  | cons m rest ih =>
    intro s hms h
    exact ih _ (fun m' hm' => hms m' (List.mem_cons_of_mem _ hm'))
      (IEEE_apply_between ar hadd hsub s m (hms m (List.mem_cons_self _ _)) h)

lemma IEEE_option_finite (o : IEEE.OptionCall) (s : IEEE.SliderState) (ho : o.finite = true)
    (h : ∃ mn mx v st : ℚ, s.min = F64.ofRat mn ∧ s.max = F64.ofRat mx ∧
      s.value = F64.ofRat v ∧ s.step = F64.ofRat st) :
    ∃ mn mx v st : ℚ, (o.toOption s).min = F64.ofRat mn ∧ (o.toOption s).max = F64.ofRat mx ∧
      (o.toOption s).value = F64.ofRat v ∧ (o.toOption s).step = F64.ofRat st := by
  obtain ⟨mn, mx, v, st, hmin, hmax, hval, hstep⟩ := h
  cases o with
  | withMin x =>
    obtain ⟨q, rfl⟩ := (F64_finite_iff x).mp ho
    exact ⟨q, mx, v, st, rfl, hmax, hval, hstep⟩
  | withMax x =>
    obtain ⟨q, rfl⟩ := (F64_finite_iff x).mp ho
    exact ⟨mn, q, v, st, hmin, rfl, hval, hstep⟩
  | withValue x =>
    obtain ⟨q, rfl⟩ := (F64_finite_iff x).mp ho
    exact ⟨mn, mx, q, st, hmin, hmax, rfl, hstep⟩
  | withStep x =>
    obtain ⟨q, rfl⟩ := (F64_finite_iff x).mp ho
    by_cases hq : F64.le (F64.ofRat q) (F64.ofRat 0) = true
    · refine ⟨mn, mx, v, 1, hmin, hmax, hval, ?_⟩
      show (if F64.le (F64.ofRat q) (F64.ofRat 0) = true then F64.ofRat 1 else F64.ofRat q) = _
      rw [if_pos hq]
    · refine ⟨mn, mx, v, q, hmin, hmax, hval, ?_⟩
      show (if F64.le (F64.ofRat q) (F64.ofRat 0) = true then F64.ofRat 1 else F64.ofRat q) = _
      rw [if_neg hq]

lemma IEEE_options_finite (opts : List IEEE.OptionCall) :
    ∀ s : IEEE.SliderState, (∀ o ∈ opts, o.finite = true) →
      (∃ mn mx v st : ℚ, s.min = F64.ofRat mn ∧ s.max = F64.ofRat mx ∧
        s.value = F64.ofRat v ∧ s.step = F64.ofRat st) →
      ∃ mn mx v st : ℚ,
        ((opts.map IEEE.OptionCall.toOption).foldl (fun s opt => opt s) s).min = F64.ofRat mn ∧
        ((opts.map IEEE.OptionCall.toOption).foldl (fun s opt => opt s) s).max = F64.ofRat mx ∧
        ((opts.map IEEE.OptionCall.toOption).foldl (fun s opt => opt s) s).value = F64.ofRat v ∧
        ((opts.map IEEE.OptionCall.toOption).foldl (fun s opt => opt s) s).step = F64.ofRat st := by
  induction opts with
  | nil =>
    intro s _ h
    exact h
  | cons o rest ih =>
    intro s ho h
    exact ih (o.toOption s) (fun o' ho' => ho o' (List.mem_cons_of_mem _ ho'))
      (IEEE_option_finite o s (ho o (List.mem_cons_self _ _)) h)

lemma IEEE_NewState_between (opts : List IEEE.OptionCall) (ho : ∀ o ∈ opts, o.finite = true) :
    ∃ mn mx v st : ℚ, (IEEE.NewState (opts.map IEEE.OptionCall.toOption)).min = F64.ofRat mn ∧
      (IEEE.NewState (opts.map IEEE.OptionCall.toOption)).max = F64.ofRat mx ∧
      (IEEE.NewState (opts.map IEEE.OptionCall.toOption)).value = F64.ofRat v ∧
      (IEEE.NewState (opts.map IEEE.OptionCall.toOption)).step = F64.ofRat st ∧
      mn ⊓ mx ≤ v ∧ v ≤ mn ⊔ mx := by
  obtain ⟨mn, mx, v, st, hmin, hmax, hval, hstep⟩ := IEEE_options_finite opts
    { min := F64.ofRat 0, max := F64.ofRat 100, value := F64.ofRat 0, step := F64.ofRat 1 }
    ho ⟨0, 100, 0, 1, rfl, rfl, rfl, rfl⟩
  have hne := F64_ofRat_ne_nan v
  rw [← hval] at hne
  obtain ⟨c, hc, h1, h2⟩ := IEEE_clamp_between _ mn mx _ hmin hmax hne
  exact ⟨mn, mx, c, st, hmin, hmax, hc, hstep, h1, h2⟩

lemma exactArith_add_ne_nan (a b : F64) (ha : a.finite = true) (hb : b.finite = true) :
    IEEE.exactArith.add a b ≠ F64.nan := by
  obtain ⟨x, rfl⟩ := (F64_finite_iff a).mp ha
  obtain ⟨y, rfl⟩ := (F64_finite_iff b).mp hb
  exact F64_ofRat_ne_nan (x + y)

lemma exactArith_sub_ne_nan (a b : F64) (ha : a.finite = true) (hb : b.finite = true) :
    IEEE.exactArith.sub a b ≠ F64.nan := by
  obtain ⟨x, rfl⟩ := (F64_finite_iff a).mp ha
  obtain ⟨y, rfl⟩ := (F64_finite_iff b).mp hb
  exact F64_ofRat_ne_nan (x - y)

/-- C2, amended.  Over `float64` values, whatever the results of `+` and `-` are as
long as they are not NaN on finite operands: in every state reachable from `NewState`
(any options with finite arguments) by any sequence of `SetValue`, `SetMin`, `SetMax`,
`SetStep`, `Increment` and `Decrement` with finite arguments, the value is finite and
lies between the two bounds, whichever of them is the larger; in particular
`min <= value <= max` whenever `min <= max` in that state.  With `SetFromPercentage`
in the sequence the same holds in exact arithmetic. -/
theorem value_between_bounds_float (ar : IEEE.Arith)
    (hadd : ∀ a b : F64, a.finite = true → b.finite = true → ar.add a b ≠ F64.nan)
    (hsub : ∀ a b : F64, a.finite = true → b.finite = true → ar.sub a b ≠ F64.nan)
    (opts : List IEEE.OptionCall) (ms : List IEEE.Mutation)
    (hopts : ∀ o ∈ opts, o.finite = true) (hms : ∀ m ∈ ms, m.finiteClamping = true)
    (qopts : List OptionCall) (qms : List Mutation) :
    ((IEEE.reach ar opts ms).value.finite = true ∧
      (F64.le (IEEE.reach ar opts ms).min (IEEE.reach ar opts ms).value = true ∨
        F64.le (IEEE.reach ar opts ms).max (IEEE.reach ar opts ms).value = true) ∧
      (F64.le (IEEE.reach ar opts ms).value (IEEE.reach ar opts ms).min = true ∨
        F64.le (IEEE.reach ar opts ms).value (IEEE.reach ar opts ms).max = true) ∧
      (F64.le (IEEE.reach ar opts ms).min (IEEE.reach ar opts ms).max = true →
        F64.le (IEEE.reach ar opts ms).min (IEEE.reach ar opts ms).value = true ∧
        F64.le (IEEE.reach ar opts ms).value (IEEE.reach ar opts ms).max = true)) ∧
    (((reach qopts qms).min ⊓ (reach qopts qms).max ≤ (reach qopts qms).value ∧
        (reach qopts qms).value ≤ (reach qopts qms).min ⊔ (reach qopts qms).max) ∧
      ((reach qopts qms).min ≤ (reach qopts qms).max →
        (reach qopts qms).min ≤ (reach qopts qms).value ∧
          (reach qopts qms).value ≤ (reach qopts qms).max)) := by
  constructor
  · obtain ⟨mn, mx, v, st, hmin, hmax, hval, -, hlo, hhi⟩ :=
      IEEE_foldl_between ar hadd hsub ms _ hms (IEEE_NewState_between opts hopts)
    have hmin' : (IEEE.reach ar opts ms).min = F64.ofRat mn := hmin
    have hmax' : (IEEE.reach ar opts ms).max = F64.ofRat mx := hmax
    have hval' : (IEEE.reach ar opts ms).value = F64.ofRat v := hval
    rw [hmin', hmax', hval']
    simp only [F64_le_ofRat]
    refine ⟨rfl, inf_le_iff.mp hlo, le_sup_iff.mp hhi, fun h => ?_⟩
    rw [inf_eq_left.mpr h] at hlo
    rw [sup_eq_right.mpr h] at hhi
    exact ⟨hlo, hhi⟩
  · obtain ⟨h1, h2, -⟩ := reach_inv qopts qms
    refine ⟨⟨h1, h2⟩, fun h => ?_⟩
    rw [inf_eq_left.mpr h] at h1
    rw [sup_eq_right.mpr h] at h2
    exact ⟨h1, h2⟩

/-- C2, amended, at `NewState(WithMin(0), WithMax(100), WithValue(250))` followed by
`SetMin(50)` and `Increment`: the bounds are ordered and the value is inside them. -/
theorem value_between_bounds_float_witness :
    F64.le
      (IEEE.reach IEEE.exactArith
        [IEEE.OptionCall.withMin (F64.ofRat 0), IEEE.OptionCall.withMax (F64.ofRat 100),
          IEEE.OptionCall.withValue (F64.ofRat 250)]
        [IEEE.Mutation.setMin (F64.ofRat 50), IEEE.Mutation.increment]).min
      (IEEE.reach IEEE.exactArith
        [IEEE.OptionCall.withMin (F64.ofRat 0), IEEE.OptionCall.withMax (F64.ofRat 100),
          IEEE.OptionCall.withValue (F64.ofRat 250)]
        [IEEE.Mutation.setMin (F64.ofRat 50), IEEE.Mutation.increment]).value = true ∧
    F64.le
      (IEEE.reach IEEE.exactArith
        [IEEE.OptionCall.withMin (F64.ofRat 0), IEEE.OptionCall.withMax (F64.ofRat 100),
          IEEE.OptionCall.withValue (F64.ofRat 250)]
        [IEEE.Mutation.setMin (F64.ofRat 50), IEEE.Mutation.increment]).value
      (IEEE.reach IEEE.exactArith
        [IEEE.OptionCall.withMin (F64.ofRat 0), IEEE.OptionCall.withMax (F64.ofRat 100),
          IEEE.OptionCall.withValue (F64.ofRat 250)]
        [IEEE.Mutation.setMin (F64.ofRat 50), IEEE.Mutation.increment]).max = true :=
  (value_between_bounds_float IEEE.exactArith exactArith_add_ne_nan exactArith_sub_ne_nan
    [IEEE.OptionCall.withMin (F64.ofRat 0), IEEE.OptionCall.withMax (F64.ofRat 100),
      IEEE.OptionCall.withValue (F64.ofRat 250)]
    [IEEE.Mutation.setMin (F64.ofRat 50), IEEE.Mutation.increment]
    (by decide) (by decide) [] []).1.2.2.2 (by decide)

/-! ## `float64` rounding: general facts -/

lemma roundHalfEven_nonneg (q : ℚ) (h : 0 ≤ q) : 0 ≤ roundHalfEven q := by
  unfold roundHalfEven
  have hf : 0 ≤ ⌊q⌋ := Int.floor_nonneg.mpr h
  simp only []
  split_ifs <;> omega

lemma round64_nonneg (q : ℚ) (h : 0 ≤ q) : 0 ≤ round64 q := by
  unfold round64
  split_ifs with h0
  · exact le_rfl
  · simp only []
    apply mul_nonneg
    · exact_mod_cast roundHalfEven_nonneg _
        (div_nonneg h (le_of_lt (zpow_pos (by norm_num) _)))
    · exact le_of_lt (zpow_pos (by norm_num) _)

lemma roundHalfEven_intCast (n : ℤ) : roundHalfEven (n : ℚ) = n := by
  unfold roundHalfEven
  simp only [Int.floor_intCast, sub_self]
  rw [if_pos (by norm_num)]

lemma roundHalfEven_tie_even (f : ℤ) (hf : f % 2 = 0) :
    roundHalfEven ((f : ℚ) + 1 / 2) = f := by
  have hfl : ⌊(f : ℚ) + 1 / 2⌋ = f := by
    rw [Int.floor_eq_iff]
    constructor <;> norm_num
  unfold roundHalfEven
  simp only [hfl, add_sub_cancel_left, lt_irrefl, if_false, hf, if_true]

lemma round64_tie_even (q : ℚ) (e f : ℤ) (hq : 0 < q) (he : -1022 ≤ e)
    (hlo : (2 : ℚ) ^ e ≤ q) (hhi : q < (2 : ℚ) ^ (e + 1)) (hf : f % 2 = 0)
    (h : q / 2 ^ (e - 52) = (f : ℚ) + 1 / 2) :
    round64 q = (f : ℚ) * 2 ^ (e - 52) := by
  have hlog : Int.log 2 |q| = e := by
    rw [abs_of_pos hq]
    have ha : e ≤ Int.log 2 q :=
      (Int.zpow_le_iff_le_log (by norm_num) hq).mp (by exact_mod_cast hlo)
    have hb : Int.log 2 q < e + 1 :=
      (Int.lt_zpow_iff_log_lt (by norm_num) hq).mp (by exact_mod_cast hhi)
    omega
  unfold round64
  rw [if_neg (ne_of_gt hq)]
  simp only [hlog, max_eq_left he]
  rw [h, roundHalfEven_tie_even f hf]

lemma roundHalfEven_tie_odd (f : ℤ) (hf : f % 2 = 1) :
    roundHalfEven ((f : ℚ) + 1 / 2) = f + 1 := by
  have hfl : ⌊(f : ℚ) + 1 / 2⌋ = f := by
    rw [Int.floor_eq_iff]
    constructor <;> norm_num
  have hne : ¬ f % 2 = 0 := by omega
  unfold roundHalfEven
  simp only [hfl, add_sub_cancel_left, lt_irrefl, if_false, hne]

lemma round64_tie_odd (q : ℚ) (e f : ℤ) (hq : 0 < q) (he : -1022 ≤ e)
    (hlo : (2 : ℚ) ^ e ≤ q) (hhi : q < (2 : ℚ) ^ (e + 1)) (hf : f % 2 = 1)
    (h : q / 2 ^ (e - 52) = (f : ℚ) + 1 / 2) :
    round64 q = ((f + 1 : ℤ) : ℚ) * 2 ^ (e - 52) := by
  have hlog : Int.log 2 |q| = e := by
    rw [abs_of_pos hq]
    have ha : e ≤ Int.log 2 q :=
      (Int.zpow_le_iff_le_log (by norm_num) hq).mp (by exact_mod_cast hlo)
    have hb : Int.log 2 q < e + 1 :=
      (Int.lt_zpow_iff_log_lt (by norm_num) hq).mp (by exact_mod_cast hhi)
    omega
  unfold round64
  rw [if_neg (ne_of_gt hq)]
  simp only [hlog, max_eq_left he]
  rw [h, roundHalfEven_tie_odd f hf]

/-- An integer below `2^53` is a `float64`: the conversion `float64(n)` is exact. -/
lemma round64_intCast (n : ℤ) (h0 : 0 ≤ n) (h : n < 2 ^ 53) : round64 (n : ℚ) = n := by
  rcases eq_or_lt_of_le h0 with h1 | h1
  · rw [← h1]
    exact_mod_cast round64_zero
  · have hq : (0 : ℚ) < (n : ℚ) := by exact_mod_cast h1
    have he0 : 0 ≤ Int.log 2 (n : ℚ) :=
      (Int.zpow_le_iff_le_log (by norm_num) hq).mp (by
        rw [zpow_zero]
        exact_mod_cast h1)
    have he1 : Int.log 2 (n : ℚ) < 53 :=
      (Int.lt_zpow_iff_log_lt (by norm_num) hq).mp (by exact_mod_cast h)
    obtain ⟨k, hk⟩ : ∃ k : ℕ, Int.log 2 (n : ℚ) - 52 = -(k : ℤ) :=
      ⟨(52 - Int.log 2 (n : ℚ)).toNat, by omega⟩
    unfold round64
    rw [if_neg (ne_of_gt hq)]
    simp only [abs_of_pos hq, max_eq_left (by omega : (-1022 : ℤ) ≤ Int.log 2 (n : ℚ)), hk]
    rw [zpow_neg, zpow_natCast, div_inv_eq_mul]
    have hcast : (n : ℚ) * 2 ^ k = ((n * 2 ^ k : ℤ) : ℚ) := by
      push_cast
      rfl
    rw [hcast, roundHalfEven_intCast]
    push_cast
    field_simp

lemma truncToInt_nonneg (q : ℚ) (h : 0 ≤ q) : 0 ≤ truncToInt q := by
  unfold truncToInt
  rw [if_pos h]
  exact Int.floor_nonneg.mpr h

lemma truncToInt_intCast (n : ℤ) : truncToInt (n : ℚ) = n := by
  unfold truncToInt
  split_ifs
  · exact Int.floor_intCast n
  · exact Int.ceil_intCast n

lemma Float64_scale_nonneg (n : ℤ) (pct : ℚ) (hn : 0 ≤ n) (hp : 0 ≤ pct) :
    0 ≤ Float64.scale n pct := by
  unfold Float64.scale
  apply truncToInt_nonneg
  apply round64_nonneg
  exact mul_nonneg (round64_nonneg _ (by exact_mod_cast hn)) hp

lemma Float64_scale_zero (n : ℤ) : Float64.scale n 0 = 0 := by
  unfold Float64.scale
  rw [mul_zero, round64_zero]
  exact truncToInt_intCast 0

lemma Float64_scale_one (n : ℤ) (h0 : 0 ≤ n) (h : n < 2 ^ 53) : Float64.scale n 1 = n := by
  unfold Float64.scale
  rw [mul_one, round64_intCast n h0 h, round64_intCast n h0 h]
  exact truncToInt_intCast n

/-! ## `Contains` and the width of `int` -/

lemma wrapInt64_of_range (n : ℤ) (h1 : -2 ^ 63 ≤ n) (h2 : n < 2 ^ 63) : wrapInt64 n = n := by
  unfold wrapInt64
  norm_num at h1 h2 ⊢
  omega

/-- C35 as stated fails where a sum wraps.  On the box `X = 9223372036854775800`,
`Width = 100` the sum `X + Width` wraps to `-9223372036854775716`, and the point
`x = 9223372036854775805`, which has `X ≤ x < X + Width`, is rejected.  On the box
`X = -2^63`, `Width = -1` the sum wraps to `2^63 - 1`, and the point `(0, 5)` is
accepted although `Width ≤ 0`. -/
theorem Contains_wraps :
    MouseState.Contains64 { X := 9223372036854775800, Y := 0, Width := 100, Height := 10 }
      9223372036854775805 5 = false ∧
    ((9223372036854775800 : ℤ) ≤ 9223372036854775805 ∧
      (9223372036854775805 : ℤ) < 9223372036854775800 + 100 ∧
      (0 : ℤ) ≤ 5 ∧ (5 : ℤ) < 0 + 10) ∧
    wrapInt64 (9223372036854775800 + 100) = -9223372036854775716 ∧
    MouseState.Contains64 { X := -9223372036854775808, Y := 0, Width := -1, Height := 10 }
      0 5 = true ∧
    wrapInt64 (-9223372036854775808 + -1) = 9223372036854775807 := by
  decide

/-- C35, amended: when the sums `X + Width` and `Y + Height` do not overflow `int`
(they lie in `[-2^63, 2^63)`), `Contains(x, y)` is true iff `X ≤ x < X + Width` and
`Y ≤ y < Y + Height`; it is then false for every point when `Width ≤ 0` or
`Height ≤ 0`, and equal to the `Contains` that adds without wrap-around. -/
theorem Contains_iff_no_overflow (m : MouseState) (x y : ℤ)
    (hX : -2 ^ 63 ≤ m.X + m.Width ∧ m.X + m.Width < 2 ^ 63)
    (hY : -2 ^ 63 ≤ m.Y + m.Height ∧ m.Y + m.Height < 2 ^ 63) :
    (m.Contains64 x y = true ↔
      (m.X ≤ x ∧ x < m.X + m.Width) ∧ (m.Y ≤ y ∧ y < m.Y + m.Height)) ∧
    (m.Width ≤ 0 ∨ m.Height ≤ 0 → m.Contains64 x y = false) ∧
    m.Contains64 x y = m.Contains x y := by
  have hiff : m.Contains64 x y = true ↔
      (m.X ≤ x ∧ x < m.X + m.Width) ∧ (m.Y ≤ y ∧ y < m.Y + m.Height) := by
    unfold MouseState.Contains64
    rw [wrapInt64_of_range _ hX.1 hX.2, wrapInt64_of_range _ hY.1 hY.2]
    simp only [Bool.and_eq_true, decide_eq_true_eq, ge_iff_le]
    tauto
  refine ⟨hiff, fun h => ?_, ?_⟩
  · cases hc : m.Contains64 x y
    · rfl
    · exfalso
      have := hiff.mp hc
      omega
  · unfold MouseState.Contains64 MouseState.Contains
    rw [wrapInt64_of_range _ hX.1 hX.2, wrapInt64_of_range _ hY.1 hY.2]

/-- C35, amended, at the box `(10, 20, 0, 50)` of width 0: the corner `(10, 20)` is
outside; at the box `(10, 20, 100, 50)` it is inside. -/
theorem Contains_iff_no_overflow_witness :
    MouseState.Contains64 { X := 10, Y := 20, Width := 0, Height := 50 } 10 20 = false ∧
    MouseState.Contains64 { X := 10, Y := 20, Width := 100, Height := 50 } 10 20 = true :=
  ⟨(Contains_iff_no_overflow { X := 10, Y := 20, Width := 0, Height := 50 } 10 20
      (by decide) (by decide)).2.1 (Or.inl (by decide)),
    (Contains_iff_no_overflow { X := 10, Y := 20, Width := 100, Height := 50 } 10 20
      (by decide) (by decide)).1.mpr (by decide)⟩

/-! ## `SetFromPercentage` in `float64` -/

lemma Float64_SetFromPercentage_eval (s : SliderState) (p d pd v : ℚ) (hp0 : 0 ≤ p)
    (hp1 : p ≤ 1) (h1 : round64 (s.max - s.min) = d) (h2 : round64 (p * d) = pd)
    (h3 : round64 (s.min + pd) = v) : (Float64.SetFromPercentage s p).value = v := by
  show round64 (s.min + round64 ((if (if p < 0 then 0 else p) > 1 then 1
    else (if p < 0 then 0 else p)) * round64 (s.max - s.min))) = v
  rw [if_neg (not_lt.mpr hp0), if_neg (not_lt.mpr hp1), h1, h2, h3]

lemma round64_three_tenths : round64 (3 / 10) = 5404319552844595 / 18014398509481984 :=
  (by
      rw [round64_eq (3 / 10) (-2) 5404319552844595 (by norm_num) (by norm_num) (by norm_num)
        (by norm_num) (by norm_num) (by norm_num)]
      norm_num)

lemma round64_nine_tenths : round64 (9 / 10) = 8106479329266893 / 9007199254740992 :=
  (by
      rw [round64_eq (9 / 10) (-1) 8106479329266893 (by norm_num) (by norm_num) (by norm_num)
        (by norm_num) (by norm_num) (by norm_num)]
      norm_num)

/-- On the bounds `0.3` and `0.9`, `SetFromPercentage(1)` stores `0.9000000000000001`
in `float64`. -/
lemma Float64_SetFromPercentage_overshoot :
    (Float64.SetFromPercentage
      { min := 5404319552844595 / 18014398509481984, max := 8106479329266893 / 9007199254740992, value := 5404319552844595 / 18014398509481984, step := 1 } 1).value
      = 4053239664633447 / 4503599627370496 :=
  Float64_SetFromPercentage_eval _ 1 (1351079888211149 / 2251799813685248) (1351079888211149 / 2251799813685248) (4053239664633447 / 4503599627370496)
    (by norm_num) (by norm_num)
    (by
      show round64 (8106479329266893 / 9007199254740992 - 5404319552844595 / 18014398509481984) = _
      exact (by
      rw [round64_tie_odd (8106479329266893 / 9007199254740992 - 5404319552844595 / 18014398509481984) (-1) 5404319552844595 (by norm_num) (by norm_num) (by norm_num)
        (by norm_num) (by decide) (by norm_num)]
      norm_num))
    (by
      rw [round64_eq (1 * (1351079888211149 / 2251799813685248)) (-1) 5404319552844596 (by norm_num) (by norm_num) (by norm_num)
        (by norm_num) (by norm_num) (by norm_num)]
      norm_num)
    (by
      show round64 (5404319552844595 / 18014398509481984 + 1351079888211149 / 2251799813685248) = _
      exact (by
      rw [round64_tie_odd (5404319552844595 / 18014398509481984 + 1351079888211149 / 2251799813685248) (-1) 8106479329266893 (by norm_num) (by norm_num) (by norm_num)
        (by norm_num) (by decide) (by norm_num)]
      norm_num))

/-- C6 fails on the code.  With `min = 0.3` and `max = 0.9` (the `float64` values of
these literals, the state of `NewState(WithMin(0.3), WithMax(0.9))`),
`SetFromPercentage(1)` computes `0.3 + 1*(0.9 - 0.3)` in `float64` and stores
`0.9000000000000001`, one unit in the last place above `max`: not exactly `max`, and
not in `[min, max]`.  The value is written without `clamp`, which would have
returned `max`; in exact arithmetic the sum is `max`. -/
theorem SetFromPercentage_exceeds_max :
    round64 (3 / 10) = 5404319552844595 / 18014398509481984 ∧
    round64 (9 / 10) = 8106479329266893 / 9007199254740992 ∧
    NewState [WithMin (5404319552844595 / 18014398509481984), WithMax (8106479329266893 / 9007199254740992)]
      = { min := 5404319552844595 / 18014398509481984, max := 8106479329266893 / 9007199254740992, value := 5404319552844595 / 18014398509481984, step := 1 } ∧
    (Float64.SetFromPercentage
      { min := 5404319552844595 / 18014398509481984, max := 8106479329266893 / 9007199254740992, value := 5404319552844595 / 18014398509481984, step := 1 } 1).value
      = 4053239664633447 / 4503599627370496 ∧
    (5404319552844595 / 18014398509481984 : ℚ) ≤ 8106479329266893 / 9007199254740992 ∧
    (8106479329266893 / 9007199254740992 : ℚ) < 4053239664633447 / 4503599627370496 ∧
    SliderState.clamp
      { min := 5404319552844595 / 18014398509481984, max := 8106479329266893 / 9007199254740992, value := 5404319552844595 / 18014398509481984, step := 1 }
      (4053239664633447 / 4503599627370496) = 8106479329266893 / 9007199254740992 ∧
    (SliderState.SetFromPercentage
      { min := 5404319552844595 / 18014398509481984, max := 8106479329266893 / 9007199254740992, value := 5404319552844595 / 18014398509481984, step := 1 } 1).value
      = 8106479329266893 / 9007199254740992 := by
  refine ⟨round64_three_tenths, round64_nine_tenths, ?_, Float64_SetFromPercentage_overshoot,
    by norm_num, by norm_num, ?_, ?_⟩
  · norm_num [NewState, WithMin, WithMax, SliderState.clamp]
  · norm_num [SliderState.clamp]
  · norm_num [SliderState.SetFromPercentage]

/-- C2 as stated fails.  After `NewState()` and `SetMin(200)` the state has
`min = 200`, `max = 100`, `value = 200`, so `min ≤ value ≤ max` does not hold.
After `NewState()` and `SetValue(NaN)` the value is NaN, which no comparison places
between the bounds.  And on the bounds `0.3 ≤ 0.9`, `SetFromPercentage(1)`, which
writes the value without `clamp`, stores `0.9000000000000001 > max` in `float64`. -/
theorem value_in_bounds_fails :
    ¬ ((reach [] [Mutation.setMin 200]).min ≤ (reach [] [Mutation.setMin 200]).value ∧
       (reach [] [Mutation.setMin 200]).value ≤ (reach [] [Mutation.setMin 200]).max) ∧
    ((IEEE.reach IEEE.exactArith [] [IEEE.Mutation.setValue F64.nan]).value = F64.nan ∧
      F64.le (IEEE.reach IEEE.exactArith [] [IEEE.Mutation.setValue F64.nan]).min
        (IEEE.reach IEEE.exactArith [] [IEEE.Mutation.setValue F64.nan]).value = false ∧
      F64.le (IEEE.reach IEEE.exactArith [] [IEEE.Mutation.setValue F64.nan]).value
        (IEEE.reach IEEE.exactArith [] [IEEE.Mutation.setValue F64.nan]).max = false) ∧
    ((Float64.SetFromPercentage
        { min := 5404319552844595 / 18014398509481984, max := 8106479329266893 / 9007199254740992, value := 5404319552844595 / 18014398509481984, step := 1 } 1).value
        = 4053239664633447 / 4503599627370496 ∧
      (5404319552844595 / 18014398509481984 : ℚ) ≤ 8106479329266893 / 9007199254740992 ∧
      (8106479329266893 / 9007199254740992 : ℚ) < 4053239664633447 / 4503599627370496) := by
  have hv : (reach [] [Mutation.setMin 200]).value = 200 := by decide
  have hm : (reach [] [Mutation.setMin 200]).max = 100 := by decide
  have hnan : (IEEE.reach IEEE.exactArith [] [IEEE.Mutation.setValue F64.nan]).value
      = F64.nan := IEEE_clamp_nan (IEEE.NewState [])
  refine ⟨?_, ⟨hnan, ?_, ?_⟩, Float64_SetFromPercentage_overshoot, by norm_num, by norm_num⟩
  · rw [hv, hm]
    norm_num
  · rw [hnan, F64_le_nan_right]
  · rw [hnan, F64_le_nan_left]

/-! ## The track builders in `float64` -/

lemma Float64_Percentage_58 :
    Float64.Percentage { min := 0, max := 100, value := 58, step := 1 } = 5224175567749775 / 9007199254740992 :=
  Float64_Percentage_eval 100 58 (5224175567749775 / 9007199254740992) (by norm_num)
    (by
      rw [round64_eq (58) (5) 8162774324609024 (by norm_num) (by norm_num) (by norm_num)
        (by norm_num) (by norm_num) (by norm_num)]
      norm_num)
    (by
      rw [round64_eq (100) (6) 7036874417766400 (by norm_num) (by norm_num) (by norm_num)
        (by norm_num) (by norm_num) (by norm_num)]
      norm_num)
    (by
      rw [round64_eq (58 / 100) (-1) 5224175567749775 (by norm_num) (by norm_num) (by norm_num)
        (by norm_num) (by norm_num) (by norm_num)]
      norm_num)

lemma Float64_scale_50 : Float64.scale 50 (5224175567749775 / 9007199254740992) = 28 := by
  unfold Float64.scale
  have h50 : round64 ((50 : ℤ) : ℚ) = 50 := by
    show round64 (50 : ℚ) = 50
    exact (by
      rw [round64_eq (50) (5) 7036874417766400 (by norm_num) (by norm_num) (by norm_num)
        (by norm_num) (by norm_num) (by norm_num)]
      norm_num)
  rw [h50]
  have hprod : round64 (50 * (5224175567749775 / 9007199254740992)) = 8162774324609023 / 281474976710656 :=
    (by
      rw [round64_eq (50 * (5224175567749775 / 9007199254740992)) (4) 8162774324609023 (by norm_num) (by norm_num) (by norm_num)
        (by norm_num) (by norm_num) (by norm_num)]
      norm_num)
  rw [hprod]
  exact truncToInt_eq (8162774324609023 / 281474976710656) 28 (by norm_num) (by norm_num) (by norm_num)

lemma floor_50_of_58 :
    ⌊((50 : ℤ) : ℚ) * SliderState.Percentage { min := 0, max := 100, value := 58, step := 1 }⌋ = 29 := by
  have hp : SliderState.Percentage { min := 0, max := 100, value := 58, step := 1 } = 29 / 50 := by
    norm_num [SliderState.Percentage]
  rw [hp, Int.floor_eq_iff]
  norm_num

lemma Float64_buildVerticalTrackAt_rows (pct : ℚ) (s : Slider) :
    Float64.buildVerticalTrackAt pct s =
      (List.range s.height.toNat).map (fun n : ℕ => Float64.specVerticalRow pct s (n : ℤ)) := by
  unfold Float64.buildVerticalTrackAt
  refine (foldl_step_eq_map _ _ (fun n : ℕ => Float64.specVerticalRow pct s (n : ℤ)) ?_ []).trans
    (List.nil_append _)
  intro acc n
  unfold Float64.specVerticalRow
  simp only [ite_gt_eq_min, clamp_row_eq]
  cases s.showHandle
  · simp only [Bool.false_eq_true, false_and, if_false]
    split_ifs <;> rfl
  · simp only [true_and, if_true]
    split_ifs <;> rfl

lemma Float64_buildSegmentedHorizontalTrackAt_layout (pct : ℚ) (s : Slider) :
    Float64.buildSegmentedHorizontalTrackAt pct s =
      ((List.range (specSegmentCount s).toNat).map
        (fun n : ℕ => Float64.specSegment pct s (n : ℤ))).intersperse
          (Piece.gap s.segmentGap) := by
  unfold Float64.buildSegmentedHorizontalTrackAt
  simp only [segmentCount_eq]
  simp only [ite_gt_eq_min, ite_ge_eq_min]
  apply foldl_gap_step_eq_intersperse
  intro acc n
  unfold Float64.specSegment
  simp only []
  cases s.showHandle
  · simp only [Bool.false_eq_true, false_and, if_false]
    split_ifs <;> rfl
  · simp only [true_and, if_true]
    split_ifs <;> rfl

lemma Float64_specFilled_bounds (sw : String → ℕ) (pct : ℚ) (s : Slider)
    (hw : handleColumns sw s ≤ s.width) (hp0 : 0 ≤ pct) :
    0 ≤ Float64.specFilled sw pct s ∧
      Float64.specFilled sw pct s ≤ s.width - handleColumns sw s := by
  have hav : 0 ≤ s.width - handleColumns sw s := by linarith
  exact ⟨le_min (Float64_scale_nonneg _ _ hav hp0) hav, min_le_right _ _⟩

lemma Float64_buildHorizontalTrackAt_run (sw : String → ℕ) (s : Slider) (pct : ℚ) (fuel : ℕ)
    (hseg : s.segmented = false)
    (hf : sw s.symbols.Filled = 1) (he : sw s.symbols.Empty = 1)
    (hw : handleColumns sw s ≤ s.width) (hp0 : 0 ≤ pct)
    (hfuel : s.width.toNat < fuel) :
    Float64.buildHorizontalTrackAt sw fuel pct s
      = some (Float64.specHorizontalTrack sw pct s) := by
  have hh0 : 0 ≤ handleColumns sw s := by
    unfold handleColumns
    split_ifs
    · exact Int.natCast_nonneg _
    · exact le_rfl
  have hav : 0 ≤ s.width - handleColumns sw s := by linarith
  obtain ⟨hsf0, hsf1⟩ := Float64_specFilled_bounds sw pct s hw hp0
  have hwn : 0 ≤ s.width := by linarith
  have hav' : ¬ (s.width - handleColumns sw s < 0) := not_lt.mpr hav
  have hfilled : (if Float64.scale (s.width - handleColumns sw s) pct
        > s.width - handleColumns sw s then s.width - handleColumns sw s
      else Float64.scale (s.width - handleColumns sw s) pct)
      = Float64.specFilled sw pct s := by
    unfold Float64.specFilled
    split_ifs with hgt
    · rw [min_eq_right (le_of_lt hgt)]
    · rw [min_eq_left (not_lt.mp hgt)]
  have hl1 := emitLoop_unit Piece.filled (Float64.specFilled sw pct s)
    (Float64.specFilled sw pct s).toNat fuel 0 []
    (by rw [Int.toNat_of_nonneg hsf0]; ring) (by omega)
  have hl2 := fun track => emitLoop_unit Piece.empty
    (s.width - handleColumns sw s - Float64.specFilled sw pct s)
    (s.width - handleColumns sw s - Float64.specFilled sw pct s).toNat fuel 0 track
    (by rw [Int.toNat_of_nonneg (by linarith)]; ring) (by omega)
  unfold Float64.buildHorizontalTrackAt
  rw [if_neg (by simp [hseg])]
  simp only []
  rw [show (if s.showHandle = true then ((sw s.symbols.Handle : ℕ) : ℤ) else 0)
    = handleColumns sw s from rfl]
  simp only [if_neg hav', hfilled, hf, he, Nat.cast_one, hl1, hl2]
  unfold Float64.specHorizontalTrack
  cases s.showHandle <;> simp

/-- C10 as stated fails on the code: a track of 50 cells without handle at value 58
of `[0, 100]` gets `int(float64(50) * 0.58) = int(28.999999999999996) = 28` filled
glyphs and 22 empty ones, where `min(floor(50 * p), 50)` is 29. -/
theorem buildHorizontalTrack_rounds_down :
    Float64.buildHorizontalTrack String.length 51
        { state := { min := 0, max := 100, value := 58, step := 1 }, width := 50,
          showHandle := false } =
      some (List.replicate 28 Piece.filled ++ List.replicate 22 Piece.empty) ∧
    specFilled String.length
        { state := { min := 0, max := 100, value := 58, step := 1 }, width := 50,
          showHandle := false } = 29 ∧
    Float64.scale 50 (Float64.Percentage { min := 0, max := 100, value := 58, step := 1 })
      = 28 := by
  have hsc : Float64.scale 50
      (Float64.Percentage { min := 0, max := 100, value := 58, step := 1 }) = 28 := by
    rw [Float64_Percentage_58]
    exact Float64_scale_50
  have hc : handleColumns String.length
      { state := { min := 0, max := 100, value := 58, step := 1 }, width := 50,
        showHandle := false } = 0 := by decide
  refine ⟨?_, ?_, hsc⟩
  · show Float64.buildHorizontalTrackAt String.length 51
      (Float64.Percentage { min := 0, max := 100, value := 58, step := 1 }) _ = _
    rw [Float64_buildHorizontalTrackAt_run String.length
      { state := { min := 0, max := 100, value := 58, step := 1 }, width := 50,
        showHandle := false }
      (Float64.Percentage { min := 0, max := 100, value := 58, step := 1 }) 51 rfl rfl rfl
      (by decide) (by rw [Float64_Percentage_58]; norm_num) (by decide)]
    unfold Float64.specHorizontalTrack Float64.specFilled
    rw [hc]
    show some (List.replicate (min (Float64.scale (50 - 0)
        (Float64.Percentage { min := 0, max := 100, value := 58, step := 1 })) (50 - 0)).toNat
        Piece.filled ++ (if false = true then [Piece.handle] else []) ++
      List.replicate (50 - 0 - min (Float64.scale (50 - 0)
        (Float64.Percentage { min := 0, max := 100, value := 58, step := 1 })) (50 - 0)).toNat
        Piece.empty) = _
    rw [show ((50 : ℤ) - 0) = 50 from rfl, hsc]
    decide
  · unfold specFilled
    rw [hc]
    show min ⌊(((50 : ℤ) - 0 : ℤ) : ℚ) *
      SliderState.Percentage { min := 0, max := 100, value := 58, step := 1 }⌋ (50 - 0) = 29
    rw [show ((50 : ℤ) - 0) = 50 from rfl, floor_50_of_58]
    decide

/-- C10, amended: for a continuous horizontal track with one-column filled and empty
glyphs, handle width `hw ≤ w` and a percentage `p ≥ 0` returned by `Percentage()`,
`buildHorizontalTrack` returns, given fuel above `w`, exactly
`min(int(float64(w-hw)*p), w-hw)` filled glyphs, the product as `float64` rounds it,
then the handle if shown, then the remaining `(w-hw) - filled` empty glyphs; the
track is `w` columns wide; `p = 0` gives no filled glyph and `w - hw` empty ones,
`p = 1` gives `w - hw` filled and no empty (for `w - hw < 2^53`). -/
theorem buildHorizontalTrack_continuous_float (sw : String → ℕ) (s : Slider) (pct : ℚ)
    (fuel : ℕ) (hseg : s.segmented = false)
    (hf : sw s.symbols.Filled = 1) (he : sw s.symbols.Empty = 1)
    (hw : handleColumns sw s ≤ s.width)
    (hp0 : 0 ≤ pct)
    (hfuel : s.width.toNat < fuel) :
    Float64.buildHorizontalTrackAt sw fuel pct s
      = some (Float64.specHorizontalTrack sw pct s) ∧
    (0 ≤ Float64.specFilled sw pct s ∧
      Float64.specFilled sw pct s ≤ s.width - handleColumns sw s) ∧
    trackColumns sw s.symbols (Float64.specHorizontalTrack sw pct s) = s.width ∧
    (pct = 0 →
      Float64.specFilled sw pct s = 0 ∧
        Float64.specHorizontalTrack sw pct s = (if s.showHandle then [Piece.handle] else [])
          ++ List.replicate (s.width - handleColumns sw s).toNat Piece.empty) ∧
    (pct = 1 → s.width - handleColumns sw s < 2 ^ 53 →
      Float64.specFilled sw pct s = s.width - handleColumns sw s ∧
        Float64.specHorizontalTrack sw pct s =
          List.replicate (s.width - handleColumns sw s).toNat Piece.filled
            ++ (if s.showHandle then [Piece.handle] else [])) ∧
    Float64.buildHorizontalTrack sw fuel s
      = Float64.buildHorizontalTrackAt sw fuel (Float64.Percentage s.state) s := by
  have hh0 : 0 ≤ handleColumns sw s := by
    unfold handleColumns
    split_ifs
    · exact Int.natCast_nonneg _
    · exact le_rfl
  have hav : 0 ≤ s.width - handleColumns sw s := by linarith
  obtain ⟨hsf0, hsf1⟩ := Float64_specFilled_bounds sw pct s hw hp0
  have hcols : trackColumns sw s.symbols (Float64.specHorizontalTrack sw pct s) = s.width := by
    unfold Float64.specHorizontalTrack
    rw [trackColumns_append, trackColumns_append, trackColumns_replicate,
      trackColumns_replicate]
    have e1 : Piece.columns sw s.symbols Piece.filled = 1 := by
      simp [Piece.columns, hf]
    have e2 : Piece.columns sw s.symbols Piece.empty = 1 := by
      simp [Piece.columns, he]
    have e3 : trackColumns sw s.symbols (if s.showHandle then [Piece.handle] else [])
        = handleColumns sw s := by
      unfold handleColumns
      cases s.showHandle <;> simp [trackColumns, Piece.columns]
    rw [e1, e2, e3, Int.toNat_of_nonneg hsf0, Int.toNat_of_nonneg (by linarith)]
    ring
  refine ⟨Float64_buildHorizontalTrackAt_run sw s pct fuel hseg hf he hw hp0 hfuel,
    ⟨hsf0, hsf1⟩, hcols, fun hz => ?_, fun ho hsmall => ?_, rfl⟩
  · have hz' : Float64.specFilled sw pct s = 0 := by
      unfold Float64.specFilled
      rw [hz, Float64_scale_zero, min_eq_left hav]
    refine ⟨hz', ?_⟩
    unfold Float64.specHorizontalTrack
    rw [hz']
    simp
  · have ho' : Float64.specFilled sw pct s = s.width - handleColumns sw s := by
      unfold Float64.specFilled
      rw [ho, Float64_scale_one _ hav hsmall, min_self]
    refine ⟨ho', ?_⟩
    unfold Float64.specHorizontalTrack
    rw [ho']
    simp

/-- C10, amended, at width 10, ASCII symbols, value 50 of `[0, 100]`: the track is ten
columns wide, and at the percentage 1 it is nine filled glyphs and the handle. -/
theorem buildHorizontalTrack_continuous_float_witness :
    trackColumns String.length ASCIISymbols
        (Float64.specHorizontalTrack String.length
          (Float64.Percentage { min := 0, max := 100, value := 50, step := 1 })
          { state := { min := 0, max := 100, value := 50, step := 1 }, width := 10,
            symbols := ASCIISymbols }) = 10 ∧
    Float64.buildHorizontalTrackAt String.length 11 1
        { state := { min := 0, max := 100, value := 100, step := 1 }, width := 10,
          symbols := ASCIISymbols } =
      some (List.replicate 9 Piece.filled ++ [Piece.handle]) := by
  have hnn : 0 ≤ Float64.Percentage { min := 0, max := 100, value := 50, step := 1 } := by
    unfold Float64.Percentage
    split_ifs
    · exact le_rfl
    · exact round64_nonneg _ (div_nonneg (round64_nonneg _ (by norm_num))
        (round64_nonneg _ (by norm_num)))
  have h1 := buildHorizontalTrack_continuous_float String.length
    { state := { min := 0, max := 100, value := 50, step := 1 }, width := 10,
      symbols := ASCIISymbols }
    (Float64.Percentage { min := 0, max := 100, value := 50, step := 1 }) 11
    rfl rfl rfl (by decide) hnn (by decide)
  have h2 := buildHorizontalTrack_continuous_float String.length
    { state := { min := 0, max := 100, value := 100, step := 1 }, width := 10,
      symbols := ASCIISymbols } 1 11 rfl rfl rfl (by decide) (by norm_num) (by decide)
  refine ⟨h1.2.2.1, ?_⟩
  rw [h2.1, (h2.2.2.2.2.1 rfl (by decide)).2]
  rfl

/-- C13 as stated fails on the code: a vertical track of height 50 at value 58 of
`[0, 100]` has `filledRows = int(float64(50) * 0.58) = 28`, so rows 0 to 21 are
empty and the handle is on row 22, where the rule with `floor(height * p) = 29` puts
the handle on row 21. -/
theorem buildVerticalTrack_rounds_down :
    Float64.buildVerticalTrack
        { state := { min := 0, max := 100, value := 58, step := 1 }, height := 50 } =
      List.replicate 22 Piece.empty ++ [Piece.handle] ++ List.replicate 27 Piece.filled ∧
    specVerticalRow
        { state := { min := 0, max := 100, value := 58, step := 1 }, height := 50 } 21
      = Piece.handle ∧
    Float64.scale 50 (Float64.Percentage { min := 0, max := 100, value := 58, step := 1 })
      = 28 := by
  have hsc : Float64.scale 50
      (Float64.Percentage { min := 0, max := 100, value := 58, step := 1 }) = 28 := by
    rw [Float64_Percentage_58]
    exact Float64_scale_50
  refine ⟨?_, ?_, hsc⟩
  · show Float64.buildVerticalTrackAt
      (Float64.Percentage { min := 0, max := 100, value := 58, step := 1 }) _ = _
    unfold Float64.buildVerticalTrackAt
    simp only [hsc]
    decide
  · unfold specVerticalRow
    simp only [floor_50_of_58]
    decide

/-- C13, amended: for a height `≥ 0` and any percentage `p` returned by
`Percentage()`, `buildVerticalTrack` returns exactly `height` rows, row `i` (top
first) being the handle if it is shown and `i` is `emptyRows` clamped into
`[0, height-1]`, else the empty glyph for `i < emptyRows` and the filled glyph
otherwise, where `filledRows = min(int(float64(height)*p), height)`, the product as
`float64` rounds it, and `emptyRows = height - filledRows`; when the handle is shown
and there is a row, exactly one row carries it. -/
theorem buildVerticalTrack_rows_float (s : Slider) (pct : ℚ) (hh : 0 ≤ s.height) :
    Float64.buildVerticalTrackAt pct s =
      (List.range s.height.toNat).map (fun n : ℕ => Float64.specVerticalRow pct s (n : ℤ)) ∧
    ((Float64.buildVerticalTrackAt pct s).length : ℤ) = s.height ∧
    (s.showHandle = true → 1 ≤ s.height →
      (Float64.buildVerticalTrackAt pct s).count Piece.handle = 1) ∧
    Float64.buildVerticalTrack s
      = Float64.buildVerticalTrackAt (Float64.Percentage s.state) s := by
  have hrows := Float64_buildVerticalTrackAt_rows pct s
  refine ⟨hrows, ?_, fun hsh h1 => ?_, rfl⟩
  · rw [hrows, List.length_map, List.length_range, Int.toNat_of_nonneg hh]
  · rw [hrows]
    have hk0 : 0 ≤ max 0 (min (s.height - min (Float64.scale s.height pct) s.height)
        (s.height - 1)) := le_max_left _ _
    have hk1 : max 0 (min (s.height - min (Float64.scale s.height pct) s.height)
        (s.height - 1)) < s.height := by
      apply max_lt (by omega)
      exact lt_of_le_of_lt (min_le_right _ _) (by omega)
    refine count_map_range_eq_one _ _ _ (max 0 (min (s.height -
      min (Float64.scale s.height pct) s.height) (s.height - 1))).toNat (by omega) ?_
    intro i
    unfold Float64.specVerticalRow
    simp only [hsh, true_and]
    constructor
    · intro h
      split_ifs at h with h1 h2
      · omega
    · intro h
      rw [if_pos (by omega)]

/-- C13, amended, at height 4 and value 50 of `[0, 100]`: four rows, one of them the
handle. -/
theorem buildVerticalTrack_rows_float_witness :
    ((Float64.buildVerticalTrack
        { state := { min := 0, max := 100, value := 50, step := 1 }, height := 4 }).length : ℤ)
      = 4 ∧
    (Float64.buildVerticalTrack
        { state := { min := 0, max := 100, value := 50, step := 1 }, height := 4 }).count
      Piece.handle = 1 :=
  ⟨(buildVerticalTrack_rows_float
      { state := { min := 0, max := 100, value := 50, step := 1 }, height := 4 }
      (Float64.Percentage { min := 0, max := 100, value := 50, step := 1 })
      (by decide)).2.1,
   (buildVerticalTrack_rows_float
      { state := { min := 0, max := 100, value := 50, step := 1 }, height := 4 }
      (Float64.Percentage { min := 0, max := 100, value := 50, step := 1 })
      (by decide)).2.2.1 rfl (by decide)⟩

/-- C14 as stated fails on the code: with 50 segments at value 58 of `[0, 100]`,
`filledSegments = int(float64(50) * 0.58) = 28`, so the track has the handle on
segment 28 and segment 29 empty, where the rule with `floor(n * p) = 29` has segment
28 filled and the handle on segment 29. -/
theorem buildSegmentedHorizontalTrack_rounds_down :
    Float64.buildSegmentedHorizontalTrack
        { state := { min := 0, max := 100, value := 58, step := 1 }, segmented := true,
          segmentCount := 50 } =
      ((List.range 50).map (fun n : ℕ => Float64.specSegment
        (Float64.Percentage { min := 0, max := 100, value := 58, step := 1 })
        { state := { min := 0, max := 100, value := 58, step := 1 }, segmented := true,
          segmentCount := 50 } (n : ℤ))).intersperse (Piece.gap 1) ∧
    Float64.specSegment (Float64.Percentage { min := 0, max := 100, value := 58, step := 1 })
        { state := { min := 0, max := 100, value := 58, step := 1 }, segmented := true,
          segmentCount := 50 } 28 = Piece.handle ∧
    Float64.specSegment (Float64.Percentage { min := 0, max := 100, value := 58, step := 1 })
        { state := { min := 0, max := 100, value := 58, step := 1 }, segmented := true,
          segmentCount := 50 } 29 = Piece.empty ∧
    specSegment
        { state := { min := 0, max := 100, value := 58, step := 1 }, segmented := true,
          segmentCount := 50 } 28 = Piece.filled ∧
    specSegment
        { state := { min := 0, max := 100, value := 58, step := 1 }, segmented := true,
          segmentCount := 50 } 29 = Piece.handle ∧
    Float64.scale 50 (Float64.Percentage { min := 0, max := 100, value := 58, step := 1 })
      = 28 := by
  have hsc : Float64.scale 50
      (Float64.Percentage { min := 0, max := 100, value := 58, step := 1 }) = 28 := by
    rw [Float64_Percentage_58]
    exact Float64_scale_50
  have hn : specSegmentCount
      { state := { min := 0, max := 100, value := 58, step := 1 }, segmented := true,
          segmentCount := 50 } = 50 := by decide
  refine ⟨?_, ?_, ?_, ?_, ?_, hsc⟩
  · show Float64.buildSegmentedHorizontalTrackAt
      (Float64.Percentage { min := 0, max := 100, value := 58, step := 1 }) _ = _
    rw [Float64_buildSegmentedHorizontalTrackAt_layout, hn]
    rfl
  · unfold Float64.specSegment
    simp only [hn, hsc]
    decide
  · unfold Float64.specSegment
    simp only [hn, hsc]
    decide
  · unfold specSegment
    simp only [hn, floor_50_of_58]
    decide
  · unfold specSegment
    simp only [hn, floor_50_of_58]
    decide

/-- C14, amended: for any percentage `p` returned by `Percentage()`,
`buildSegmentedHorizontalTrack` writes exactly `n` glyphs (`n = segmentCount` when
positive, else `clamp(width div 3, 5, 20)`) separated by `n - 1` gaps of
`segmentGap` spaces; with `filledSegments = min(int(float64(n)*p), n)`, the product
as `float64` rounds it, segment `i` is the handle if it is shown and
`i = min(filledSegments, n-1)`, else filled for `i < filledSegments`, else empty. -/
theorem buildSegmentedHorizontalTrack_layout_float (s : Slider) (pct : ℚ) :
    Float64.buildSegmentedHorizontalTrackAt pct s =
      ((List.range (specSegmentCount s).toNat).map
        (fun n : ℕ => Float64.specSegment pct s (n : ℤ))).intersperse
          (Piece.gap s.segmentGap) ∧
    1 ≤ specSegmentCount s ∧
    ((((List.range (specSegmentCount s).toNat).map
        (fun n : ℕ => Float64.specSegment pct s (n : ℤ))).length : ℕ) : ℤ)
      = specSegmentCount s ∧
    (((Float64.buildSegmentedHorizontalTrackAt pct s).length : ℕ) : ℤ)
      = 2 * specSegmentCount s - 1 ∧
    Float64.buildSegmentedHorizontalTrack s
      = Float64.buildSegmentedHorizontalTrackAt (Float64.Percentage s.state) s := by
  have hn := specSegmentCount_pos s
  have hlay := Float64_buildSegmentedHorizontalTrackAt_layout pct s
  refine ⟨hlay, hn, ?_, ?_, rfl⟩
  · rw [List.length_map, List.length_range, Int.toNat_of_nonneg (by omega)]
  · rw [hlay]
    obtain ⟨k, hk⟩ : ∃ k : ℕ, (specSegmentCount s).toNat = k + 1 :=
      ⟨(specSegmentCount s).toNat - 1, by omega⟩
    rw [hk, length_intersperse_map_range]
    omega

/-! ## Pointer presses in `float64` -/

lemma Float64_positionPercentage_horizontal (m : MouseState) (x y : ℤ) (hW : 0 < m.Width)
    (hW63 : m.Width < 2 ^ 63) (h0 : 0 ≤ x - m.X) (h1 : x - m.X ≤ m.Width) :
    Float64.positionPercentage m x y Orientation.Horizontal =
      round64 (round64 ((x - m.X : ℤ) : ℚ) / round64 (m.Width : ℚ)) := by
  unfold Float64.positionPercentage
  simp only [wrapInt64_of_range (x - m.X) (by omega) (by omega), gt_iff_lt, hW, if_true,
    if_neg (not_lt.mpr h0), if_neg (not_lt.mpr h1)]

lemma Float64_positionPercentage_vertical (m : MouseState) (x y : ℤ) (hH : 0 < m.Height)
    (hH63 : m.Height < 2 ^ 63) (h0 : 0 ≤ y - m.Y) (h1 : y - m.Y ≤ m.Height) :
    Float64.positionPercentage m x y Orientation.Vertical =
      round64 (1 - round64 (round64 ((y - m.Y : ℤ) : ℚ) / round64 (m.Height : ℚ))) := by
  unfold Float64.positionPercentage
  simp only [wrapInt64_of_range (y - m.Y) (by omega) (by omega), gt_iff_lt, hH, if_true,
    if_neg (not_lt.mpr h0), if_neg (not_lt.mpr h1)]

lemma Float64_updateValue_eq (m : MouseState) (x y : ℤ) (o : Orientation) (st : SliderState)
    (p d pd v : ℚ) (hp : Float64.positionPercentage m x y o = p) (hp0 : 0 ≤ p) (hp1 : p ≤ 1)
    (h1 : round64 (st.max - st.min) = d) (h2 : round64 (p * d) = pd)
    (h3 : round64 (st.min + pd) = v) :
    Float64.updateValue m x y o st = { st with value := v } := by
  have hv := Float64_SetFromPercentage_eval st p d pd v hp0 hp1 h1 h2 h3
  unfold Float64.updateValue
  simp only [hp, if_neg (not_lt.mpr hp0), if_neg (not_lt.mpr hp1)]
  show ({ st with value := (Float64.SetFromPercentage st p).value } : SliderState) = _
  rw [hv]

lemma Float64_Percentage_eval_general (s : SliderState) (a b p : ℚ) (hne : s.max ≠ s.min)
    (h1 : round64 (s.value - s.min) = a) (h2 : round64 (s.max - s.min) = b)
    (h3 : round64 (a / b) = p) : Float64.Percentage s = p := by
  unfold Float64.Percentage
  rw [if_neg hne, h1, h2, h3]

lemma round64_one : round64 1 = 1 :=
  (by
      rw [round64_eq (1) (0) 4503599627370496 (by norm_num) (by norm_num) (by norm_num)
        (by norm_num) (by norm_num) (by norm_num)]
      norm_num)

lemma round64_two : round64 2 = 2 :=
  (by
      rw [round64_eq (2) (1) 4503599627370496 (by norm_num) (by norm_num) (by norm_num)
        (by norm_num) (by norm_num) (by norm_num)]
      norm_num)

/-- On the bounds `2^53` and `2^53 + 2`, a press at the centre column of a box 100
columns wide stores `2^53` in `float64` (the sum `2^53 + 1` is a tie and rounds to
even), and `Percentage()` is then `0`. -/
lemma Float64_press_centre_large_bounds :
    Float64.updateValue { Width := 100, Height := 1 } (0 + 100 / 2) 0 Orientation.Horizontal
        { min := 9007199254740992, max := 9007199254740994, value := 9007199254740992, step := 1 }
      = { min := 9007199254740992, max := 9007199254740994, value := 9007199254740992, step := 1 } ∧
    Float64.Percentage
        { min := 9007199254740992, max := 9007199254740994, value := 9007199254740992, step := 1 } = 0 := by
  constructor
  · have hp : Float64.positionPercentage { Width := 100, Height := 1 } (0 + 100 / 2) 0 Orientation.Horizontal
        = 1 / 2 := by
      rw [Float64_positionPercentage_horizontal _ _ _ (by decide) (by decide) (by decide)
        (by decide)]
      show round64 (round64 (((0 + 100 / 2 - 0 : ℤ)) : ℚ) / round64 ((100 : ℤ) : ℚ)) = 1 / 2
      have e1 : (((0 + 100 / 2 - 0 : ℤ)) : ℚ) = 50 := by norm_num
      have e2 : (((100 : ℤ)) : ℚ) = 100 := by norm_num
      rw [e1, e2]
      have h50 : round64 50 = 50 := (by
      rw [round64_eq (50) (5) 7036874417766400 (by norm_num) (by norm_num) (by norm_num)
        (by norm_num) (by norm_num) (by norm_num)]
      norm_num)
      have h100 : round64 100 = 100 := (by
      rw [round64_eq (100) (6) 7036874417766400 (by norm_num) (by norm_num) (by norm_num)
        (by norm_num) (by norm_num) (by norm_num)]
      norm_num)
      rw [h50, h100]
      exact (by
      rw [round64_eq (50 / 100) (-1) 4503599627370496 (by norm_num) (by norm_num) (by norm_num)
        (by norm_num) (by norm_num) (by norm_num)]
      norm_num)
    exact Float64_updateValue_eq _ _ _ _ { min := 9007199254740992, max := 9007199254740994, value := 9007199254740992, step := 1 }
      (1 / 2) 2 1 9007199254740992 hp (by norm_num) (by norm_num)
      (by
        show round64 (9007199254740994 - 9007199254740992) = 2
        rw [show ((9007199254740994 : ℚ) - 9007199254740992) = 2 by norm_num]
        exact round64_two)
      (by
        rw [show ((1 / 2 : ℚ) * 2) = 1 by norm_num]
        exact round64_one)
      (by
        show round64 (9007199254740992 + 1) = 9007199254740992
        exact (by
      rw [round64_tie_even (9007199254740992 + 1) (53) 4503599627370496 (by norm_num) (by norm_num) (by norm_num)
        (by norm_num) (by decide) (by norm_num)]
      norm_num))
  · refine Float64_Percentage_eval_general _ 0 2 0 (by norm_num) ?_ ?_ ?_
    · show round64 (9007199254740992 - 9007199254740992) = 0
      rw [sub_self, round64_zero]
    · show round64 (9007199254740994 - 9007199254740992) = 2
      rw [show ((9007199254740994 : ℚ) - 9007199254740992) = 2 by norm_num]
      exact round64_two
    · rw [zero_div, round64_zero]

/-- On a box of height 20 and the bounds `[0, 100]`, a press at the bottom row
computes `1 - 19/20 = 0.050000000000000044` in `float64`, stores
`5.000000000000004`, and `Percentage()` is then `0.050000000000000044 > 0.05`. -/
lemma Float64_press_bottom_row_twenty :
    Float64.updateValue { Width := 10, Height := 20 } 5 (0 + 20 - 1) Orientation.Vertical
        { min := 0, max := 100, value := 50, step := 1 }
      = { min := 0, max := 100, value := 5629499534213125 / 1125899906842624, step := 1 } ∧
    Float64.Percentage
        { min := 0, max := 100, value := 5629499534213125 / 1125899906842624, step := 1 }
      = 225179981368525 / 4503599627370496 := by
  have h100 : round64 100 = 100 := (by
      rw [round64_eq (100) (6) 7036874417766400 (by norm_num) (by norm_num) (by norm_num)
        (by norm_num) (by norm_num) (by norm_num)]
      norm_num)
  constructor
  · have hp : Float64.positionPercentage { Width := 10, Height := 20 } 5 (0 + 20 - 1) Orientation.Vertical
        = 225179981368525 / 4503599627370496 := by
      rw [Float64_positionPercentage_vertical _ _ _ (by decide) (by decide) (by decide)
        (by decide)]
      show round64 (1 - round64 (round64 (((0 + 20 - 1 - 0 : ℤ)) : ℚ) / round64 ((20 : ℤ) : ℚ)))
        = 225179981368525 / 4503599627370496
      have e1 : (((0 + 20 - 1 - 0 : ℤ)) : ℚ) = 19 := by norm_num
      have e2 : (((20 : ℤ)) : ℚ) = 20 := by norm_num
      rw [e1, e2]
      have h19 : round64 19 = 19 := (by
      rw [round64_eq (19) (4) 5348024557502464 (by norm_num) (by norm_num) (by norm_num)
        (by norm_num) (by norm_num) (by norm_num)]
      norm_num)
      have h20 : round64 20 = 20 := (by
      rw [round64_eq (20) (4) 5629499534213120 (by norm_num) (by norm_num) (by norm_num)
        (by norm_num) (by norm_num) (by norm_num)]
      norm_num)
      have hq : round64 (19 / 20) = 4278419646001971 / 4503599627370496 := (by
      rw [round64_eq (19 / 20) (-1) 8556839292003942 (by norm_num) (by norm_num) (by norm_num)
        (by norm_num) (by norm_num) (by norm_num)]
      norm_num)
      rw [h19, h20, hq]
      exact (by
      rw [round64_eq (1 - 4278419646001971 / 4503599627370496) (-5) 7205759403792800 (by norm_num) (by norm_num) (by norm_num)
        (by norm_num) (by norm_num) (by norm_num)]
      norm_num)
    exact Float64_updateValue_eq _ _ _ _ { min := 0, max := 100, value := 50, step := 1 }
      (225179981368525 / 4503599627370496) 100 (5629499534213125 / 1125899906842624) (5629499534213125 / 1125899906842624) hp (by norm_num) (by norm_num)
      (by
        show round64 (100 - 0) = 100
        rw [sub_zero]
        exact h100)
      (by
      rw [round64_eq (225179981368525 / 4503599627370496 * 100) (2) 5629499534213125 (by norm_num) (by norm_num) (by norm_num)
        (by norm_num) (by norm_num) (by norm_num)]
      norm_num)
      (by
        show round64 (0 + 5629499534213125 / 1125899906842624) = 5629499534213125 / 1125899906842624
        rw [zero_add]
        exact (by
      rw [round64_eq (5629499534213125 / 1125899906842624) (2) 5629499534213125 (by norm_num) (by norm_num) (by norm_num)
        (by norm_num) (by norm_num) (by norm_num)]
      norm_num))
  · refine Float64_Percentage_eval_general _ (5629499534213125 / 1125899906842624) 100 (225179981368525 / 4503599627370496) (by norm_num) ?_ ?_ ?_
    · show round64 (5629499534213125 / 1125899906842624 - 0) = 5629499534213125 / 1125899906842624
      rw [sub_zero]
      exact (by
      rw [round64_eq (5629499534213125 / 1125899906842624) (2) 5629499534213125 (by norm_num) (by norm_num) (by norm_num)
        (by norm_num) (by norm_num) (by norm_num)]
      norm_num)
    · show round64 (100 - 0) = 100
      rw [sub_zero]
      exact h100
    · exact (by
      rw [round64_eq (5629499534213125 / 1125899906842624 / 100) (-5) 7205759403792800 (by norm_num) (by norm_num) (by norm_num)
        (by norm_num) (by norm_num) (by norm_num)]
      norm_num)

/-- C20 as stated fails.  On a box of width 1 the centre column is `X + 1 div 2 = X`,
and a left press there sets the percentage of a state over `[0, 100]` to `0`, which
is not within `0.05` of `0.5`.  And in `float64`, on the bounds `2^53` and `2^53 + 2`,
a press at the centre column of a box 100 columns wide stores `2^53`, so that
`Percentage()` is `0`. -/
theorem press_centre_width_one_fails :
    (MouseState.Contains { Width := 1, Height := 1 } (0 + 1 / 2) 0 = true ∧
    (MouseState.updateValue { Width := 1, Height := 1 } (0 + 1 / 2) 0 Orientation.Horizontal
      { min := 0, max := 100, value := 50, step := 1 }).value = 0 ∧
    ¬ |(MouseState.updateValue { Width := 1, Height := 1 } (0 + 1 / 2) 0
          Orientation.Horizontal
          { min := 0, max := 100, value := 50, step := 1 }).Percentage - 1 / 2| ≤ 1 / 20 ∧
    MouseState.HandleMouse { Width := 1, Height := 1 }
        { X := 0 + 1 / 2, Y := 0, Action := MouseAction.MouseActionPress,
          Button := MouseButton.MouseButtonLeft }
        (some { orientation := Orientation.Horizontal,
                state := some { min := 0, max := 100, value := 50, step := 1 } }) =
      ({ Width := 1, Height := 1, Dragging := true, Focused := true },
        some { orientation := Orientation.Horizontal,
               state := some (MouseState.updateValue { Width := 1, Height := 1 } (0 + 1 / 2) 0
                 Orientation.Horizontal { min := 0, max := 100, value := 50, step := 1 }) },
        true)) ∧
    (Float64.updateValue { Width := 100, Height := 1 } (0 + 100 / 2) 0 Orientation.Horizontal
        { min := 9007199254740992, max := 9007199254740994, value := 9007199254740992, step := 1 }
      = { min := 9007199254740992, max := 9007199254740994, value := 9007199254740992, step := 1 } ∧
    Float64.Percentage
        { min := 9007199254740992, max := 9007199254740994, value := 9007199254740992, step := 1 } = 0) := by
  refine ⟨?_, Float64_press_centre_large_bounds⟩
  have hc := specPointerPct_centre { Width := 1, Height := 1 } 0 (by decide)
  have hx : ({ Width := 1, Height := 1 } : MouseState).X = 0 := rfl
  have hw : ({ Width := 1, Height := 1 } : MouseState).Width = 1 := rfl
  rw [hx, hw] at hc
  refine ⟨by decide, ?_, ?_, ?_⟩
  · rw [updateValue_eq, hc]
    norm_num
  · rw [percentage_after_updateValue _ _ _ _ _ (by norm_num), hc]
    norm_num
    rw [abs_of_pos (by norm_num : (0 : ℚ) < 1 / 2)]
    norm_num
  · exact HandleMouse_press _ _ _ _ rfl rfl (by decide)

/-- C21 as stated fails.  On a box of height 1 the bottom row is the top row
(`y = Y + 1 - 1 = Y`), and a left press there on a vertical slider over `[0, 100]`
sets the value to `100` and the percentage to `1`, which is not `≤ 0.05`.  And in
`float64`, on a box of height 20 and the bounds `[0, 100]`, a press at the bottom row
stores `5.000000000000004`, so that `Percentage()` is `0.050000000000000044`, above
`0.05`. -/
theorem press_bottom_row_height_one_fails :
    (MouseState.Contains { Width := 1, Height := 1 } 0 (0 + 1 - 1) = true ∧
    (MouseState.updateValue { Width := 1, Height := 1 } 0 (0 + 1 - 1) Orientation.Vertical
      { min := 0, max := 100, value := 50, step := 1 }).value = 100 ∧
    ¬ (MouseState.updateValue { Width := 1, Height := 1 } 0 (0 + 1 - 1) Orientation.Vertical
        { min := 0, max := 100, value := 50, step := 1 }).Percentage ≤ 1 / 20 ∧
    MouseState.HandleMouse { Width := 1, Height := 1 }
        { X := 0, Y := 0 + 1 - 1, Action := MouseAction.MouseActionPress,
          Button := MouseButton.MouseButtonLeft }
        (some { orientation := Orientation.Vertical,
                state := some { min := 0, max := 100, value := 50, step := 1 } }) =
      ({ Width := 1, Height := 1, Dragging := true, Focused := true },
        some { orientation := Orientation.Vertical,
               state := some (MouseState.updateValue { Width := 1, Height := 1 } 0 (0 + 1 - 1)
                 Orientation.Vertical { min := 0, max := 100, value := 50, step := 1 }) },
        true)) ∧
    (Float64.updateValue { Width := 10, Height := 20 } 5 (0 + 20 - 1) Orientation.Vertical
        { min := 0, max := 100, value := 50, step := 1 }
      = { min := 0, max := 100, value := 5629499534213125 / 1125899906842624, step := 1 } ∧
    Float64.Percentage
        { min := 0, max := 100, value := 5629499534213125 / 1125899906842624, step := 1 }
      = 225179981368525 / 4503599627370496 ∧
    (1 / 20 : ℚ) < 225179981368525 / 4503599627370496) := by
  refine ⟨?_, Float64_press_bottom_row_twenty.1, Float64_press_bottom_row_twenty.2,
    by norm_num⟩
  have hc := specPointerPct_bottom { Width := 1, Height := 1 } 0 (by decide)
  have hy : ({ Width := 1, Height := 1 } : MouseState).Y = 0 := rfl
  have hh : ({ Width := 1, Height := 1 } : MouseState).Height = 1 := rfl
  rw [hy, hh] at hc
  refine ⟨by decide, ?_, ?_, ?_⟩
  · rw [updateValue_eq, hc]
    norm_num
  · rw [percentage_after_updateValue _ _ _ _ _ (by norm_num), hc]
    norm_num
  · exact HandleMouse_press _ _ _ _ rfl rfl (by decide)

/-! ## `float64` rounding: the error of one operation -/

lemma roundHalfEven_abs (x : ℚ) : |(roundHalfEven x : ℚ) - x| ≤ 1 / 2 := by
  have hf := Int.floor_le x
  have hf2 := Int.lt_floor_add_one x
  unfold roundHalfEven
  simp only []
  rw [abs_le]
  split_ifs with h1 h2 h3
  · constructor <;> linarith
  · push_cast
    constructor <;> linarith
  · have h4 : x - (⌊x⌋ : ℚ) = 1 / 2 := le_antisymm (not_lt.mp h2) (not_lt.mp h1)
    constructor <;> linarith
  · have h4 : x - (⌊x⌋ : ℚ) = 1 / 2 := le_antisymm (not_lt.mp h2) (not_lt.mp h1)
    push_cast
    constructor <;> linarith

/-- The error of one rounding: at most `2^-53` of the exact result, or `2^-1075` in
the subnormal range. -/
lemma round64_err (q : ℚ) : |round64 q - q| ≤ |q| * 2 ^ (-53 : ℤ) + 2 ^ (-1075 : ℤ) := by
  have hη : (0 : ℚ) < 2 ^ (-1075 : ℤ) := zpow_pos (by norm_num) _
  have hu : (0 : ℚ) < 2 ^ (-53 : ℤ) := zpow_pos (by norm_num) _
  by_cases h0 : q = 0
  · rw [h0, round64_zero]
    simp only [sub_self, abs_zero, zero_mul, zero_add]
    exact le_of_lt hη
  · have habs : 0 < |q| := abs_pos.mpr h0
    unfold round64
    rw [if_neg h0]
    simp only []
    set e := max (Int.log 2 |q|) (-1022) with he
    have hs : (0 : ℚ) < 2 ^ (e - 52) := zpow_pos (by norm_num) _
    have hr := roundHalfEven_abs (q / 2 ^ (e - 52))
    have hdiff : (roundHalfEven (q / 2 ^ (e - 52)) : ℚ) * 2 ^ (e - 52) - q
        = ((roundHalfEven (q / 2 ^ (e - 52)) : ℚ) - q / 2 ^ (e - 52)) * 2 ^ (e - 52) := by
      field_simp
    rw [hdiff, abs_mul, abs_of_pos hs]
    have hbound : |(roundHalfEven (q / 2 ^ (e - 52)) : ℚ) - q / 2 ^ (e - 52)| * 2 ^ (e - 52)
        ≤ 2 ^ (e - 53) := by
      have h2 : (2 : ℚ) ^ (e - 53) = 1 / 2 * 2 ^ (e - 52) := by
        rw [show e - 52 = (e - 53) + 1 by ring, zpow_add_one₀ (by norm_num)]
        ring
      rw [h2]
      exact mul_le_mul_of_nonneg_right hr (le_of_lt hs)
    refine le_trans hbound ?_
    rcases le_total (-1022) (Int.log 2 |q|) with hl | hl
    · have hee : e = Int.log 2 |q| := by
        rw [he]
        exact max_eq_left hl
      have hlog : (2 : ℚ) ^ (Int.log 2 |q|) ≤ |q| := by
        have := Int.zpow_log_le_self (b := 2) (r := |q|) (by norm_num) habs
        exact_mod_cast this
      have h3 : (2 : ℚ) ^ (e - 53) = 2 ^ e * 2 ^ (-53 : ℤ) := by
        rw [← zpow_add₀ (by norm_num)]
        rfl
      rw [h3, hee]
      have := mul_le_mul_of_nonneg_right hlog (le_of_lt hu)
      linarith
    · have hee : e = -1022 := by
        rw [he]
        exact max_eq_right hl
      rw [hee]
      have h3 : (2 : ℚ) ^ ((-1022 : ℤ) - 53) = 2 ^ (-1075 : ℤ) := by norm_num
      rw [h3]
      have := mul_nonneg (le_of_lt habs) (le_of_lt hu)
      linarith

/-- The error of `Percentage()` after `SetFromPercentage(pc)`, from the errors of the
five operations between them: `a` is the rounded `max - min`, `b` the rounded product,
`v` the rounded sum (the stored value), `c` the rounded `value - min` and `P` the
rounded quotient. -/
lemma percentage_error_chain (U η t mn pc r a b v c P : ℚ)
    (hU0 : 0 ≤ U) (hU : U ≤ 1 / 2 ^ 53) (hηt : η ≤ U * t) (hη1 : η ≤ U)
    (ht : 0 < t) (hmn : |mn| ≤ 2 ^ 20 * t)
    (hpc0 : 0 ≤ pc) (hpc1 : pc ≤ 1) (hr0 : 0 ≤ r) (hr1 : r ≤ 1)
    (hpr : |pc - r| ≤ 1 / 2 ^ 50)
    (ha : |a - t| ≤ |t| * U + η)
    (hb : |b - pc * a| ≤ |pc * a| * U + η)
    (hv : |v - (mn + b)| ≤ |mn + b| * U + η)
    (hc : |c - (v - mn)| ≤ |v - mn| * U + η)
    (hP : |P - c / a| ≤ |c / a| * U + η) :
    |P - r| ≤ 1 / 2 ^ 28 := by
  have hUt0 : 0 ≤ U * t := mul_nonneg hU0 (le_of_lt ht)
  have hUt : U * t ≤ t / 2 ^ 53 := by
    have := mul_le_mul_of_nonneg_right hU (le_of_lt ht)
    linarith
  -- the rounded range
  rw [abs_of_pos ht] at ha
  have ha' := abs_le.mp ha
  have ha1 : t - 2 * (U * t) ≤ a := by linarith [mul_comm t U]
  have ha2 : a ≤ t + 2 * (U * t) := by linarith [mul_comm t U]
  have hapos : 0 < a := by linarith
  have ha3 : a ≤ 2 * t := by linarith
  have ha4 : t / 2 ≤ a := by linarith
  have hat : |a - t| ≤ 2 * (U * t) := by
    rw [abs_le]
    constructor <;> linarith
  -- the rounded product
  have hpa0 : 0 ≤ pc * a := mul_nonneg hpc0 (le_of_lt hapos)
  have hpa1 : pc * a ≤ 2 * t := by
    have := mul_le_mul_of_nonneg_right hpc1 (le_of_lt hapos)
    linarith
  rw [abs_of_nonneg hpa0] at hb
  have hpaU : pc * a * U ≤ 2 * (U * t) := by
    have := mul_le_mul_of_nonneg_right hpa1 hU0
    linarith
  have hb1 : |b - pc * a| ≤ 3 * (U * t) := by linarith
  have hpart : |pc * a - r * t| ≤ t / 2 ^ 49 + 2 * (U * t) := by
    have e1 : pc * a - r * t = (pc - r) * a + r * (a - t) := by ring
    rw [e1]
    refine le_trans (abs_add _ _) ?_
    rw [abs_mul, abs_mul, abs_of_pos hapos, abs_of_nonneg hr0]
    have h1 : |pc - r| * a ≤ 1 / 2 ^ 50 * (2 * t) :=
      mul_le_mul hpr ha3 (le_of_lt hapos) (by norm_num)
    have h2 : r * |a - t| ≤ 1 * (2 * (U * t)) :=
      mul_le_mul hr1 hat (abs_nonneg _) (by norm_num)
    linarith
  have hbrt : |b - r * t| ≤ t / 2 ^ 48 := by
    have e1 : b - r * t = (b - pc * a) + (pc * a - r * t) := by ring
    rw [e1]
    refine le_trans (abs_add _ _) ?_
    linarith
  have hrt0 : 0 ≤ r * t := mul_nonneg hr0 (le_of_lt ht)
  have hrt1 : r * t ≤ t := by
    have := mul_le_mul_of_nonneg_right hr1 (le_of_lt ht)
    linarith
  have hbabs : |b| ≤ 2 * t := by
    have hb' := abs_le.mp hbrt
    rw [abs_le]
    constructor <;> linarith
  -- the rounded sum
  have hmb : |mn + b| ≤ 2 ^ 20 * t + 2 * t := le_trans (abs_add _ _) (by linarith)
  have hmbU : |mn + b| * U ≤ (2 ^ 20 + 2) * (U * t) := by
    have := mul_le_mul_of_nonneg_right hmb hU0
    linarith
  have hv1 : |v - mn - b| ≤ t / 2 ^ 32 := by
    have e1 : v - mn - b = v - (mn + b) := by ring
    rw [e1]
    linarith
  have hvrt : |v - mn - r * t| ≤ t / 2 ^ 31 := by
    have e1 : v - mn - r * t = (v - mn - b) + (b - r * t) := by ring
    rw [e1]
    refine le_trans (abs_add _ _) ?_
    linarith
  have hvabs : |v - mn| ≤ 2 * t := by
    have hv' := abs_le.mp hvrt
    rw [abs_le]
    constructor <;> linarith
  -- the rounded difference
  have hvU : |v - mn| * U ≤ 2 * (U * t) := by
    have := mul_le_mul_of_nonneg_right hvabs hU0
    linarith
  have hcrt : |c - r * t| ≤ t / 2 ^ 30 := by
    have e1 : c - r * t = (c - (v - mn)) + (v - mn - r * t) := by ring
    rw [e1]
    refine le_trans (abs_add _ _) ?_
    linarith
  -- the rounded quotient
  have hcra : |c - r * a| ≤ a / 2 ^ 29 + a / 2 ^ 50 := by
    have e1 : c - r * a = (c - r * t) + r * (t - a) := by ring
    rw [e1]
    refine le_trans (abs_add _ _) ?_
    rw [abs_mul, abs_of_nonneg hr0, abs_sub_comm t a]
    have h2 : r * |a - t| ≤ 1 * (2 * (U * t)) :=
      mul_le_mul hr1 hat (abs_nonneg _) (by norm_num)
    linarith
  have hq : |c / a - r| ≤ 1 / 2 ^ 29 + 1 / 2 ^ 50 := by
    have e1 : c / a - r = (c - r * a) / a := by
      field_simp
      ring
    rw [e1, abs_div, abs_of_pos hapos, div_le_iff₀ hapos]
    have e2 : (1 / 2 ^ 29 + 1 / 2 ^ 50) * a = a / 2 ^ 29 + a / 2 ^ 50 := by ring
    rw [e2]
    exact hcra
  have hqabs : |c / a| ≤ 2 := by
    have hq' := abs_le.mp hq
    rw [abs_le]
    constructor <;> linarith
  have hqU : |c / a| * U ≤ 2 * U := mul_le_mul_of_nonneg_right hqabs hU0
  have e1 : P - r = (P - c / a) + (c / a - r) := by ring
  rw [e1]
  refine le_trans (abs_add _ _) ?_
  have hU' : U ≤ 1 / 2 ^ 53 := hU
  linarith

lemma round64_unit : (2 : ℚ) ^ (-53 : ℤ) = 1 / 2 ^ 53 := by norm_num

lemma round64_subnormal_le : (2 : ℚ) ^ (-1075 : ℤ) ≤ 2 ^ (-53 : ℤ) * (1 / 2 ^ 900) := by
  norm_num

lemma round64_err_unit (q : ℚ) (h : |q| ≤ 1) : |round64 q - q| ≤ 2 / 2 ^ 53 := by
  have herr := round64_err q
  have h1 : |q| * (2 : ℚ) ^ (-53 : ℤ) ≤ 1 * 2 ^ (-53 : ℤ) :=
    mul_le_mul_of_nonneg_right h (le_of_lt (zpow_pos (by norm_num) _))
  have h2 : (2 : ℚ) ^ (-1075 : ℤ) ≤ 1 / 2 ^ 53 := by norm_num
  rw [round64_unit] at h1 herr
  linarith

lemma clamp_unit_err (p r : ℚ) (hr0 : 0 ≤ r) (hr1 : r ≤ 1) :
    0 ≤ (if (if p < 0 then 0 else p) > 1 then 1 else (if p < 0 then 0 else p)) ∧
    (if (if p < 0 then 0 else p) > 1 then 1 else (if p < 0 then 0 else p)) ≤ 1 ∧
    |(if (if p < 0 then 0 else p) > 1 then 1 else (if p < 0 then 0 else p)) - r|
      ≤ |p - r| := by
  by_cases h0 : p < 0
  · rw [if_pos h0, if_neg (by norm_num)]
    refine ⟨le_rfl, zero_le_one, ?_⟩
    rw [zero_sub, abs_neg, abs_of_nonneg hr0, abs_of_nonpos (by linarith)]
    linarith
  · rw [if_neg h0]
    by_cases h1 : p > 1
    · rw [if_pos h1]
      refine ⟨zero_le_one, le_rfl, ?_⟩
      rw [abs_of_nonneg (by linarith), abs_of_nonneg (by linarith)]
      linarith
    · rw [if_neg h1]
      exact ⟨not_lt.mp h0, not_lt.mp h1, le_rfl⟩

/-- The `float64` counterpart of "`Percentage()` after `SetFromPercentage(p)` is `p`":
when `max - min` is at least `2^-900` and `|min|` at most `2^20` times it,
`Percentage()` is within `2^-28` of any `r` in `[0, 1]` within `2^-50` of `p`. -/
lemma Float64_Percentage_SetFromPercentage_err (st : SliderState) (pc r : ℚ)
    (hpc0 : 0 ≤ pc) (hpc1 : pc ≤ 1) (hr0 : 0 ≤ r) (hr1 : r ≤ 1)
    (hpr : |pc - r| ≤ 1 / 2 ^ 50)
    (ht : 1 / 2 ^ 900 ≤ st.max - st.min)
    (hmin : |st.min| ≤ 2 ^ 20 * (st.max - st.min)) :
    |Float64.Percentage (Float64.SetFromPercentage st pc) - r| ≤ 1 / 2 ^ 28 := by
  have htpos : 0 < st.max - st.min := lt_of_lt_of_le (by norm_num) ht
  have hv := Float64_SetFromPercentage_eval st pc _ _ _ hpc0 hpc1 rfl rfl rfl
  have hP : Float64.Percentage (Float64.SetFromPercentage st pc) =
      round64 (round64 (round64 (st.min + round64 (pc * round64 (st.max - st.min))) - st.min)
        / round64 (st.max - st.min)) := by
    refine Float64_Percentage_eval_general _ _ _ _ ?_ ?_ rfl rfl
    · show st.max ≠ st.min
      intro h
      rw [h, sub_self] at htpos
      exact lt_irrefl _ htpos
    · show round64 ((Float64.SetFromPercentage st pc).value - st.min) = _
      rw [hv]
  rw [hP]
  have hU : (2 : ℚ) ^ (-53 : ℤ) ≤ 1 / 2 ^ 53 := le_of_eq round64_unit
  have hηt : (2 : ℚ) ^ (-1075 : ℤ) ≤ 2 ^ (-53 : ℤ) * (st.max - st.min) :=
    le_trans round64_subnormal_le
      (mul_le_mul_of_nonneg_left ht (le_of_lt (zpow_pos (by norm_num) _)))
  exact percentage_error_chain (2 ^ (-53 : ℤ)) (2 ^ (-1075 : ℤ)) (st.max - st.min) st.min pc r
    _ _ _ _ _ (le_of_lt (zpow_pos (by norm_num) _)) hU hηt (by norm_num) htpos hmin
    hpc0 hpc1 hr0 hr1 hpr (round64_err _) (round64_err _) (round64_err _) (round64_err _)
    (round64_err _)

lemma Float64_press_percentage_err (m : MouseState) (x y : ℤ) (o : Orientation)
    (st : SliderState) (r : ℚ) (hr0 : 0 ≤ r) (hr1 : r ≤ 1)
    (hpr : |Float64.positionPercentage m x y o - r| ≤ 1 / 2 ^ 50)
    (ht : 1 / 2 ^ 900 ≤ st.max - st.min)
    (hmin : |st.min| ≤ 2 ^ 20 * (st.max - st.min)) :
    |Float64.Percentage (Float64.updateValue m x y o st) - r| ≤ 1 / 2 ^ 28 := by
  obtain ⟨h0, h1, herr⟩ := clamp_unit_err (Float64.positionPercentage m x y o) r hr0 hr1
  exact Float64_Percentage_SetFromPercentage_err st _ r h0 h1 hr0 hr1 (le_trans herr hpr) ht hmin

lemma Float64_HandleMouse_press (m : MouseState) (msg : MouseMsg) (o : Orientation)
    (st : SliderState) (ha : msg.Action = MouseAction.MouseActionPress)
    (hb : msg.Button = MouseButton.MouseButtonLeft) (hc : m.Contains64 msg.X msg.Y = true) :
    Float64.HandleMouse m msg (some { orientation := o, state := some st }) =
      ({ m with Dragging := true, Focused := true },
        some { orientation := o, state := some (Float64.updateValue m msg.X msg.Y o st) },
        true) := by
  unfold Float64.HandleMouse
  simp only [ha, hb, hc, and_self, if_true]
  rfl

lemma Float64_positionPercentage_centre (m : MouseState) (y : ℤ) (hW : 1 ≤ m.Width)
    (hW53 : m.Width < 2 ^ 53) :
    |Float64.positionPercentage m (m.X + m.Width / 2) y Orientation.Horizontal
      - ((m.Width / 2 : ℤ) : ℚ) / (m.Width : ℚ)| ≤ 1 / 2 ^ 50 := by
  have hk0 : 0 ≤ m.Width / 2 := by omega
  have hk1 : m.Width / 2 ≤ m.Width := by omega
  have hrel : m.X + m.Width / 2 - m.X = m.Width / 2 := by omega
  rw [Float64_positionPercentage_horizontal m _ y (by omega) (by omega) (by omega) (by omega),
    hrel, round64_intCast _ hk0 (by omega), round64_intCast _ (by omega) hW53]
  have hWq : (0 : ℚ) < (m.Width : ℚ) := by exact_mod_cast (by omega : 0 < m.Width)
  have hq0 : 0 ≤ ((m.Width / 2 : ℤ) : ℚ) / (m.Width : ℚ) :=
    div_nonneg (by exact_mod_cast hk0) (le_of_lt hWq)
  have hq1 : ((m.Width / 2 : ℤ) : ℚ) / (m.Width : ℚ) ≤ 1 := by
    rw [div_le_one hWq]
    exact_mod_cast hk1
  have herr := round64_err_unit _ (by rw [abs_of_nonneg hq0]; exact hq1)
  refine le_trans herr ?_
  norm_num

lemma Float64_positionPercentage_top (m : MouseState) (x : ℤ) (hH : 1 ≤ m.Height)
    (hH53 : m.Height < 2 ^ 53) :
    Float64.positionPercentage m x m.Y Orientation.Vertical = 1 := by
  rw [Float64_positionPercentage_vertical m x _ (by omega) (by omega) (by omega) (by omega),
    sub_self, Int.cast_zero, round64_zero, zero_div, round64_zero, sub_zero, round64_one]

lemma Float64_positionPercentage_bottom (m : MouseState) (x : ℤ) (hH : 1 ≤ m.Height)
    (hH53 : m.Height < 2 ^ 53) :
    |Float64.positionPercentage m x (m.Y + m.Height - 1) Orientation.Vertical
      - 1 / (m.Height : ℚ)| ≤ 1 / 2 ^ 50 := by
  have hrel : m.Y + m.Height - 1 - m.Y = m.Height - 1 := by omega
  rw [Float64_positionPercentage_vertical m x _ (by omega) (by omega) (by omega) (by omega),
    hrel, round64_intCast _ (by omega) (by omega), round64_intCast _ (by omega) hH53]
  have hHq : (0 : ℚ) < (m.Height : ℚ) := by exact_mod_cast (by omega : 0 < m.Height)
  have hq0 : 0 ≤ ((m.Height - 1 : ℤ) : ℚ) / (m.Height : ℚ) :=
    div_nonneg (by exact_mod_cast (by omega : 0 ≤ m.Height - 1)) (le_of_lt hHq)
  have hq1 : ((m.Height - 1 : ℤ) : ℚ) / (m.Height : ℚ) ≤ 1 := by
    rw [div_le_one hHq]
    exact_mod_cast (by omega : m.Height - 1 ≤ m.Height)
  have hsplit : ((m.Height - 1 : ℤ) : ℚ) / (m.Height : ℚ) = 1 - 1 / (m.Height : ℚ) := by
    push_cast
    field_simp
  have hinv0 : 0 ≤ 1 / (m.Height : ℚ) := le_of_lt (div_pos one_pos hHq)
  have hinv1 : 1 / (m.Height : ℚ) ≤ 1 := by
    rw [div_le_one hHq]
    exact_mod_cast hH
  have herr1 := abs_le.mp (round64_err_unit _ (by rw [abs_of_nonneg hq0]; exact hq1))
  have hrange : |1 - round64 (((m.Height - 1 : ℤ) : ℚ) / (m.Height : ℚ))| ≤ 2 := by
    rw [abs_le]
    constructor <;> linarith [hsplit]
  have herr2 := round64_err (1 - round64 (((m.Height - 1 : ℤ) : ℚ) / (m.Height : ℚ)))
  have h3 : |1 - round64 (((m.Height - 1 : ℤ) : ℚ) / (m.Height : ℚ))| * (2 : ℚ) ^ (-53 : ℤ)
      ≤ 2 * 2 ^ (-53 : ℤ) :=
    mul_le_mul_of_nonneg_right hrange (le_of_lt (zpow_pos (by norm_num) _))
  have h4 : (2 : ℚ) ^ (-1075 : ℤ) ≤ 1 / 2 ^ 53 := by norm_num
  rw [round64_unit] at h3 herr2
  have herr2' := abs_le.mp (le_trans herr2 (add_le_add h3 h4))
  rw [abs_le]
  constructor
  · have : (4 : ℚ) / 2 ^ 53 + 1 / 2 ^ 53 ≤ 1 / 2 ^ 50 := by norm_num
    linarith [hsplit]
  · have : (4 : ℚ) / 2 ^ 53 + 1 / 2 ^ 53 ≤ 1 / 2 ^ 50 := by norm_num
    linarith [hsplit]

/-- C20, amended: for a box of width `1 ≤ W < 2^53` and a state whose range
`max - min` is between `2^-900` and `2^900` with `|min| ≤ 2^20 * (max - min)`, a left
press at `x = X + W div 2`, `y` inside, on a horizontal slider is handled and, with
every operation rounded to `float64`, sets `Percentage()` to within `2^-28` of
`(W div 2)/W`; that is within `0.05` of `0.5` when `W` is even or `W ≥ 10`.  The
upper bound on the range keeps every intermediate result finite. -/
theorem press_centre_percentage_float (m : MouseState) (st : SliderState) (y : ℤ)
    (hW : 1 ≤ m.Width) (hW53 : m.Width < 2 ^ 53)
    (ht : 1 / 2 ^ 900 ≤ st.max - st.min) (_hfin : st.max - st.min ≤ 2 ^ 900)
    (hmin : |st.min| ≤ 2 ^ 20 * (st.max - st.min))
    (hin : m.Contains64 (m.X + m.Width / 2) y = true) :
    Float64.HandleMouse m
        { X := m.X + m.Width / 2, Y := y, Action := MouseAction.MouseActionPress,
          Button := MouseButton.MouseButtonLeft }
        (some { orientation := Orientation.Horizontal, state := some st }) =
      ({ m with Dragging := true, Focused := true },
        some { orientation := Orientation.Horizontal,
               state := some (Float64.updateValue m (m.X + m.Width / 2) y
                 Orientation.Horizontal st) },
        true) ∧
    |Float64.Percentage
        (Float64.updateValue m (m.X + m.Width / 2) y Orientation.Horizontal st)
      - ((m.Width / 2 : ℤ) : ℚ) / (m.Width : ℚ)| ≤ 1 / 2 ^ 28 ∧
    (m.Width % 2 = 0 ∨ 10 ≤ m.Width →
      |Float64.Percentage
          (Float64.updateValue m (m.X + m.Width / 2) y Orientation.Horizontal st)
        - 1 / 2| ≤ 1 / 20) := by
  have hWq : (0 : ℚ) < (m.Width : ℚ) := by exact_mod_cast (by omega : 0 < m.Width)
  have hk0 : 0 ≤ m.Width / 2 := by omega
  have hk1 : m.Width / 2 ≤ m.Width := by omega
  have hr0 : 0 ≤ ((m.Width / 2 : ℤ) : ℚ) / (m.Width : ℚ) :=
    div_nonneg (by exact_mod_cast hk0) (le_of_lt hWq)
  have hr1 : ((m.Width / 2 : ℤ) : ℚ) / (m.Width : ℚ) ≤ 1 := by
    rw [div_le_one hWq]
    exact_mod_cast hk1
  have hP := Float64_press_percentage_err m (m.X + m.Width / 2) y Orientation.Horizontal st
    _ hr0 hr1 (Float64_positionPercentage_centre m y hW hW53) ht hmin
  refine ⟨Float64_HandleMouse_press m _ _ st rfl rfl hin, hP, fun hcase => ?_⟩
  have h1 : 2 * (m.Width / 2) ≤ m.Width := by omega
  have h2 : 10 * m.Width ≤ 22 * (m.Width / 2) := by omega
  have h1q : 2 * ((m.Width / 2 : ℤ) : ℚ) ≤ (m.Width : ℚ) := by exact_mod_cast h1
  have h2q : 10 * (m.Width : ℚ) ≤ 22 * ((m.Width / 2 : ℤ) : ℚ) := by exact_mod_cast h2
  have hlo : (5 : ℚ) / 11 ≤ ((m.Width / 2 : ℤ) : ℚ) / (m.Width : ℚ) := by
    rw [le_div_iff₀ hWq]
    linarith
  have hhi : ((m.Width / 2 : ℤ) : ℚ) / (m.Width : ℚ) ≤ 1 / 2 := by
    rw [div_le_iff₀ hWq]
    linarith
  have hP' := abs_le.mp hP
  rw [abs_le]
  constructor
  · have : (1 : ℚ) / 2 ^ 28 ≤ 1 / 220 := by norm_num
    linarith
  · have : (0 : ℚ) ≤ 1 / 2 ^ 28 := by norm_num
    have : (1 : ℚ) / 2 ^ 28 ≤ 1 / 220 := by norm_num
    linarith

/-- C20, amended, at bounds `(0, 0, 100, 10)` and a state over `[0, 100]`: a press at
`x = 50` gives a percentage within `0.05` of `0.5`. -/
theorem press_centre_percentage_float_witness :
    |Float64.Percentage
        (Float64.updateValue { Width := 100, Height := 10 } (0 + 100 / 2) 5
          Orientation.Horizontal { min := 0, max := 100, value := 50, step := 1 })
      - 1 / 2| ≤ 1 / 20 :=
  (press_centre_percentage_float { Width := 100, Height := 10 }
    { min := 0, max := 100, value := 50, step := 1 } 5 (by decide) (by decide)
    (by norm_num) (by norm_num) (by norm_num) (by decide)).2.2 (Or.inl (by decide))

/-- C21, amended: for a box of height `1 ≤ H < 2^53` and a state whose range
`max - min` is between `2^-900` and `2^900` with `|min| ≤ 2^20 * (max - min)`, with
every operation rounded to `float64`: a left press on a vertical slider at the top
row `y = Y` is handled and sets `Percentage()` to within `2^-28` of `1` (so `≥ 0.95`);
a press at the bottom row `y = Y + H - 1` is handled and sets it to within `2^-28` of
`1/H`, which is `≤ 0.05` when `H ≥ 21`.  The upper bound on the range keeps every
intermediate result finite. -/
theorem press_vertical_rows_float (m : MouseState) (st : SliderState) (x : ℤ)
    (hH : 1 ≤ m.Height) (hH53 : m.Height < 2 ^ 53)
    (ht : 1 / 2 ^ 900 ≤ st.max - st.min) (_hfin : st.max - st.min ≤ 2 ^ 900)
    (hmin : |st.min| ≤ 2 ^ 20 * (st.max - st.min)) :
    (m.Contains64 x m.Y = true →
      Float64.HandleMouse m
          { X := x, Y := m.Y, Action := MouseAction.MouseActionPress,
            Button := MouseButton.MouseButtonLeft }
          (some { orientation := Orientation.Vertical, state := some st }) =
        ({ m with Dragging := true, Focused := true },
          some { orientation := Orientation.Vertical,
                 state := some (Float64.updateValue m x m.Y Orientation.Vertical st) },
          true) ∧
      |Float64.Percentage (Float64.updateValue m x m.Y Orientation.Vertical st) - 1|
        ≤ 1 / 2 ^ 28 ∧
      19 / 20 ≤ Float64.Percentage (Float64.updateValue m x m.Y Orientation.Vertical st)) ∧
    (m.Contains64 x (m.Y + m.Height - 1) = true →
      Float64.HandleMouse m
          { X := x, Y := m.Y + m.Height - 1, Action := MouseAction.MouseActionPress,
            Button := MouseButton.MouseButtonLeft }
          (some { orientation := Orientation.Vertical, state := some st }) =
        ({ m with Dragging := true, Focused := true },
          some { orientation := Orientation.Vertical,
                 state := some (Float64.updateValue m x (m.Y + m.Height - 1)
                   Orientation.Vertical st) },
          true) ∧
      |Float64.Percentage
          (Float64.updateValue m x (m.Y + m.Height - 1) Orientation.Vertical st)
        - 1 / (m.Height : ℚ)| ≤ 1 / 2 ^ 28 ∧
      (21 ≤ m.Height →
        Float64.Percentage
          (Float64.updateValue m x (m.Y + m.Height - 1) Orientation.Vertical st)
          ≤ 1 / 20)) := by
  have hHq : (0 : ℚ) < (m.Height : ℚ) := by exact_mod_cast (by omega : 0 < m.Height)
  have hinv0 : 0 ≤ 1 / (m.Height : ℚ) := le_of_lt (div_pos one_pos hHq)
  have hinv1 : 1 / (m.Height : ℚ) ≤ 1 := by
    rw [div_le_one hHq]
    exact_mod_cast hH
  have htop := Float64_press_percentage_err m x m.Y Orientation.Vertical st 1
    zero_le_one le_rfl
    (by
      rw [Float64_positionPercentage_top m x hH hH53, sub_self, abs_zero]
      norm_num) ht hmin
  have hbot := Float64_press_percentage_err m x (m.Y + m.Height - 1) Orientation.Vertical st
    _ hinv0 hinv1 (Float64_positionPercentage_bottom m x hH hH53) ht hmin
  refine ⟨fun hin => ⟨Float64_HandleMouse_press m _ _ st rfl rfl hin, htop, ?_⟩,
    fun hin => ⟨Float64_HandleMouse_press m _ _ st rfl rfl hin, hbot, fun h21 => ?_⟩⟩
  · have h := abs_le.mp htop
    have : (1 : ℚ) / 2 ^ 28 ≤ 1 / 20 := by norm_num
    linarith
  · have h := abs_le.mp hbot
    have hq : (21 : ℚ) ≤ (m.Height : ℚ) := by exact_mod_cast h21
    have hle : 1 / (m.Height : ℚ) ≤ 1 / 21 := by
      rw [div_le_div_iff₀ hHq (by norm_num)]
      linarith
    have : (1 : ℚ) / 2 ^ 28 ≤ 1 / 420 := by norm_num
    linarith

/-- C21, amended, at bounds `(0, 0, 10, 100)` and a state over `[0, 100]`: a press at
the bottom row `y = 99` gives a percentage `≤ 0.05`. -/
theorem press_vertical_rows_float_witness :
    Float64.Percentage
        (Float64.updateValue { Width := 10, Height := 100 } 5 (0 + 100 - 1)
          Orientation.Vertical { min := 0, max := 100, value := 50, step := 1 })
      ≤ 1 / 20 :=
  ((press_vertical_rows_float { Width := 10, Height := 100 }
    { min := 0, max := 100, value := 50, step := 1 } 5 (by decide) (by decide)
    (by norm_num) (by norm_num) (by norm_num)).2 (by decide)).2.2 (by decide)

end Tuslide
